import Mathlib

/-!
# The KPL scanner (`scanner.c`)

A shallow embedding of the tokenizer core of `scanner.c` and theorems about it.

The scanner works on three process-wide variables (`currentChar`, `lineNo`,
`colNo`) owned by the character source; they are the fields of `State` here,
together with the bytes not yet read and the log of reported errors.  Every C
function becomes a function on `State`.  The loops of the C code (and the
self-call of `getToken`) are driven by a fuel argument: one unit per loop
iteration or call, `none` when the fuel runs out.

Characters are `Int`, as `currentChar` is in C: a byte read by `getc`, or `EOF`.
-/

namespace Scanner

/-! ## Declarations of `charcode.h`, `token.h`, `error.h` -/

/-- Character categories named by `scanner.c`; `CHAR_UNKNOWN` stands for every
category that only reaches the `default:` case of `getToken`. -/
inductive CharCode
  | CHAR_SPACE | CHAR_LETTER | CHAR_DIGIT | CHAR_PLUS | CHAR_MINUS | CHAR_TIMES
  | CHAR_SLASH | CHAR_LT | CHAR_GT | CHAR_EXCLAIMATION | CHAR_EQ | CHAR_COMMA
  | CHAR_PERIOD | CHAR_COLON | CHAR_SEMICOLON | CHAR_SINGLEQUOTE | CHAR_DOUBLEQUOTE
  | CHAR_LPAR | CHAR_RPAR | CHAR_MOD | CHAR_UNKNOWN
  deriving DecidableEq

/-- Token kinds, as enumerated by `printToken`. -/
inductive TokenType
  | TK_NONE | TK_IDENT | TK_NUMBER | TK_CHAR | TK_EOF
  | KW_PROGRAM | KW_CONST | KW_TYPE | KW_VAR | KW_INTEGER | KW_CHAR | KW_ARRAY
  | KW_OF | KW_FUNCTION | KW_PROCEDURE | KW_BEGIN | KW_END | KW_CALL | KW_IF
  | KW_THEN | KW_ELSE | KW_WHILE | KW_DO | KW_FOR | KW_TO | KW_REPEAT | KW_STRING
  | KW_BYTE | KW_UNTIL
  | SB_SEMICOLON | SB_COLON | SB_PERIOD | SB_COMMA | SB_ASSIGN | SB_EQ | SB_NEQ
  | SB_LT | SB_LE | SB_GT | SB_GE | SB_PLUS | SB_MINUS | SB_TIMES | SB_SLASH
  | SB_LPAR | SB_RPAR | SB_LSEL | SB_RSEL | SB_MOD | SB_POW
  deriving DecidableEq

/-- Error kinds passed to `error` by `scanner.c`. -/
inductive ErrorCode
  | ERR_ENDOFCOMMENT | ERR_IDENTTOOLONG | ERR_INVALIDCHARCONSTANT | ERR_INVALIDSYMBOL
  deriving DecidableEq

open CharCode TokenType ErrorCode

/-- The end-of-input sentinel of `stdio.h`. -/
def EOF : Int := -1

/-- The token record: kind, position, spelling (the characters stored in
`token->string` before the terminating NUL) and numeric value. -/
structure Token where
  tokenType : TokenType
  lineNo : Int
  colNo : Int
  string : List Int
  value : Int
  deriving DecidableEq

/-- Modelled from the spec: `makeToken` of token.c, the factory that stamps a
kind and a position on a fresh token; the payload fields start empty. -/
def makeToken (tokenType : TokenType) (lineNo colNo : Int) : Token :=
  { tokenType := tokenType, lineNo := lineNo, colNo := colNo, string := [], value := 0 }

/-- What `scanner.c` takes from files that are not part of it: the classifier
table `charCodes` (charcode.c), the keyword lookup `checkKeyword` and the
constant `MAX_IDENT_LEN` (token.h).  The table is read at `currentChar`, which
may be `EOF`; `charCodes EOF` is whatever that read yields. -/
structure Env where
  charCodes : Int → CharCode
  checkKeyword : List Int → TokenType
  MAX_IDENT_LEN : Nat

/-- The scan position (`currentChar`, `lineNo`, `colNo`), the bytes the
character source has not delivered yet, and the errors reported so far. -/
structure State where
  currentChar : Int
  input : List Nat
  lineNo : Int
  colNo : Int
  errors : List (ErrorCode × Int × Int)
  deriving DecidableEq

/-- Modelled from the spec: `readChar` of reader.c, "moves to the next
character, updates line/column: newline increments line and resets column, any
other character increments column"; at the end of the input the current
character becomes `EOF` and stays so. -/
def readChar (s : State) : State :=
  match s.input with
  | [] => { s with currentChar := EOF, colNo := s.colNo + 1 }
  | c :: cs =>
    if c = 10 then
      { s with currentChar := (c : Int), input := cs, lineNo := s.lineNo + 1, colNo := 0 }
    else
      { s with currentChar := (c : Int), input := cs, colNo := s.colNo + 1 }

/-- Modelled from the spec: `openInputStream` of reader.c on a readable file
with the given bytes: position 1-based, first character loaded. -/
def openInputStream (text : List Nat) : State :=
  readChar { currentChar := EOF, input := text, lineNo := 1, colNo := 0, errors := [] }

/-- Modelled from the spec: `error` of error.c, "records a lexical error tagged
with a kind and position; does not stop scanning". -/
def error (err : ErrorCode) (lineNo colNo : Int) (s : State) : State :=
  { s with errors := s.errors ++ [(err, lineNo, colNo)] }

/-- Arithmetic of a 32-bit `int`: the result reduced into `[-2^31, 2^31)`. -/
def wrapInt (v : Int) : Int := (v + 2147483648) % 4294967296 - 2147483648

/-! ## `scanner.c` -/

/-- The function `skipBlank`. -/
def skipBlank (env : Env) : Nat → State → Option State
  | 0, _ => none
  | fuel + 1, s =>
    if env.charCodes s.currentChar = CHAR_SPACE then skipBlank env fuel (readChar s)
    else some s

/-- The function `skipComment`, entered with the `*` of the opening `(*` as
the current character. -/
def skipComment (env : Env) : Nat → State → Option State
  | 0, _ => none
  | fuel + 1, s =>
    let s1 := readChar s
    if s1.currentChar = EOF then
      some (error ERR_ENDOFCOMMENT s1.lineNo s1.colNo s1)
    else if env.charCodes s1.currentChar = CHAR_TIMES then
      let s2 := readChar s1
      if env.charCodes s2.currentChar = CHAR_RPAR then some (readChar s2)
      else skipComment env fuel s2
    else skipComment env fuel s1

/-- The `while` loop of `readIdentifierOrKeyword`: `buf` is `token->string[0..i)`,
so `i` is `buf.length`. -/
def identLoop (env : Env) : Nat → List Int → State → Option (List Int × State)
  | 0, _, _ => none
  | fuel + 1, buf, s =>
    if env.charCodes s.currentChar = CHAR_LETTER ∨ env.charCodes s.currentChar = CHAR_DIGIT then
      identLoop env fuel
        (if (buf.length : Int) < (env.MAX_IDENT_LEN : Int) - 1 then buf ++ [s.currentChar] else buf)
        (readChar s)
    else some (buf, s)

/-- The function `readIdentifierOrKeyword`. -/
def readIdentifierOrKeyword (env : Env) (fuel : Nat) (s : State) : Option (Token × State) :=
  let token := makeToken TK_IDENT s.lineNo s.colNo
  match identLoop env fuel [] s with
  | none => none
  | some (buf, s1) =>
    let token := { token with string := buf }
    let s2 :=
      if (buf.length : Int) ≥ (env.MAX_IDENT_LEN : Int) - 1 then
        error ERR_IDENTTOOLONG token.lineNo token.colNo s1
      else s1
    let kw := env.checkKeyword token.string
    some (if kw ≠ TK_NONE then { token with tokenType := kw } else token, s2)

/-- The `while` loop of `readNumber`. -/
def numberLoop (env : Env) : Nat → Int → State → Option (Int × State)
  | 0, _, _ => none
  | fuel + 1, value, s =>
    if env.charCodes s.currentChar = CHAR_DIGIT then
      numberLoop env fuel (wrapInt (value * 10 + (s.currentChar - 48))) (readChar s)
    else some (value, s)

/-- The function `readNumber`. -/
def readNumber (env : Env) (fuel : Nat) (s : State) : Option (Token × State) :=
  let token := makeToken TK_NUMBER s.lineNo s.colNo
  match numberLoop env fuel 0 s with
  | none => none
  | some (value, s1) => some ({ token with value := value }, s1)

/-- The function `readCharConst`. -/
def readCharConst (env : Env) (s : State) : Token × State :=
  let token := makeToken TK_CHAR s.lineNo s.colNo
  let s1 := readChar s
  if s1.currentChar = EOF then
    ({ token with tokenType := TK_NONE },
      error ERR_INVALIDCHARCONSTANT token.lineNo token.colNo s1)
  else
    let token := { token with string := [s1.currentChar] }
    let s2 := readChar s1
    if env.charCodes s2.currentChar ≠ CHAR_SINGLEQUOTE then
      ({ token with tokenType := TK_NONE },
        error ERR_INVALIDCHARCONSTANT token.lineNo token.colNo s2)
    else (token, readChar s2)

/-- The `while` loop of `readTextLiteral`. -/
def textLoop (env : Env) : Nat → List Int → State → Option (List Int × State)
  | 0, _, _ => none
  | fuel + 1, buf, s =>
    if s.currentChar ≠ 34 ∧ s.currentChar ≠ EOF then
      textLoop env fuel
        (if (buf.length : Int) < (env.MAX_IDENT_LEN : Int) - 1 then buf ++ [s.currentChar] else buf)
        (readChar s)
    else some (buf, s)

/-- The function `readTextLiteral`. -/
def readTextLiteral (env : Env) (fuel : Nat) (s : State) : Option (Token × State) :=
  let token := makeToken TK_CHAR s.lineNo s.colNo
  match textLoop env fuel [] (readChar s) with
  | none => none
  | some (buf, s1) =>
    let token := { token with string := buf }
    if s1.currentChar = EOF then
      some ({ token with tokenType := TK_NONE },
        error ERR_INVALIDCHARCONSTANT token.lineNo token.colNo s1)
    else some (token, readChar s1)

/-- The `while` loop of the line comment in `getToken` (case `CHAR_SLASH`). -/
def skipLine : Nat → State → Option State
  | 0, _ => none
  | fuel + 1, s =>
    if s.currentChar ≠ 10 ∧ s.currentChar ≠ EOF then skipLine fuel (readChar s)
    else some s

/-- The function `getToken`. -/
def getToken (env : Env) : Nat → State → Option (Token × State)
  | 0, _ => none
  | fuel + 1, s =>
    if s.currentChar = EOF then some (makeToken TK_EOF s.lineNo s.colNo, s)
    else
      match env.charCodes s.currentChar with
      | CHAR_SPACE =>
        match skipBlank env fuel s with
        | none => none
        | some s1 => getToken env fuel s1
      | CHAR_LETTER => readIdentifierOrKeyword env fuel s
      | CHAR_DIGIT => readNumber env fuel s
      | CHAR_PLUS => some (makeToken SB_PLUS s.lineNo s.colNo, readChar s)
      | CHAR_MINUS => some (makeToken SB_MINUS s.lineNo s.colNo, readChar s)
      | CHAR_TIMES =>
        let s1 := readChar s
        if env.charCodes s1.currentChar = CHAR_TIMES then
          some (makeToken SB_POW s.lineNo s.colNo, readChar s1)
        else some (makeToken SB_TIMES s.lineNo s.colNo, s1)
      | CHAR_SLASH =>
        let s1 := readChar s
        if env.charCodes s1.currentChar = CHAR_SLASH then
          match skipLine fuel s1 with
          | none => none
          | some s2 => getToken env fuel s2
        else some (makeToken SB_SLASH s.lineNo s.colNo, s1)
      | CHAR_LT =>
        let s1 := readChar s
        if s1.currentChar = 61 then some (makeToken SB_LE s.lineNo s.colNo, readChar s1)
        else some (makeToken SB_LT s.lineNo s.colNo, s1)
      | CHAR_GT =>
        let s1 := readChar s
        if s1.currentChar = 61 then some (makeToken SB_GE s.lineNo s.colNo, readChar s1)
        else some (makeToken SB_GT s.lineNo s.colNo, s1)
      | CHAR_EXCLAIMATION =>
        let s1 := readChar s
        if s1.currentChar = 61 then some (makeToken SB_NEQ s.lineNo s.colNo, readChar s1)
        else some (makeToken TK_NONE s.lineNo s.colNo, error ERR_INVALIDSYMBOL s.lineNo s.colNo s1)
      | CHAR_EQ => some (makeToken SB_EQ s.lineNo s.colNo, readChar s)
      | CHAR_COMMA => some (makeToken SB_COMMA s.lineNo s.colNo, readChar s)
      | CHAR_PERIOD => some (makeToken SB_PERIOD s.lineNo s.colNo, readChar s)
      | CHAR_COLON =>
        let s1 := readChar s
        if s1.currentChar = 61 then
          let s2 := readChar s1
          some (makeToken SB_ASSIGN s2.lineNo s2.colNo, s2)
        else some (makeToken SB_COLON s1.lineNo s1.colNo, s1)
      | CHAR_SEMICOLON => some (makeToken SB_SEMICOLON s.lineNo s.colNo, readChar s)
      | CHAR_SINGLEQUOTE => some (readCharConst env s)
      | CHAR_DOUBLEQUOTE => readTextLiteral env fuel s
      | CHAR_LPAR =>
        let s1 := readChar s
        if env.charCodes s1.currentChar = CHAR_TIMES then
          match skipComment env fuel s1 with
          | none => none
          | some s2 => getToken env fuel s2
        else some (makeToken SB_LPAR s.lineNo s.colNo, s1)
      | CHAR_RPAR => some (makeToken SB_RPAR s.lineNo s.colNo, readChar s)
      | CHAR_MOD => some (makeToken SB_MOD s.lineNo s.colNo, readChar s)
      | CHAR_UNKNOWN =>
        some (makeToken TK_NONE s.lineNo s.colNo,
          readChar (error ERR_INVALIDSYMBOL s.lineNo s.colNo s))

/-- The token loop of `scan`: the tokens handed to `printToken`, in order, the
token that ends the loop, and the state at that point. -/
def scanLoop (env : Env) : Nat → State → Option (List Token × Token × State)
  | 0, _ => none
  | fuel + 1, s =>
    match getToken env fuel s with
    | none => none
    | some (token, s1) =>
      if token.tokenType ≠ TK_EOF then
        match scanLoop env fuel s1 with
        | none => none
        | some (printed, last, s2) => some (token :: printed, last, s2)
      else some ([], token, s1)

/-- The function `scan` on a file that opens and holds the bytes `text`. -/
def scan (env : Env) (fuel : Nat) (text : List Nat) : Option (List Token × Token × State) :=
  scanLoop env fuel (openInputStream text)

/-! ## A concrete environment -/

/-- Modelled from the spec: the classifier table of charcode.c, "a fixed
mapping from each possible input byte to a category (letter, digit, whitespace,
specific punctuation symbols, or other/invalid)", with the punctuation of
sections 4.1 and 4.5; blank, tab, line feed and carriage return are the
whitespace.  Outside `0..255` (so at `EOF`) the value is `CHAR_UNKNOWN`. -/
def kplCharCodes (c : Int) : CharCode :=
  if c = 32 ∨ c = 9 ∨ c = 10 ∨ c = 13 then CHAR_SPACE
  else if (65 ≤ c ∧ c ≤ 90) ∨ (97 ≤ c ∧ c ≤ 122) then CHAR_LETTER
  else if 48 ≤ c ∧ c ≤ 57 then CHAR_DIGIT
  else if c = 43 then CHAR_PLUS
  else if c = 45 then CHAR_MINUS
  else if c = 42 then CHAR_TIMES
  else if c = 47 then CHAR_SLASH
  else if c = 60 then CHAR_LT
  else if c = 62 then CHAR_GT
  else if c = 33 then CHAR_EXCLAIMATION
  else if c = 61 then CHAR_EQ
  else if c = 44 then CHAR_COMMA
  else if c = 46 then CHAR_PERIOD
  else if c = 58 then CHAR_COLON
  else if c = 59 then CHAR_SEMICOLON
  else if c = 39 then CHAR_SINGLEQUOTE
  else if c = 34 then CHAR_DOUBLEQUOTE
  else if c = 40 then CHAR_LPAR
  else if c = 41 then CHAR_RPAR
  else if c = 37 then CHAR_MOD
  else CHAR_UNKNOWN

/-- The bytes of a string literal, as the character source delivers them. -/
def bytes (text : String) : List Nat := text.toList.map Char.toNat

/-- The characters of a string literal, as stored in a spelling. -/
def chars (text : String) : List Int := text.toList.map (fun c => (c.toNat : Int))

/-- Modelled from the spec: the keyword table of token.c, the reserved words
of section 6 with "case-sensitive exact match". -/
def keywords : List (List Int × TokenType) :=
  [ (chars "program", KW_PROGRAM), (chars "const", KW_CONST), (chars "type", KW_TYPE),
    (chars "var", KW_VAR), (chars "integer", KW_INTEGER), (chars "char", KW_CHAR),
    (chars "array", KW_ARRAY), (chars "of", KW_OF), (chars "function", KW_FUNCTION),
    (chars "procedure", KW_PROCEDURE), (chars "begin", KW_BEGIN), (chars "end", KW_END),
    (chars "call", KW_CALL), (chars "if", KW_IF), (chars "then", KW_THEN),
    (chars "else", KW_ELSE), (chars "while", KW_WHILE), (chars "do", KW_DO),
    (chars "for", KW_FOR), (chars "to", KW_TO), (chars "repeat", KW_REPEAT),
    (chars "string", KW_STRING), (chars "byte", KW_BYTE), (chars "until", KW_UNTIL) ]

/-- Modelled from the spec: `checkKeyword` of token.c, "maps a finished
identifier spelling to a reserved-word token kind, or signals not a keyword". -/
def kplCheckKeyword (spelling : List Int) : TokenType :=
  match keywords.find? (fun entry => entry.1 = spelling) with
  | some entry => entry.2
  | none => TK_NONE

/-- The environment of the spec with a given `MAX_IDENT_LEN` (its value is in
token.h, which the spec does not quote). -/
def kplEnv (maxIdentLen : Nat) : Env :=
  { charCodes := kplCharCodes, checkKeyword := kplCheckKeyword, MAX_IDENT_LEN := maxIdentLen }

/-! ## Vocabulary of the statements -/

/-- The character the source delivers next when `rest` is what remains of the
file: its first byte, or `EOF` when nothing remains. -/
def nextChar : List Nat → Int
  | [] => EOF
  | c :: _ => (c : Int)

/-- A character on which the loop of `readIdentifierOrKeyword` goes on: one the
table classifies as a letter or a digit. -/
def isIdentChar (env : Env) (c : Int) : Prop :=
  env.charCodes c = CHAR_LETTER ∨ env.charCodes c = CHAR_DIGIT

instance (env : Env) (c : Int) : Decidable (isIdentChar env c) :=
  inferInstanceAs (Decidable (_ ∨ _))

/-- Reserved-word kinds: the `KW_` members of `TokenType`. -/
def isKeywordKind : TokenType → Bool
  | KW_PROGRAM | KW_CONST | KW_TYPE | KW_VAR | KW_INTEGER | KW_CHAR | KW_ARRAY | KW_OF
  | KW_FUNCTION | KW_PROCEDURE | KW_BEGIN | KW_END | KW_CALL | KW_IF | KW_THEN | KW_ELSE
  | KW_WHILE | KW_DO | KW_FOR | KW_TO | KW_REPEAT | KW_STRING | KW_BYTE | KW_UNTIL => true
  | _ => false

/-- The base-10 integer formed by a run of digit characters. -/
def decimalValue (digits : List Nat) : Nat :=
  digits.foldl (fun (v d : Nat) => v * 10 + (d - 48)) 0

/-- A decimal digit character the table classifies as a digit. -/
def isDigitChar (env : Env) (d : Nat) : Prop :=
  env.charCodes (d : Int) = CHAR_DIGIT ∧ 48 ≤ d ∧ d ≤ 57

instance (env : Env) (d : Nat) : Decidable (isDigitChar env d) :=
  inferInstanceAs (Decidable (_ ∧ _))

/-- The punctuation part of the classifier table: each punctuation character
of sections 4.1 and 4.5 has its own category, and `*` and `/` are the only
characters (end-of-input included) in theirs. -/
structure PunctTable (env : Env) : Prop where
  plus : env.charCodes 43 = CHAR_PLUS
  minus : env.charCodes 45 = CHAR_MINUS
  times : env.charCodes 42 = CHAR_TIMES
  slash : env.charCodes 47 = CHAR_SLASH
  lt : env.charCodes 60 = CHAR_LT
  gt : env.charCodes 62 = CHAR_GT
  exclaimation : env.charCodes 33 = CHAR_EXCLAIMATION
  eq : env.charCodes 61 = CHAR_EQ
  comma : env.charCodes 44 = CHAR_COMMA
  period : env.charCodes 46 = CHAR_PERIOD
  colon : env.charCodes 58 = CHAR_COLON
  semicolon : env.charCodes 59 = CHAR_SEMICOLON
  lpar : env.charCodes 40 = CHAR_LPAR
  rpar : env.charCodes 41 = CHAR_RPAR
  mod : env.charCodes 37 = CHAR_MOD
  only_times : ∀ c : Int, env.charCodes c = CHAR_TIMES → c = 42
  only_slash : ∀ c : Int, env.charCodes c = CHAR_SLASH → c = 47

/-- One call of `getToken` from `s`, with any fuel, returns a token of the given
kind and leaves the scanner in `s1`. -/
def getTokenGives (env : Env) (s : State) (kind : TokenType) (s1 : State) : Prop :=
  ∀ fuel : Nat, ∃ tok, getToken env (fuel + 1) s = some (tok, s1) ∧ tok.tokenType = kind

/-- Whether `*` immediately followed by `)` occurs in `body`. -/
def hasCommentEnd : List Nat → Bool
  | [] => false
  | c :: body => (c == 42 && body.head? == some 41) || hasCommentEnd body

/-- Two scanner states on the same text: same current character, same unread
bytes, and error logs with the same kinds in the same order; line, column and
the positions in the logs may differ. -/
def sameText (s t : State) : Prop :=
  s.currentChar = t.currentChar ∧ s.input = t.input ∧
    s.errors.map (fun e => e.1) = t.errors.map (fun e => e.1)

/-- Two tokens with the same kind and payload; positions may differ. -/
def sameToken (a b : Token) : Prop :=
  a.tokenType = b.tokenType ∧ a.string = b.string ∧ a.value = b.value

/-- The tokens returned by `k` successive calls of `getToken` (each with the
given fuel) and the state after the last one. -/
def getTokenTimes (env : Env) (fuel : Nat) : Nat → State → Option (List Token × State)
  | 0, s => some ([], s)
  | k + 1, s =>
    match getToken env fuel s with
    | none => none
    | some (tok, s1) =>
      match getTokenTimes env fuel k s1 with
      | none => none
      | some (toks, s2) => some (tok :: toks, s2)

/-- What one call of `getToken` can add to the error log `before`, and the kind
of token that goes with it: nothing, with a token that is not `TK_NONE`; or
exactly one error, which is an unterminated comment with `TK_EOF`, an
identifier too long with the identifier or keyword token, or an invalid
character constant or invalid symbol with `TK_NONE`. -/
def callOutcome (env : Env) (before : List (ErrorCode × Int × Int)) (tok : Token)
    (after : List (ErrorCode × Int × Int)) : Prop :=
  (after = before ∧ tok.tokenType ≠ TK_NONE) ∨
  (∃ ln cn, after = before ++ [(ERR_ENDOFCOMMENT, ln, cn)] ∧ tok.tokenType = TK_EOF) ∨
  (∃ ln cn, after = before ++ [(ERR_IDENTTOOLONG, ln, cn)] ∧ tok.tokenType ≠ TK_NONE ∧
    (tok.tokenType = TK_IDENT ∨ tok.tokenType = env.checkKeyword tok.string)) ∨
  (∃ ln cn, after = before ++ [(ERR_INVALIDCHARCONSTANT, ln, cn)] ∧ tok.tokenType = TK_NONE) ∨
  (∃ ln cn, after = before ++ [(ERR_INVALIDSYMBOL, ln, cn)] ∧ tok.tokenType = TK_NONE)

/-- The number of characters that remain to be consumed: the unread bytes, and
the current character unless it is `EOF`. -/
def remaining (s : State) : Nat :=
  s.input.length + (if s.currentChar = EOF then 0 else 1)

/-- The environment `env` with the value read from the table at `EOF` replaced
by `code`; on every byte the table is the one of `env`. -/
def withEof (env : Env) (code : CharCode) : Env :=
  { env with charCodes := fun c => if c = EOF then code else env.charCodes c }

/-- A state on whitespace up to the end of the input, for a table whose value
read at `EOF` is `CHAR_SPACE` too: the current character and every unread byte
are classified `CHAR_SPACE`. -/
def blankToEnd (env : Env) (s : State) : Prop :=
  env.charCodes s.currentChar = CHAR_SPACE ∧ ∀ c ∈ s.input, env.charCodes (c : Int) = CHAR_SPACE

/-! ## The character source -/

/-- After `readChar` the current character is the first unread byte, or `EOF`. -/
theorem readChar_currentChar (s : State) : (readChar s).currentChar = nextChar s.input := by
  unfold readChar nextChar
  split
  · rfl
  · split <;> rfl

/-- One call of `readChar` takes one byte off the unread input. -/
theorem readChar_input (s : State) : (readChar s).input = s.input.tail := by
  unfold readChar
  split
  · simp [*]
  · split <;> simp [*]

/-- The character source reports no error. -/
theorem readChar_errors (s : State) : (readChar s).errors = s.errors := by
  unfold readChar
  split
  · rfl
  · split <;> rfl

/-- No byte is the end-of-input sentinel. -/
theorem nat_ne_EOF (c : Nat) : (c : Int) ≠ EOF := by
  unfold EOF; omega

/-- Advancing the cursor any number of times leaves the error log as it is. -/
theorem iterate_readChar_errors (k : Nat) (s : State) : (readChar^[k] s).errors = s.errors := by
  induction k generalizing s with
  | zero => rfl
  | succ k ih => rw [Function.iterate_succ_apply, ih, readChar_errors]

/-- Advancing the cursor `k` times takes `k` bytes off the unread input. -/
theorem iterate_readChar_input (k : Nat) (s : State) : (readChar^[k] s).input = s.input.drop k := by
  induction k generalizing s with
  | zero => rfl
  | succ k ih =>
    rw [Function.iterate_succ_apply, ih, readChar_input]
    cases s.input <;> simp

/-- More fuel does not change a result of `skipBlank`. -/
theorem skipBlank_mono (env : Env) (fuel : Nat) : ∀ (fuel2 : Nat) (s r : State), fuel ≤ fuel2 →
    skipBlank env fuel s = some r → skipBlank env fuel2 s = some r := by
  induction fuel with
  | zero => intro fuel2 s r _ h; simp [skipBlank] at h
  | succ f ih =>
    intro fuel2 s r hle h
    obtain ⟨g, rfl⟩ : ∃ g, fuel2 = g + 1 := ⟨fuel2 - 1, by omega⟩
    simp only [skipBlank] at h ⊢
    split
    · rename_i hc; rw [if_pos hc] at h; exact ih g _ _ (by omega) h
    · rename_i hc; rw [if_neg hc] at h; exact h


/-- More fuel does not change a result of `skipLine`. -/
theorem skipLine_mono (fuel : Nat) : ∀ (fuel2 : Nat) (s r : State), fuel ≤ fuel2 →
    skipLine fuel s = some r → skipLine fuel2 s = some r := by
  induction fuel with
  | zero => intro fuel2 s r _ h; simp [skipLine] at h
  | succ f ih =>
    intro fuel2 s r hle h
    obtain ⟨g, rfl⟩ : ∃ g, fuel2 = g + 1 := ⟨fuel2 - 1, by omega⟩
    simp only [skipLine] at h ⊢
    split
    · rename_i hc; rw [if_pos hc] at h; exact ih g _ _ (by omega) h
    · rename_i hc; rw [if_neg hc] at h; exact h

/-- More fuel does not change a result of `skipComment`. -/
theorem skipComment_mono (env : Env) (fuel : Nat) : ∀ (fuel2 : Nat) (s r : State), fuel ≤ fuel2 →
    skipComment env fuel s = some r → skipComment env fuel2 s = some r := by
  induction fuel with
  | zero => intro fuel2 s r _ h; simp [skipComment] at h
  | succ f ih =>
    intro fuel2 s r hle h
    obtain ⟨g, rfl⟩ : ∃ g, fuel2 = g + 1 := ⟨fuel2 - 1, by omega⟩
    simp only [skipComment] at h ⊢
    split
    · rename_i hc; rw [if_pos hc] at h; exact h
    · rename_i hc
      rw [if_neg hc] at h
      split
      · rename_i ht
        rw [if_pos ht] at h
        split
        · rename_i hr; rw [if_pos hr] at h; exact h
        · rename_i hr; rw [if_neg hr] at h; exact ih g _ _ (by omega) h
      · rename_i ht; rw [if_neg ht] at h; exact ih g _ _ (by omega) h

/-- More fuel does not change a result of `identLoop`. -/
theorem identLoop_mono (env : Env) (fuel : Nat) : ∀ (fuel2 : Nat) (buf : List Int) (s : State)
    (r : List Int × State), fuel ≤ fuel2 →
    identLoop env fuel buf s = some r → identLoop env fuel2 buf s = some r := by
  induction fuel with
  | zero => intro fuel2 buf s r _ h; simp [identLoop] at h
  | succ f ih =>
    intro fuel2 buf s r hle h
    obtain ⟨g, rfl⟩ : ∃ g, fuel2 = g + 1 := ⟨fuel2 - 1, by omega⟩
    simp only [identLoop] at h ⊢
    split
    · rename_i hc; rw [if_pos hc] at h; exact ih g _ _ _ (by omega) h
    · rename_i hc; rw [if_neg hc] at h; exact h

/-- More fuel does not change a result of `numberLoop`. -/
theorem numberLoop_mono (env : Env) (fuel : Nat) : ∀ (fuel2 : Nat) (v : Int) (s : State)
    (r : Int × State), fuel ≤ fuel2 →
    numberLoop env fuel v s = some r → numberLoop env fuel2 v s = some r := by
  induction fuel with
  | zero => intro fuel2 v s r _ h; simp [numberLoop] at h
  | succ f ih =>
    intro fuel2 v s r hle h
    obtain ⟨g, rfl⟩ : ∃ g, fuel2 = g + 1 := ⟨fuel2 - 1, by omega⟩
    simp only [numberLoop] at h ⊢
    split
    · rename_i hc; rw [if_pos hc] at h; exact ih g _ _ _ (by omega) h
    · rename_i hc; rw [if_neg hc] at h; exact h

/-- More fuel does not change a result of `textLoop`. -/
theorem textLoop_mono (env : Env) (fuel : Nat) : ∀ (fuel2 : Nat) (buf : List Int) (s : State)
    (r : List Int × State), fuel ≤ fuel2 →
    textLoop env fuel buf s = some r → textLoop env fuel2 buf s = some r := by
  induction fuel with
  | zero => intro fuel2 buf s r _ h; simp [textLoop] at h
  | succ f ih =>
    intro fuel2 buf s r hle h
    obtain ⟨g, rfl⟩ : ∃ g, fuel2 = g + 1 := ⟨fuel2 - 1, by omega⟩
    simp only [textLoop] at h ⊢
    split
    · rename_i hc; rw [if_pos hc] at h; exact ih g _ _ _ (by omega) h
    · rename_i hc; rw [if_neg hc] at h; exact h

/-- More fuel does not change a result of `readIdentifierOrKeyword`. -/
theorem readIdentifierOrKeyword_mono (env : Env) (fuel fuel2 : Nat) (s : State)
    (r : Token × State) (hle : fuel ≤ fuel2)
    (h : readIdentifierOrKeyword env fuel s = some r) :
    readIdentifierOrKeyword env fuel2 s = some r := by
  unfold readIdentifierOrKeyword at h ⊢
  cases hl : identLoop env fuel [] s with
  | none => simp [hl] at h
  | some p => rw [identLoop_mono env fuel fuel2 [] s p hle hl]; rw [hl] at h; exact h

/-- More fuel does not change a result of `readNumber`. -/
theorem readNumber_mono (env : Env) (fuel fuel2 : Nat) (s : State)
    (r : Token × State) (hle : fuel ≤ fuel2)
    (h : readNumber env fuel s = some r) : readNumber env fuel2 s = some r := by
  unfold readNumber at h ⊢
  cases hl : numberLoop env fuel 0 s with
  | none => simp [hl] at h
  | some p => rw [numberLoop_mono env fuel fuel2 0 s p hle hl]; rw [hl] at h; exact h

/-- More fuel does not change a result of `readTextLiteral`. -/
theorem readTextLiteral_mono (env : Env) (fuel fuel2 : Nat) (s : State)
    (r : Token × State) (hle : fuel ≤ fuel2)
    (h : readTextLiteral env fuel s = some r) : readTextLiteral env fuel2 s = some r := by
  unfold readTextLiteral at h ⊢
  cases hl : textLoop env fuel [] (readChar s) with
  | none => simp [hl] at h
  | some p => rw [textLoop_mono env fuel fuel2 [] _ p hle hl]; rw [hl] at h; exact h

/-- More fuel does not change a result of `getToken`. -/
theorem getToken_mono (env : Env) (fuel : Nat) : ∀ (fuel2 : Nat) (s : State)
    (r : Token × State), fuel ≤ fuel2 →
    getToken env fuel s = some r → getToken env fuel2 s = some r := by
  induction fuel with
  | zero => intro fuel2 s r _ h; simp [getToken] at h
  | succ f ih =>
    intro fuel2 s r hle h
    obtain ⟨g, rfl⟩ : ∃ g, fuel2 = g + 1 := ⟨fuel2 - 1, by omega⟩
    have hfg : f ≤ g := by omega
    unfold getToken at h ⊢
    by_cases he : s.currentChar = EOF
    · rw [if_pos he] at h ⊢; exact h
    · rw [if_neg he] at h ⊢
      revert h
      cases hc : env.charCodes s.currentChar with
      | CHAR_SPACE =>
        intro h
        dsimp only at h ⊢
        cases hb : skipBlank env f s with
        | none => simp [hb] at h
        | some s1 =>
          rw [skipBlank_mono env f g s s1 hfg hb]
          rw [hb] at h
          exact ih g s1 r hfg h
      | CHAR_LETTER => exact readIdentifierOrKeyword_mono env f g s r hfg
      | CHAR_DIGIT => exact readNumber_mono env f g s r hfg
      | CHAR_DOUBLEQUOTE => exact readTextLiteral_mono env f g s r hfg
      | CHAR_SLASH =>
        intro h
        dsimp only at h ⊢
        split
        · rename_i hs
          rw [if_pos hs] at h
          cases hb : skipLine f (readChar s) with
          | none => simp [hb] at h
          | some s1 =>
            rw [skipLine_mono f g _ s1 hfg hb]
            rw [hb] at h
            exact ih g s1 r hfg h
        · rename_i hs; rw [if_neg hs] at h; exact h
      | CHAR_LPAR =>
        intro h
        dsimp only at h ⊢
        split
        · rename_i hs
          rw [if_pos hs] at h
          cases hb : skipComment env f (readChar s) with
          | none => simp [hb] at h
          | some s1 =>
            rw [skipComment_mono env f g _ s1 hfg hb]
            rw [hb] at h
            exact ih g s1 r hfg h
        · rename_i hs; rw [if_neg hs] at h; exact h
      | _ => exact id

/-! ## Identifiers and keywords -/

/-- One step of the bounded copy into the spelling, in terms of `List.take`. -/
theorem capped_append (m : Int) (M : Nat) (hm : m - 1 ≤ M ∧ ((M : Int) ≤ m - 1 ∨ M = 0))
    (buf : List Int) (c : Int) (l : List Int) (hb : buf.length ≤ M) :
    ((if (buf.length : Int) < m - 1 then buf ++ [c] else buf) ++ l).take M
        = (buf ++ c :: l).take M ∧
      (if (buf.length : Int) < m - 1 then buf ++ [c] else buf).length ≤ M := by
  by_cases h : (buf.length : Int) < m - 1
  · rw [if_pos h]
    refine ⟨by simp, ?_⟩
    simp only [List.length_append, List.length_singleton]
    omega
  · rw [if_neg h]
    have hlen : buf.length = M := by omega
    refine ⟨?_, hb⟩
    rw [List.take_append_of_le_length (by omega), List.take_append_of_le_length (by omega)]

/-- The identifier loop on a run of letters and digits: the spelling is the run cut at `MAX_IDENT_LEN - 1`, the cursor is past the run. -/
theorem identLoop_run (env : Env) (rest : List Nat)
    (hstop : ¬ isIdentChar env (nextChar rest)) :
    ∀ (cs : List Nat) (fuel : Nat) (buf : List Int) (s : State),
      (∀ d ∈ cs, isIdentChar env (d : Int)) → isIdentChar env s.currentChar →
      s.input = cs ++ rest → buf.length ≤ env.MAX_IDENT_LEN - 1 → cs.length + 2 ≤ fuel →
      identLoop env fuel buf s =
        some ((buf ++ s.currentChar :: cs.map (fun c : Nat => (c : Int))).take
          (env.MAX_IDENT_LEN - 1), readChar^[cs.length + 1] s) := by
  intro cs
  induction cs with
  | nil =>
    intro fuel buf s _ hcur hin hb hf
    obtain ⟨g, rfl⟩ : ∃ g, fuel = g + 2 := ⟨fuel - 2, by omega⟩
    have hnext : (readChar s).currentChar = nextChar rest := by
      rw [readChar_currentChar, hin]; rfl
    have hc := capped_append (env.MAX_IDENT_LEN : Int) (env.MAX_IDENT_LEN - 1) (by omega)
      buf s.currentChar [] hb
    unfold isIdentChar at hcur hstop
    rw [identLoop, if_pos hcur, identLoop, hnext, if_neg hstop]
    simp only [List.append_nil] at hc
    simp only [List.map_nil, List.length_nil, Nat.zero_add, Function.iterate_one]
    rw [← hc.1, List.take_of_length_le hc.2]
  | cons d ds ih =>
    intro fuel buf s hall hcur hin hb hf
    obtain ⟨g, rfl⟩ : ∃ g, fuel = g + 1 := ⟨fuel - 1, by omega⟩
    have hnext : (readChar s).currentChar = (d : Int) := by
      rw [readChar_currentChar, hin]; rfl
    have hin2 : (readChar s).input = ds ++ rest := by
      rw [readChar_input, hin]; rfl
    have hc := capped_append (env.MAX_IDENT_LEN : Int) (env.MAX_IDENT_LEN - 1) (by omega)
      buf s.currentChar ((d : Int) :: ds.map (fun c : Nat => (c : Int))) hb
    have hcur2 := hcur
    unfold isIdentChar at hcur2
    rw [identLoop, if_pos hcur2]
    rw [ih g _ (readChar s) (fun x hx => hall x (List.mem_cons_of_mem _ hx))
      (by rw [hnext]; exact hall d (List.mem_cons_self _ _)) hin2 hc.2
      (by simp only [List.length_cons] at hf; omega)]
    rw [hnext, hc.1]
    simp [Function.iterate_succ_apply]

/-- Where the cursor is after advancing over the current character and `cs`. -/
theorem iterate_readChar_run (cs rest : List Nat) (s : State) (hin : s.input = cs ++ rest) :
    (readChar^[cs.length + 1] s).currentChar = nextChar rest ∧
      (readChar^[cs.length + 1] s).input = rest.tail := by
  have h1 : (readChar^[cs.length] s).input = rest := by
    rw [iterate_readChar_input, hin]; simp
  rw [Function.iterate_succ_apply', readChar_currentChar, readChar_input, h1]
  exact ⟨rfl, rfl⟩

/-- The result of `readIdentifierOrKeyword` on a run of letters and digits, in full. -/
theorem readIdentifierOrKeyword_run (env : Env) (c : Nat) (cs rest : List Nat) (s : State)
    (fuel : Nat) (hcur : s.currentChar = (c : Int)) (hin : s.input = cs ++ rest)
    (hletter : env.charCodes (c : Int) = CHAR_LETTER)
    (hrun : ∀ d ∈ cs, isIdentChar env (d : Int))
    (hstop : ¬ isIdentChar env (nextChar rest)) (hfuel : cs.length + 2 ≤ fuel) :
    readIdentifierOrKeyword env fuel s =
      some
        ({ tokenType :=
              if env.checkKeyword (((c :: cs).map (fun x : Nat => (x : Int))).take
                  (env.MAX_IDENT_LEN - 1)) ≠ TK_NONE then
                env.checkKeyword (((c :: cs).map (fun x : Nat => (x : Int))).take
                  (env.MAX_IDENT_LEN - 1))
              else TK_IDENT
           lineNo := s.lineNo
           colNo := s.colNo
           string := ((c :: cs).map (fun x : Nat => (x : Int))).take (env.MAX_IDENT_LEN - 1)
           value := 0 },
          if env.MAX_IDENT_LEN - 1 ≤ (c :: cs).length then
            error ERR_IDENTTOOLONG s.lineNo s.colNo (readChar^[cs.length + 1] s)
          else readChar^[cs.length + 1] s) := by
  have hl := identLoop_run env rest hstop cs fuel [] s hrun
    (by rw [hcur]; exact Or.inl hletter) hin (Nat.zero_le _) hfuel
  unfold readIdentifierOrKeyword
  rw [hl, hcur]
  have hlenbuf : (List.take (env.MAX_IDENT_LEN - 1)
      ([] ++ (c : Int) :: List.map (fun x : Nat => (x : Int)) cs)).length
        = min (env.MAX_IDENT_LEN - 1) (cs.length + 1) := by simp
  have hstate : (if ((List.take (env.MAX_IDENT_LEN - 1)
        ([] ++ (c : Int) :: List.map (fun x : Nat => (x : Int)) cs)).length : Int)
          ≥ (env.MAX_IDENT_LEN : Int) - 1 then
        error ERR_IDENTTOOLONG s.lineNo s.colNo (readChar^[cs.length + 1] s)
      else readChar^[cs.length + 1] s) =
      (if env.MAX_IDENT_LEN - 1 ≤ (c :: cs).length then
        error ERR_IDENTTOOLONG s.lineNo s.colNo (readChar^[cs.length + 1] s)
      else readChar^[cs.length + 1] s) := by
    rw [hlenbuf, List.length_cons]
    by_cases hlen : env.MAX_IDENT_LEN - 1 ≤ cs.length + 1
    · rw [if_pos hlen, if_pos (by omega)]
    · rw [if_neg hlen, if_neg (by omega)]
  dsimp only [makeToken]
  rw [hstate]
  by_cases hk : env.checkKeyword (List.take (env.MAX_IDENT_LEN - 1)
      ((c : Int) :: List.map (fun x : Nat => (x : Int)) cs)) = TK_NONE
  · simp [hk]
  · simp [hk]

/-- On a letter `getToken` is `readIdentifierOrKeyword`. -/
theorem getToken_letter (env : Env) (c : Nat) (s : State) (fuel : Nat)
    (hcur : s.currentChar = (c : Int)) (hletter : env.charCodes (c : Int) = CHAR_LETTER) :
    getToken env (fuel + 1) s = readIdentifierOrKeyword env fuel s := by
  have hne : s.currentChar ≠ EOF := by rw [hcur]; exact nat_ne_EOF c
  rw [getToken, if_neg hne, hcur, hletter]

/-- C4: an identifier run `c :: cs` (a letter, then letters and digits, followed
by a character that is neither) whose retained spelling is not a keyword gives
a `TK_IDENT` token; its spelling is the whole run when the run has at most
`MAX_IDENT_LEN - 1` characters and the first `MAX_IDENT_LEN - 1` of them
otherwise; the whole run is consumed: the cursor is on the first character
after the run. -/
theorem getToken_identifier_spelling (env : Env) (c : Nat) (cs rest : List Nat) (s : State)
    (fuel : Nat) (hcur : s.currentChar = (c : Int)) (hin : s.input = cs ++ rest)
    (hletter : env.charCodes (c : Int) = CHAR_LETTER)
    (hrun : ∀ d ∈ cs, isIdentChar env (d : Int))
    (hstop : ¬ isIdentChar env (nextChar rest))
    (hkw : env.checkKeyword (((c :: cs).map (fun x : Nat => (x : Int))).take
      (env.MAX_IDENT_LEN - 1)) = TK_NONE)
    (hfuel : cs.length + 3 ≤ fuel) :
    ∃ tok s1, getToken env fuel s = some (tok, s1) ∧ tok.tokenType = TK_IDENT ∧
      tok.string =
        (if (c :: cs).length ≤ env.MAX_IDENT_LEN - 1 then (c :: cs).map (fun x : Nat => (x : Int))
         else ((c :: cs).map (fun x : Nat => (x : Int))).take (env.MAX_IDENT_LEN - 1)) ∧
      s1.currentChar = nextChar rest ∧ s1.input = rest.tail := by
  obtain ⟨g, rfl⟩ : ∃ g, fuel = g + 1 := ⟨fuel - 1, by omega⟩
  rw [getToken_letter env c s g hcur hletter,
    readIdentifierOrKeyword_run env c cs rest s g hcur hin hletter hrun hstop (by omega)]
  refine ⟨_, _, rfl, ?_, ?_, ?_⟩
  · simp only [hkw, ne_eq, not_true_eq_false, if_false]
  · show List.take _ _ = _
    by_cases h : (c :: cs).length ≤ env.MAX_IDENT_LEN - 1
    · rw [if_pos h]
      exact List.take_of_length_le (by simpa using h)
    · rw [if_neg h]
  · have hit := iterate_readChar_run cs rest s hin
    by_cases h : env.MAX_IDENT_LEN - 1 ≤ (c :: cs).length
    · rw [if_pos h]; exact hit
    · rw [if_neg h]; exact hit

/-- C4 at `abc1 ` with `MAX_IDENT_LEN = 15`. -/
theorem getToken_identifier_spelling_witness :
    ∃ tok s1, getToken (kplEnv 15) 6 (openInputStream (bytes "abc1 ")) = some (tok, s1) ∧
      tok.tokenType = TK_IDENT ∧
      tok.string =
        (if (97 :: [98, 99, 49]).length ≤ (kplEnv 15).MAX_IDENT_LEN - 1 then
          (97 :: [98, 99, 49]).map (fun x : Nat => (x : Int))
         else ((97 :: [98, 99, 49]).map (fun x : Nat => (x : Int))).take
          ((kplEnv 15).MAX_IDENT_LEN - 1)) ∧
      s1.currentChar = nextChar [32] ∧ s1.input = [32].tail :=
  getToken_identifier_spelling (kplEnv 15) 97 [98, 99, 49] [32] (openInputStream (bytes "abc1 ")) 6
    (by decide) (by decide) (by decide) (by decide) (by decide) (by decide) (by decide)

/-- C5: on an identifier run `c :: cs`, `ERR_IDENTTOOLONG` is reported (once, at
the start of the token) exactly when the run has at least `MAX_IDENT_LEN - 1`
characters, and in no other case is an error reported.  In particular a run of
exactly `MAX_IDENT_LEN - 1` characters is stored whole in the spelling, nothing
is dropped, and the error is reported all the same. -/
theorem getToken_identifier_too_long (env : Env) (c : Nat) (cs rest : List Nat) (s : State)
    (fuel : Nat) (hcur : s.currentChar = (c : Int)) (hin : s.input = cs ++ rest)
    (hletter : env.charCodes (c : Int) = CHAR_LETTER)
    (hrun : ∀ d ∈ cs, isIdentChar env (d : Int))
    (hstop : ¬ isIdentChar env (nextChar rest))
    (hfuel : cs.length + 3 ≤ fuel) :
    ∃ tok s1, getToken env fuel s = some (tok, s1) ∧
      s1.errors =
        (if env.MAX_IDENT_LEN - 1 ≤ (c :: cs).length then
          s.errors ++ [(ERR_IDENTTOOLONG, s.lineNo, s.colNo)]
         else s.errors) ∧
      ((c :: cs).length = env.MAX_IDENT_LEN - 1 →
        tok.string = (c :: cs).map (fun x : Nat => (x : Int)) ∧
        s1.errors = s.errors ++ [(ERR_IDENTTOOLONG, s.lineNo, s.colNo)]) := by
  obtain ⟨g, rfl⟩ : ∃ g, fuel = g + 1 := ⟨fuel - 1, by omega⟩
  rw [getToken_letter env c s g hcur hletter,
    readIdentifierOrKeyword_run env c cs rest s g hcur hin hletter hrun hstop (by omega)]
  have herr : (if env.MAX_IDENT_LEN - 1 ≤ (c :: cs).length then
        error ERR_IDENTTOOLONG s.lineNo s.colNo (readChar^[cs.length + 1] s)
      else readChar^[cs.length + 1] s).errors =
      (if env.MAX_IDENT_LEN - 1 ≤ (c :: cs).length then
        s.errors ++ [(ERR_IDENTTOOLONG, s.lineNo, s.colNo)]
       else s.errors) := by
    by_cases h : env.MAX_IDENT_LEN - 1 ≤ (c :: cs).length
    · rw [if_pos h, if_pos h]
      show (readChar^[cs.length + 1] s).errors ++ _ = _
      rw [iterate_readChar_errors]
    · rw [if_neg h, if_neg h, iterate_readChar_errors]
  refine ⟨_, _, rfl, herr, ?_⟩
  intro hlen
  refine ⟨?_, ?_⟩
  · show List.take _ _ = _
    exact List.take_of_length_le (by simp only [List.length_map]; omega)
  · rw [herr, if_pos (by omega)]

/-- C5 at the fourteen letters `abcdefghijklmn` with `MAX_IDENT_LEN = 15`: the
spelling holds all fourteen and the error is reported. -/
theorem getToken_identifier_too_long_witness :
    ∃ tok s1, getToken (kplEnv 15) 16 (openInputStream (bytes "abcdefghijklmn")) = some (tok, s1) ∧
      s1.errors =
        (if (kplEnv 15).MAX_IDENT_LEN - 1 ≤
            (97 :: [98, 99, 100, 101, 102, 103, 104, 105, 106, 107, 108, 109, 110]).length then
          (openInputStream (bytes "abcdefghijklmn")).errors ++
            [(ERR_IDENTTOOLONG, (openInputStream (bytes "abcdefghijklmn")).lineNo,
              (openInputStream (bytes "abcdefghijklmn")).colNo)]
         else (openInputStream (bytes "abcdefghijklmn")).errors) ∧
      ((97 :: [98, 99, 100, 101, 102, 103, 104, 105, 106, 107, 108, 109, 110]).length =
          (kplEnv 15).MAX_IDENT_LEN - 1 →
        tok.string = (97 :: [98, 99, 100, 101, 102, 103, 104, 105, 106, 107, 108, 109, 110]).map
          (fun x : Nat => (x : Int)) ∧
        s1.errors = (openInputStream (bytes "abcdefghijklmn")).errors ++
          [(ERR_IDENTTOOLONG, (openInputStream (bytes "abcdefghijklmn")).lineNo,
            (openInputStream (bytes "abcdefghijklmn")).colNo)]) :=
  getToken_identifier_too_long (kplEnv 15) 97
    [98, 99, 100, 101, 102, 103, 104, 105, 106, 107, 108, 109, 110] []
    (openInputStream (bytes "abcdefghijklmn")) 16
    (by decide) (by decide) (by decide) (by decide) (by decide) (by decide)

/-- C6: on an identifier-shaped run `c :: cs` the kind of the token is decided by
`checkKeyword` on the retained (possibly truncated) spelling: an answer `k`
other than `TK_NONE` is the kind of the token, so a reserved-word kind is
returned and never `TK_IDENT`; the answer `TK_NONE` gives `TK_IDENT`. -/
theorem getToken_keyword_kind (env : Env) (c : Nat) (cs rest : List Nat) (s : State)
    (fuel : Nat) (k : TokenType) (hcur : s.currentChar = (c : Int)) (hin : s.input = cs ++ rest)
    (hletter : env.charCodes (c : Int) = CHAR_LETTER)
    (hrun : ∀ d ∈ cs, isIdentChar env (d : Int))
    (hstop : ¬ isIdentChar env (nextChar rest))
    (hk : env.checkKeyword (((c :: cs).map (fun x : Nat => (x : Int))).take
      (env.MAX_IDENT_LEN - 1)) = k)
    (hfuel : cs.length + 3 ≤ fuel) :
    ∃ tok s1, getToken env fuel s = some (tok, s1) ∧
      (k ≠ TK_NONE → tok.tokenType = k) ∧
      (isKeywordKind k = true → tok.tokenType = k ∧ tok.tokenType ≠ TK_IDENT) ∧
      (k = TK_NONE → tok.tokenType = TK_IDENT) := by
  obtain ⟨g, rfl⟩ : ∃ g, fuel = g + 1 := ⟨fuel - 1, by omega⟩
  rw [getToken_letter env c s g hcur hletter,
    readIdentifierOrKeyword_run env c cs rest s g hcur hin hletter hrun hstop (by omega)]
  refine ⟨_, _, rfl, ?_, ?_, ?_⟩
  · intro hne
    show (if _ then _ else _) = k
    rw [hk, if_pos hne]
  · intro hkw
    have hne : k ≠ TK_NONE := by intro h; rw [h] at hkw; exact absurd hkw (by decide)
    have hid : k ≠ TK_IDENT := by intro h; rw [h] at hkw; exact absurd hkw (by decide)
    show (if _ then _ else _) = k ∧ (if _ then _ else _) ≠ TK_IDENT
    rw [hk, if_pos hne]
    exact ⟨rfl, hid⟩
  · intro hnone
    show (if _ then _ else _) = TK_IDENT
    rw [hk, if_neg (by simpa using hnone)]

/-- C6 at `begin;`: the run is the reserved word `begin`. -/
theorem getToken_keyword_kind_witness :
    ∃ tok s1, getToken (kplEnv 15) 7 (openInputStream (bytes "begin;")) = some (tok, s1) ∧
      (KW_BEGIN ≠ TK_NONE → tok.tokenType = KW_BEGIN) ∧
      (isKeywordKind KW_BEGIN = true → tok.tokenType = KW_BEGIN ∧ tok.tokenType ≠ TK_IDENT) ∧
      (KW_BEGIN = TK_NONE → tok.tokenType = TK_IDENT) :=
  getToken_keyword_kind (kplEnv 15) 98 [101, 103, 105, 110] [59]
    (openInputStream (bytes "begin;")) 7 KW_BEGIN
    (by decide) (by decide) (by decide) (by decide) (by decide) (by decide) (by decide)

/-! ## Numbers -/

/-- A value in the range of `int` is not changed by the wrap-around. -/
theorem wrapInt_of_range (v : Int) (h0 : 0 ≤ v) (h1 : v ≤ 2147483647) : wrapInt v = v := by
  unfold wrapInt; omega

/-- Appending digits does not make the decimal value smaller. -/
theorem foldl_decimal_ge (ds : List Nat) :
    ∀ v : Nat, v ≤ ds.foldl (fun (v d : Nat) => v * 10 + (d - 48)) v := by
  induction ds with
  | nil => intro v; exact le_refl v
  | cons d ds ih =>
    intro v
    have := ih (v * 10 + (d - 48))
    simp only [List.foldl_cons]
    omega

/-- The number loop on a run of digits whose value fits an `int`. -/
theorem numberLoop_run (env : Env) (rest : List Nat)
    (hstop : env.charCodes (nextChar rest) ≠ CHAR_DIGIT) :
    ∀ (ds : List Nat) (fuel : Nat) (v : Nat) (d0 : Nat) (s : State),
      s.currentChar = (d0 : Int) → (∀ d ∈ d0 :: ds, isDigitChar env d) →
      s.input = ds ++ rest →
      (d0 :: ds).foldl (fun (v d : Nat) => v * 10 + (d - 48)) v ≤ 2147483647 →
      ds.length + 2 ≤ fuel →
      numberLoop env fuel (v : Int) s =
        some ((((d0 :: ds).foldl (fun (v d : Nat) => v * 10 + (d - 48)) v : Nat) : Int),
          readChar^[ds.length + 1] s) := by
  intro ds
  induction ds with
  | nil =>
    intro fuel v d0 s hcur hall hin hmax hf
    obtain ⟨g, rfl⟩ : ∃ g, fuel = g + 2 := ⟨fuel - 2, by omega⟩
    have hd0 := hall d0 (List.mem_cons_self _ _)
    have hnext : (readChar s).currentChar = nextChar rest := by
      rw [readChar_currentChar, hin]; rfl
    simp only [List.foldl_cons, List.foldl_nil] at hmax ⊢
    have hcast : (v : Int) * 10 + ((d0 : Int) - 48) = ((v * 10 + (d0 - 48) : Nat) : Int) := by
      have := hd0.2.1; omega
    rw [numberLoop, hcur, if_pos hd0.1, numberLoop, hnext, if_neg hstop, hcast,
      wrapInt_of_range _ (by omega) (by omega)]
    rfl
  | cons d ds ih =>
    intro fuel v d0 s hcur hall hin hmax hf
    obtain ⟨g, rfl⟩ : ∃ g, fuel = g + 1 := ⟨fuel - 1, by omega⟩
    have hd0 := hall d0 (List.mem_cons_self _ _)
    have hnext : (readChar s).currentChar = (d : Int) := by
      rw [readChar_currentChar, hin]; rfl
    have hin2 : (readChar s).input = ds ++ rest := by
      rw [readChar_input, hin]; rfl
    have hcast : (v : Int) * 10 + ((d0 : Int) - 48) = ((v * 10 + (d0 - 48) : Nat) : Int) := by
      have := hd0.2.1; omega
    have hge := foldl_decimal_ge (d :: ds) (v * 10 + (d0 - 48))
    rw [List.foldl_cons] at hmax ⊢
    rw [numberLoop, hcur, if_pos hd0.1, hcast, wrapInt_of_range _ (by omega) (by omega)]
    rw [ih g _ d (readChar s) hnext (fun x hx => hall x (List.mem_cons_of_mem _ hx)) hin2
      hmax (by simp only [List.length_cons] at hf; omega)]
    simp only [List.length_cons, Function.iterate_succ_apply]

/-- On a digit `getToken` is `readNumber`. -/
theorem getToken_digit (env : Env) (d : Nat) (s : State) (fuel : Nat)
    (hcur : s.currentChar = (d : Int)) (hdigit : env.charCodes (d : Int) = CHAR_DIGIT) :
    getToken env (fuel + 1) s = readNumber env fuel s := by
  have hne : s.currentChar ≠ EOF := by rw [hcur]; exact nat_ne_EOF d
  rw [getToken, if_neg hne, hcur, hdigit]

/-- The result of `readNumber` on a run of digits whose value fits an `int`. -/
theorem readNumber_run (env : Env) (d0 : Nat) (ds rest : List Nat) (s : State) (fuel : Nat)
    (hcur : s.currentChar = (d0 : Int)) (hin : s.input = ds ++ rest)
    (hrun : ∀ d ∈ d0 :: ds, isDigitChar env d)
    (hstop : env.charCodes (nextChar rest) ≠ CHAR_DIGIT)
    (hmax : decimalValue (d0 :: ds) ≤ 2147483647) (hfuel : ds.length + 2 ≤ fuel) :
    readNumber env fuel s =
      some ({ tokenType := TK_NUMBER, lineNo := s.lineNo, colNo := s.colNo, string := [],
              value := (decimalValue (d0 :: ds) : Int) }, readChar^[ds.length + 1] s) := by
  unfold readNumber
  have h := numberLoop_run env rest hstop ds fuel 0 d0 s hcur hrun hin hmax hfuel
  rw [Nat.cast_zero] at h
  rw [h]
  rfl

/-- C7, amended: a maximal digit run `d0 :: ds` whose base-10 value fits a 32-bit
`int` gives a `TK_NUMBER` token with that value (leading zeros contribute
nothing), the run and nothing more is consumed and no error is reported; and
on `-` followed by the run, `getToken` gives `SB_MINUS`, consuming only the
`-`, and the next call gives `TK_NUMBER` with the value of the run. -/
theorem getToken_number_value (env : Env) (d0 : Nat) (ds rest : List Nat) (fuel : Nat)
    (hrun : ∀ d ∈ d0 :: ds, isDigitChar env d)
    (hstop : env.charCodes (nextChar rest) ≠ CHAR_DIGIT)
    (hmax : decimalValue (d0 :: ds) ≤ 2147483647) (hfuel : ds.length + 3 ≤ fuel) :
    (∀ s : State, s.currentChar = (d0 : Int) → s.input = ds ++ rest →
      ∃ s1, getToken env fuel s =
          some ({ tokenType := TK_NUMBER, lineNo := s.lineNo, colNo := s.colNo, string := [],
                  value := (decimalValue (d0 :: ds) : Int) }, s1) ∧
        s1.currentChar = nextChar rest ∧ s1.input = rest.tail ∧ s1.errors = s.errors) ∧
    (∀ t : State, env.charCodes 45 = CHAR_MINUS → t.currentChar = 45 →
      t.input = d0 :: ds ++ rest →
      getToken env fuel t = some (makeToken SB_MINUS t.lineNo t.colNo, readChar t) ∧
      ∃ tok s2, getToken env fuel (readChar t) = some (tok, s2) ∧ tok.tokenType = TK_NUMBER ∧
        tok.value = (decimalValue (d0 :: ds) : Int)) := by
  obtain ⟨g, rfl⟩ : ∃ g, fuel = g + 1 := ⟨fuel - 1, by omega⟩
  have hnum : ∀ s : State, s.currentChar = (d0 : Int) → s.input = ds ++ rest →
      getToken env (g + 1) s =
        some ({ tokenType := TK_NUMBER, lineNo := s.lineNo, colNo := s.colNo, string := [],
                value := (decimalValue (d0 :: ds) : Int) }, readChar^[ds.length + 1] s) := by
    intro s hcur hin
    rw [getToken_digit env d0 s g hcur (hrun d0 (List.mem_cons_self _ _)).1]
    exact readNumber_run env d0 ds rest s g hcur hin hrun hstop hmax (by omega)
  refine ⟨?_, ?_⟩
  · intro s hcur hin
    have hit := iterate_readChar_run ds rest s hin
    exact ⟨_, hnum s hcur hin, hit.1, hit.2, iterate_readChar_errors _ s⟩
  · intro t hminus hcur hin
    have hne : t.currentChar ≠ EOF := by rw [hcur]; unfold EOF; omega
    refine ⟨?_, ?_⟩
    · rw [getToken, if_neg hne, hcur, hminus]
    · have hc1 : (readChar t).currentChar = (d0 : Int) := by
        rw [readChar_currentChar, hin]; rfl
      have hi1 : (readChar t).input = ds ++ rest := by
        rw [readChar_input, hin]; rfl
      exact ⟨_, _, hnum (readChar t) hc1 hi1, rfl, rfl⟩

/-- C7, amended, at the run `042` followed by `;`: the value is 42. -/
theorem getToken_number_value_witness :
    decimalValue (48 :: [52, 50]) = 42 ∧
    (∀ s : State, s.currentChar = ((48 : Nat) : Int) → s.input = [52, 50] ++ [59] →
      ∃ s1, getToken (kplEnv 15) 5 s =
          some ({ tokenType := TK_NUMBER, lineNo := s.lineNo, colNo := s.colNo, string := [],
                  value := (decimalValue (48 :: [52, 50]) : Int) }, s1) ∧
        s1.currentChar = nextChar [59] ∧ s1.input = [59].tail ∧ s1.errors = s.errors) ∧
    (∀ t : State, (kplEnv 15).charCodes 45 = CHAR_MINUS → t.currentChar = 45 →
      t.input = 48 :: [52, 50] ++ [59] →
      getToken (kplEnv 15) 5 t = some (makeToken SB_MINUS t.lineNo t.colNo, readChar t) ∧
      ∃ tok s2, getToken (kplEnv 15) 5 (readChar t) = some (tok, s2) ∧
        tok.tokenType = TK_NUMBER ∧ tok.value = (decimalValue (48 :: [52, 50]) : Int)) :=
  ⟨by decide, getToken_number_value (kplEnv 15) 48 [52, 50] [59] 5
    (by decide) (by decide) (by decide) (by decide)⟩

/-- C7 as stated fails on `2147483648`: the digits form 2147483648, the token
value is -2147483648. -/
theorem getToken_number_overflow :
    (getToken (kplEnv 15) 12 (openInputStream (bytes "2147483648"))).map
        (fun r => (r.1.tokenType, r.1.value)) = some (TK_NUMBER, -2147483648) ∧
    (getToken (kplEnv 15) 12 (openInputStream (bytes "2147483648"))).map (fun r => r.1.value) ≠
      some ((decimalValue (bytes "2147483648") : Nat) : Int) := by
  decide

/-! ## Operators and punctuation -/

/-- A conditional differs from `t` when both branches do. -/
theorem ite_ne_of {p : Prop} [Decidable p] {a b t : CharCode} (ha : a ≠ t) (hb : b ≠ t) :
    (if p then a else b) ≠ t := by
  split <;> assumption

/-- In the table of the spec only `*` is classified `CHAR_TIMES`. -/
theorem kplCharCodes_times (c : Int) (h : kplCharCodes c = CHAR_TIMES) : c = 42 := by
  by_contra hc
  revert h
  unfold kplCharCodes
  rw [if_neg hc]
  repeat (refine ite_ne_of (by decide) ?_)
  decide

/-- In the table of the spec only `/` is classified `CHAR_SLASH`. -/
theorem kplCharCodes_slash (c : Int) (h : kplCharCodes c = CHAR_SLASH) : c = 47 := by
  by_contra hc
  revert h
  unfold kplCharCodes
  rw [if_neg hc]
  repeat (refine ite_ne_of (by decide) ?_)
  decide

/-- In the table of the spec only `)` is classified `CHAR_RPAR`. -/
theorem kplCharCodes_rpar (c : Int) (h : kplCharCodes c = CHAR_RPAR) : c = 41 := by
  by_contra hc
  revert h
  unfold kplCharCodes
  rw [if_neg hc]
  repeat (refine ite_ne_of (by decide) ?_)
  decide

/-- The table of the spec satisfies `PunctTable`. -/
theorem kplEnv_punctTable (n : Nat) : PunctTable (kplEnv n) where
  plus := rfl
  minus := rfl
  times := rfl
  slash := rfl
  lt := rfl
  gt := rfl
  exclaimation := rfl
  eq := rfl
  comma := rfl
  period := rfl
  colon := rfl
  semicolon := rfl
  lpar := rfl
  rpar := rfl
  mod := rfl
  only_times := kplCharCodes_times
  only_slash := kplCharCodes_slash

/-- C3: maximal munch with one character of lookahead.  With `d` the character
after the current one (`(readChar s).currentChar`, possibly `EOF`): the long
forms consume both characters, the short forms and the single-character
tokens consume exactly one, so that the next call starts at `d`. -/
theorem getToken_maximal_munch (env : Env) (htable : PunctTable env) (s : State) :
    (s.currentChar = 42 → (readChar s).currentChar = 42 →
      getTokenGives env s SB_POW (readChar (readChar s))) ∧
    (s.currentChar = 60 → (readChar s).currentChar = 61 →
      getTokenGives env s SB_LE (readChar (readChar s))) ∧
    (s.currentChar = 62 → (readChar s).currentChar = 61 →
      getTokenGives env s SB_GE (readChar (readChar s))) ∧
    (s.currentChar = 33 → (readChar s).currentChar = 61 →
      getTokenGives env s SB_NEQ (readChar (readChar s))) ∧
    (s.currentChar = 58 → (readChar s).currentChar = 61 →
      getTokenGives env s SB_ASSIGN (readChar (readChar s))) ∧
    (s.currentChar = 42 → (readChar s).currentChar ≠ 42 →
      getTokenGives env s SB_TIMES (readChar s)) ∧
    (s.currentChar = 47 → (readChar s).currentChar ≠ 47 →
      getTokenGives env s SB_SLASH (readChar s)) ∧
    (s.currentChar = 60 → (readChar s).currentChar ≠ 61 →
      getTokenGives env s SB_LT (readChar s)) ∧
    (s.currentChar = 62 → (readChar s).currentChar ≠ 61 →
      getTokenGives env s SB_GT (readChar s)) ∧
    (s.currentChar = 58 → (readChar s).currentChar ≠ 61 →
      getTokenGives env s SB_COLON (readChar s)) ∧
    (s.currentChar = 40 → (readChar s).currentChar ≠ 42 →
      getTokenGives env s SB_LPAR (readChar s)) ∧
    (s.currentChar = 43 → getTokenGives env s SB_PLUS (readChar s)) ∧
    (s.currentChar = 45 → getTokenGives env s SB_MINUS (readChar s)) ∧
    (s.currentChar = 61 → getTokenGives env s SB_EQ (readChar s)) ∧
    (s.currentChar = 44 → getTokenGives env s SB_COMMA (readChar s)) ∧
    (s.currentChar = 46 → getTokenGives env s SB_PERIOD (readChar s)) ∧
    (s.currentChar = 59 → getTokenGives env s SB_SEMICOLON (readChar s)) ∧
    (s.currentChar = 41 → getTokenGives env s SB_RPAR (readChar s)) ∧
    (s.currentChar = 37 → getTokenGives env s SB_MOD (readChar s)) := by
  have hT : ∀ d : Int, d ≠ 42 → env.charCodes d ≠ CHAR_TIMES :=
    fun d hd h => hd (htable.only_times d h)
  have hS : ∀ d : Int, d ≠ 47 → env.charCodes d ≠ CHAR_SLASH :=
    fun d hd h => hd (htable.only_slash d h)
  refine ⟨?_, ?_, ?_, ?_, ?_, ?_, ?_, ?_, ?_, ?_, ?_, ?_, ?_, ?_, ?_, ?_, ?_, ?_, ?_⟩
  · intro hc hd fuel
    have hne : s.currentChar ≠ EOF := by rw [hc]; decide
    rw [getToken, if_neg hne, hc, htable.times]
    simp only [hd, htable.times, if_true]
    exact ⟨_, rfl, rfl⟩
  · intro hc hd fuel
    have hne : s.currentChar ≠ EOF := by rw [hc]; decide
    rw [getToken, if_neg hne, hc, htable.lt]
    simp only [hd, if_true]
    exact ⟨_, rfl, rfl⟩
  · intro hc hd fuel
    have hne : s.currentChar ≠ EOF := by rw [hc]; decide
    rw [getToken, if_neg hne, hc, htable.gt]
    simp only [hd, if_true]
    exact ⟨_, rfl, rfl⟩
  · intro hc hd fuel
    have hne : s.currentChar ≠ EOF := by rw [hc]; decide
    rw [getToken, if_neg hne, hc, htable.exclaimation]
    simp only [hd, if_true]
    exact ⟨_, rfl, rfl⟩
  · intro hc hd fuel
    have hne : s.currentChar ≠ EOF := by rw [hc]; decide
    rw [getToken, if_neg hne, hc, htable.colon]
    simp only [hd, if_true]
    exact ⟨_, rfl, rfl⟩
  · intro hc hd fuel
    have hne : s.currentChar ≠ EOF := by rw [hc]; decide
    rw [getToken, if_neg hne, hc, htable.times]
    simp only [if_neg (hT _ hd)]
    exact ⟨_, rfl, rfl⟩
  · intro hc hd fuel
    have hne : s.currentChar ≠ EOF := by rw [hc]; decide
    rw [getToken, if_neg hne, hc, htable.slash]
    simp only [if_neg (hS _ hd)]
    exact ⟨_, rfl, rfl⟩
  · intro hc hd fuel
    have hne : s.currentChar ≠ EOF := by rw [hc]; decide
    rw [getToken, if_neg hne, hc, htable.lt]
    simp only [if_neg hd]
    exact ⟨_, rfl, rfl⟩
  · intro hc hd fuel
    have hne : s.currentChar ≠ EOF := by rw [hc]; decide
    rw [getToken, if_neg hne, hc, htable.gt]
    simp only [if_neg hd]
    exact ⟨_, rfl, rfl⟩
  · intro hc hd fuel
    have hne : s.currentChar ≠ EOF := by rw [hc]; decide
    rw [getToken, if_neg hne, hc, htable.colon]
    simp only [if_neg hd]
    exact ⟨_, rfl, rfl⟩
  · intro hc hd fuel
    have hne : s.currentChar ≠ EOF := by rw [hc]; decide
    rw [getToken, if_neg hne, hc, htable.lpar]
    simp only [if_neg (hT _ hd)]
    exact ⟨_, rfl, rfl⟩
  · intro hc fuel
    have hne : s.currentChar ≠ EOF := by rw [hc]; decide
    rw [getToken, if_neg hne, hc, htable.plus]
    exact ⟨_, rfl, rfl⟩
  · intro hc fuel
    have hne : s.currentChar ≠ EOF := by rw [hc]; decide
    rw [getToken, if_neg hne, hc, htable.minus]
    exact ⟨_, rfl, rfl⟩
  · intro hc fuel
    have hne : s.currentChar ≠ EOF := by rw [hc]; decide
    rw [getToken, if_neg hne, hc, htable.eq]
    exact ⟨_, rfl, rfl⟩
  · intro hc fuel
    have hne : s.currentChar ≠ EOF := by rw [hc]; decide
    rw [getToken, if_neg hne, hc, htable.comma]
    exact ⟨_, rfl, rfl⟩
  · intro hc fuel
    have hne : s.currentChar ≠ EOF := by rw [hc]; decide
    rw [getToken, if_neg hne, hc, htable.period]
    exact ⟨_, rfl, rfl⟩
  · intro hc fuel
    have hne : s.currentChar ≠ EOF := by rw [hc]; decide
    rw [getToken, if_neg hne, hc, htable.semicolon]
    exact ⟨_, rfl, rfl⟩
  · intro hc fuel
    have hne : s.currentChar ≠ EOF := by rw [hc]; decide
    rw [getToken, if_neg hne, hc, htable.rpar]
    exact ⟨_, rfl, rfl⟩
  · intro hc fuel
    have hne : s.currentChar ≠ EOF := by rw [hc]; decide
    rw [getToken, if_neg hne, hc, htable.mod]
    exact ⟨_, rfl, rfl⟩

/-! ## Comments -/

/-- A text without `*)` has none after its first character either. -/
theorem hasCommentEnd_tail (body : List Nat) (h : hasCommentEnd body = false) :
    hasCommentEnd body.tail = false := by
  cases body with
  | nil => rfl
  | cons c cs =>
    simp only [hasCommentEnd, Bool.or_eq_false_iff] at h
    exact h.2

/-- With nothing left to read `skipComment` reports the unterminated comment. -/
theorem skipComment_at_end (env : Env) (s : State) (g : Nat) (hin : s.input = []) :
    ∃ s1 ln cn, skipComment env (g + 1) s = some s1 ∧ s1.currentChar = EOF ∧
      s1.errors = s.errors ++ [(ERR_ENDOFCOMMENT, ln, cn)] := by
  have hc : (readChar s).currentChar = EOF := by
    rw [readChar_currentChar, hin]; rfl
  refine ⟨error ERR_ENDOFCOMMENT (readChar s).lineNo (readChar s).colNo (readChar s),
    (readChar s).lineNo, (readChar s).colNo, ?_, hc, ?_⟩
  · rw [skipComment]; simp only [hc, if_true]
  · show (readChar s).errors ++ _ = _
    rw [readChar_errors]

/-- On a text without `*)`, `skipComment` runs to the end of the input and reports one `ERR_ENDOFCOMMENT`. -/
theorem skipComment_unterminated (env : Env)
    (hT : ∀ c : Int, env.charCodes c = CHAR_TIMES → c = 42)
    (hR : ∀ c : Int, env.charCodes c = CHAR_RPAR → c = 41) :
    ∀ (n : Nat) (body : List Nat) (s : State) (fuel : Nat), body.length ≤ n →
      s.input = body → hasCommentEnd body = false → body.length + 1 ≤ fuel →
      ∃ s1 ln cn, skipComment env fuel s = some s1 ∧ s1.currentChar = EOF ∧
        s1.errors = s.errors ++ [(ERR_ENDOFCOMMENT, ln, cn)] := by
  intro n
  induction n with
  | zero =>
    intro body s fuel hn hin _ hf
    obtain ⟨g, rfl⟩ : ∃ g, fuel = g + 1 := ⟨fuel - 1, by omega⟩
    have hnil : body = [] := List.length_eq_zero.mp (by omega)
    exact skipComment_at_end env s g (by rw [hin, hnil])
  | succ n ih =>
    intro body s fuel hn hin hopen hf
    obtain ⟨g, rfl⟩ : ∃ g, fuel = g + 1 := ⟨fuel - 1, by omega⟩
    cases body with
    | nil => exact skipComment_at_end env s g hin
    | cons c cs =>
      have hc : (readChar s).currentChar = (c : Int) := by
        rw [readChar_currentChar, hin]; rfl
      have hi : (readChar s).input = cs := by
        rw [readChar_input, hin]; rfl
      have hne : (readChar s).currentChar ≠ EOF := by rw [hc]; exact nat_ne_EOF c
      have hcs : hasCommentEnd cs = false := hasCommentEnd_tail (c :: cs) hopen
      simp only [List.length_cons] at hn hf
      rw [skipComment]
      simp only [if_neg hne]
      by_cases ht : env.charCodes (readChar s).currentChar = CHAR_TIMES
      · simp only [if_pos ht]
        have hc42 : c = 42 := by
          have := hT _ ht
          rw [hc] at this
          omega
        have hc2 : (readChar (readChar s)).currentChar = nextChar cs := by
          rw [readChar_currentChar, hi]
        have hnr : env.charCodes (readChar (readChar s)).currentChar ≠ CHAR_RPAR := by
          intro hr
          have h41 := hR _ hr
          rw [hc2] at h41
          cases cs with
          | nil => simp [nextChar, EOF] at h41
          | cons d ds =>
            simp only [nextChar] at h41
            have hd : d = 41 := by omega
            rw [hc42, hd] at hopen
            simp [hasCommentEnd] at hopen
        simp only [if_neg hnr]
        obtain ⟨s1, ln, cn, h1, h2, h3⟩ := ih cs.tail (readChar (readChar s)) g
          (by have := List.length_tail cs; omega) (by rw [readChar_input, hi])
          (hasCommentEnd_tail cs hcs) (by have := List.length_tail cs; omega)
        exact ⟨s1, ln, cn, h1, h2, by rw [h3, readChar_errors, readChar_errors]⟩
      · simp only [if_neg ht]
        obtain ⟨s1, ln, cn, h1, h2, h3⟩ := ih cs (readChar s) g (by omega) hi hcs (by omega)
        exact ⟨s1, ln, cn, h1, h2, by rw [h3, readChar_errors]⟩

/-- At the end of the input `getToken` returns `TK_EOF` and leaves the state as it is. -/
theorem getToken_at_EOF (env : Env) (s : State) (fuel : Nat) (h : s.currentChar = EOF) :
    getToken env (fuel + 1) s = some (makeToken TK_EOF s.lineNo s.colNo, s) := by
  rw [getToken, if_pos h]

/-- C9: an input that starts with `(*` and in which no `*` immediately followed
by `)` comes after this opening is scanned with exactly one error,
`ERR_ENDOFCOMMENT`; no token is printed, the token that ends the scan is
`TK_EOF`, and every later call of `getToken` returns `TK_EOF` again and leaves
the state, the error log included, as it is. -/
theorem scan_unterminated_comment (env : Env) (body : List Nat) (fuel : Nat)
    (hlpar : env.charCodes 40 = CHAR_LPAR) (htimes : env.charCodes 42 = CHAR_TIMES)
    (hT : ∀ c : Int, env.charCodes c = CHAR_TIMES → c = 42)
    (hR : ∀ c : Int, env.charCodes c = CHAR_RPAR → c = 41)
    (hopen : hasCommentEnd body = false) (hfuel : body.length + 4 ≤ fuel) :
    ∃ tok s1 ln cn, scan env fuel (40 :: 42 :: body) = some ([], tok, s1) ∧
      tok.tokenType = TK_EOF ∧ s1.errors = [(ERR_ENDOFCOMMENT, ln, cn)] ∧
      ∀ k, getToken env (k + 1) s1 = some (makeToken TK_EOF s1.lineNo s1.colNo, s1) := by
  obtain ⟨g, rfl⟩ : ∃ g, fuel = g + 3 := ⟨fuel - 3, by omega⟩
  unfold scan
  have hs0c : (openInputStream (40 :: 42 :: body)).currentChar = 40 := rfl
  have hs0i : (openInputStream (40 :: 42 :: body)).input = 42 :: body := rfl
  have hs0e : (openInputStream (40 :: 42 :: body)).errors = [] := rfl
  generalize openInputStream (40 :: 42 :: body) = s0 at hs0c hs0i hs0e ⊢
  have hne : s0.currentChar ≠ EOF := by rw [hs0c]; decide
  have hc1 : (readChar s0).currentChar = 42 := by rw [readChar_currentChar, hs0i]; rfl
  have hi1 : (readChar s0).input = body := by rw [readChar_input, hs0i]; rfl
  obtain ⟨s1, ln, cn, h1, h2, h3⟩ := skipComment_unterminated env hT hR body.length body
    (readChar s0) (g + 1) (le_refl _) hi1 hopen (by omega)
  have hg : getToken env (g + 2) s0 = some (makeToken TK_EOF s1.lineNo s1.colNo, s1) := by
    rw [getToken, if_neg hne, hs0c, hlpar]
    simp only [hc1, htimes, if_true, h1]
    exact getToken_at_EOF env s1 g h2
  refine ⟨makeToken TK_EOF s1.lineNo s1.colNo, s1, ln, cn, ?_, rfl, ?_, ?_⟩
  · rw [scanLoop, hg]
    simp [makeToken]
  · rw [h3, readChar_errors, hs0e]; rfl
  · intro k
    exact getToken_at_EOF env s1 k h2

/-- The line-comment loop stops on the newline that ends the line. -/
theorem skipLine_run (rest : List Nat) :
    ∀ (c : List Nat) (s : State) (fuel : Nat), s.currentChar ≠ 10 → s.currentChar ≠ EOF →
      s.input = c ++ 10 :: rest → 10 ∉ c → c.length + 2 ≤ fuel →
      skipLine fuel s = some (readChar^[c.length + 1] s) := by
  intro c
  induction c with
  | nil =>
    intro s fuel h10 hE hin _ hf
    obtain ⟨g, rfl⟩ : ∃ g, fuel = g + 2 := ⟨fuel - 2, by omega⟩
    have hc : (readChar s).currentChar = 10 := by rw [readChar_currentChar, hin]; rfl
    rw [skipLine, if_pos ⟨h10, hE⟩, skipLine, if_neg (by rw [hc]; simp)]
    rfl
  | cons d ds ih =>
    intro s fuel h10 hE hin hmem hf
    obtain ⟨g, rfl⟩ : ∃ g, fuel = g + 1 := ⟨fuel - 1, by omega⟩
    have hc : (readChar s).currentChar = (d : Int) := by rw [readChar_currentChar, hin]; rfl
    have hi : (readChar s).input = ds ++ 10 :: rest := by rw [readChar_input, hin]; rfl
    have hd : d ≠ 10 := fun h => hmem (by rw [h]; exact List.mem_cons_self _ _)
    rw [skipLine, if_pos ⟨h10, hE⟩]
    rw [ih (readChar s) g (by rw [hc]; omega) (by rw [hc]; exact nat_ne_EOF d) hi
      (fun h => hmem (List.mem_cons_of_mem _ h)) (by simp only [List.length_cons] at hf; omega)]
    simp only [List.length_cons, Function.iterate_succ_apply]

/-- Without a newline the line-comment loop stops at the end of the input. -/
theorem skipLine_to_end :
    ∀ (c : List Nat) (s : State) (fuel : Nat), s.currentChar ≠ 10 →
      s.input = c → 10 ∉ c → c.length + 2 ≤ fuel →
      ∃ s1, skipLine fuel s = some s1 ∧ s1.currentChar = EOF ∧ s1.errors = s.errors := by
  intro c
  induction c with
  | nil =>
    intro s fuel h10 hin _ hf
    obtain ⟨g, rfl⟩ : ∃ g, fuel = g + 2 := ⟨fuel - 2, by omega⟩
    have hc : (readChar s).currentChar = EOF := by rw [readChar_currentChar, hin]; rfl
    by_cases hE : s.currentChar = EOF
    · exact ⟨s, by rw [skipLine, if_neg (by simp [hE])], hE, rfl⟩
    · exact ⟨readChar s, by rw [skipLine, if_pos ⟨h10, hE⟩, skipLine, if_neg (by simp [hc])],
        hc, readChar_errors s⟩
  | cons d ds ih =>
    intro s fuel h10 hin hmem hf
    obtain ⟨g, rfl⟩ : ∃ g, fuel = g + 1 := ⟨fuel - 1, by omega⟩
    have hc : (readChar s).currentChar = (d : Int) := by rw [readChar_currentChar, hin]; rfl
    have hi : (readChar s).input = ds := by rw [readChar_input, hin]; rfl
    have hd : d ≠ 10 := fun h => hmem (by rw [h]; exact List.mem_cons_self _ _)
    by_cases hE : s.currentChar = EOF
    · exact ⟨s, by rw [skipLine, if_neg (by simp [hE])], hE, rfl⟩
    · obtain ⟨s1, h1, h2, h3⟩ := ih (readChar s) g (by rw [hc]; omega) hi
        (fun h => hmem (List.mem_cons_of_mem _ h)) (by simp only [List.length_cons] at hf; omega)
      exact ⟨s1, by rw [skipLine, if_pos ⟨h10, hE⟩, h1], h2, by rw [h3, readChar_errors]⟩

/-- On a newline classified as whitespace `getToken` returns what it returns after the newline. -/
theorem getToken_after_newline (env : Env) (hnl : env.charCodes 10 = CHAR_SPACE)
    (heof : env.charCodes EOF ≠ CHAR_SPACE) (t : State) (ht : t.currentChar = 10)
    (fuel : Nat) (r : Token × State) (h : getToken env fuel (readChar t) = some r) :
    getToken env (fuel + 2) t = some r := by
  have hne : t.currentChar ≠ EOF := by rw [ht]; decide
  have hsp : env.charCodes t.currentChar = CHAR_SPACE := by rw [ht]; exact hnl
  obtain ⟨g, rfl⟩ : ∃ g, fuel = g + 1 := by
    cases fuel with
    | zero => simp [getToken] at h
    | succ g => exact ⟨g, rfl⟩
  rw [getToken, if_neg hne, hsp]
  simp only []
  rw [skipBlank, if_pos hsp]
  by_cases hE : (readChar t).currentChar = EOF
  · have hns : env.charCodes (readChar t).currentChar ≠ CHAR_SPACE := by rw [hE]; exact heof
    rw [skipBlank, if_neg hns]
    exact getToken_mono env (g + 1) (g + 2) _ r (by omega) h
  · by_cases hs : env.charCodes (readChar t).currentChar = CHAR_SPACE
    · rw [getToken, if_neg hE, hs] at h
      simp only [] at h
      cases hb : skipBlank env g (readChar t) with
      | none => simp [hb] at h
      | some t1 =>
        rw [hb] at h
        rw [skipBlank_mono env g (g + 1) _ t1 (by omega) hb]
        exact getToken_mono env g (g + 2) t1 r (by omega) h
    · rw [skipBlank, if_neg hs]
      exact getToken_mono env (g + 1) (g + 2) _ r (by omega) h

/-- From a state on `//` + `c` + newline + `rest` (`c` without newline),
`getToken` returns what `getToken` returns once the cursor has been advanced
over the comment and its newline to the start of `rest`: the same token, the
same final state, the same errors; advancing reports no error.  From `//` +
`c` with the input ending before any newline, it returns `TK_EOF` and reports
no error. -/
theorem getToken_past_line_comment (env : Env) (c rest : List Nat) (s : State)
    (hslash : env.charCodes 47 = CHAR_SLASH) (hnl : env.charCodes 10 = CHAR_SPACE)
    (heof : env.charCodes EOF ≠ CHAR_SPACE) (hc : 10 ∉ c) (hcur : s.currentChar = 47) :
    (s.input = 47 :: c ++ 10 :: rest →
      (readChar^[c.length + 3] s).currentChar = nextChar rest ∧
      (readChar^[c.length + 3] s).input = rest.tail ∧
      (readChar^[c.length + 3] s).errors = s.errors ∧
      ∀ (fuel : Nat) (r : Token × State),
        getToken env fuel (readChar^[c.length + 3] s) = some r →
        getToken env (fuel + c.length + 5) s = some r) ∧
    (s.input = 47 :: c →
      ∀ fuel : Nat, c.length + 4 ≤ fuel →
        ∃ s1, getToken env fuel s = some (makeToken TK_EOF s1.lineNo s1.colNo, s1) ∧
          s1.currentChar = EOF ∧ s1.errors = s.errors) := by
  have hne : s.currentChar ≠ EOF := by rw [hcur]; decide
  refine ⟨?_, ?_⟩
  · intro hin
    have hrun := iterate_readChar_run (47 :: c ++ [10]) rest s (by simp [hin])
    have hlen : (47 :: c ++ [10]).length + 1 = c.length + 3 := by simp
    rw [hlen] at hrun
    refine ⟨hrun.1, hrun.2, iterate_readChar_errors _ s, ?_⟩
    intro fuel r hr
    have hc1 : (readChar s).currentChar = 47 := by rw [readChar_currentChar, hin]; rfl
    have hi1 : (readChar s).input = c ++ 10 :: rest := by rw [readChar_input, hin]; rfl
    have hsl := skipLine_run rest c (readChar s) (fuel + c.length + 4) (by rw [hc1]; decide)
      (by rw [hc1]; decide) hi1 hc (by omega)
    have hnlc : (readChar^[c.length + 1] (readChar s)).currentChar = 10 :=
      (iterate_readChar_run c (10 :: rest) (readChar s) hi1).1
    have hnext : readChar (readChar^[c.length + 1] (readChar s)) = readChar^[c.length + 3] s := by
      rw [Function.iterate_succ_apply' readChar (c.length + 2) s,
        Function.iterate_succ_apply readChar (c.length + 1) s]
    have hafter := getToken_after_newline env hnl heof (readChar^[c.length + 1] (readChar s)) hnlc
      fuel r (by rw [hnext]; exact hr)
    have hstep : getToken env (fuel + c.length + 4 + 1) s =
        getToken env (fuel + c.length + 4) (readChar^[c.length + 1] (readChar s)) := by
      rw [getToken, if_neg hne, hcur, hslash]
      simp only [hc1, hslash, if_true, hsl]
    rw [show fuel + c.length + 5 = fuel + c.length + 4 + 1 by omega, hstep]
    exact getToken_mono env (fuel + 2) _ _ r (by omega) hafter
  · intro hin fuel hfuel
    obtain ⟨g, rfl⟩ : ∃ g, fuel = g + 2 := ⟨fuel - 2, by omega⟩
    have hc1 : (readChar s).currentChar = 47 := by rw [readChar_currentChar, hin]; rfl
    have hi1 : (readChar s).input = c := by rw [readChar_input, hin]; rfl
    obtain ⟨s2, h1, h2, h3⟩ := skipLine_to_end c (readChar s) (g + 1) (by rw [hc1]; decide) hi1 hc
      (by omega)
    refine ⟨s2, ?_, h2, by rw [h3, readChar_errors]⟩
    rw [getToken, if_neg hne, hcur, hslash]
    simp only [hc1, hslash, if_true, h1]
    exact getToken_at_EOF env s2 g h2

/-! ## Concrete scans -/

/-- C3 at the input `:=` with the table of the spec. -/
theorem getToken_maximal_munch_witness :
    PunctTable (kplEnv 15) ∧
    (((openInputStream (bytes ":=")).currentChar = 42 → (readChar (openInputStream (bytes ":="))).currentChar = 42 →
       getTokenGives (kplEnv 15) (openInputStream (bytes ":=")) SB_POW (readChar (readChar (openInputStream (bytes ":="))))) ∧
     ((openInputStream (bytes ":=")).currentChar = 60 → (readChar (openInputStream (bytes ":="))).currentChar = 61 →
       getTokenGives (kplEnv 15) (openInputStream (bytes ":=")) SB_LE (readChar (readChar (openInputStream (bytes ":="))))) ∧
     ((openInputStream (bytes ":=")).currentChar = 62 → (readChar (openInputStream (bytes ":="))).currentChar = 61 →
       getTokenGives (kplEnv 15) (openInputStream (bytes ":=")) SB_GE (readChar (readChar (openInputStream (bytes ":="))))) ∧
     ((openInputStream (bytes ":=")).currentChar = 33 → (readChar (openInputStream (bytes ":="))).currentChar = 61 →
       getTokenGives (kplEnv 15) (openInputStream (bytes ":=")) SB_NEQ (readChar (readChar (openInputStream (bytes ":="))))) ∧
     ((openInputStream (bytes ":=")).currentChar = 58 → (readChar (openInputStream (bytes ":="))).currentChar = 61 →
       getTokenGives (kplEnv 15) (openInputStream (bytes ":=")) SB_ASSIGN (readChar (readChar (openInputStream (bytes ":="))))) ∧
     ((openInputStream (bytes ":=")).currentChar = 42 → (readChar (openInputStream (bytes ":="))).currentChar ≠ 42 →
       getTokenGives (kplEnv 15) (openInputStream (bytes ":=")) SB_TIMES (readChar (openInputStream (bytes ":=")))) ∧
     ((openInputStream (bytes ":=")).currentChar = 47 → (readChar (openInputStream (bytes ":="))).currentChar ≠ 47 →
       getTokenGives (kplEnv 15) (openInputStream (bytes ":=")) SB_SLASH (readChar (openInputStream (bytes ":=")))) ∧
     ((openInputStream (bytes ":=")).currentChar = 60 → (readChar (openInputStream (bytes ":="))).currentChar ≠ 61 →
       getTokenGives (kplEnv 15) (openInputStream (bytes ":=")) SB_LT (readChar (openInputStream (bytes ":=")))) ∧
     ((openInputStream (bytes ":=")).currentChar = 62 → (readChar (openInputStream (bytes ":="))).currentChar ≠ 61 →
       getTokenGives (kplEnv 15) (openInputStream (bytes ":=")) SB_GT (readChar (openInputStream (bytes ":=")))) ∧
     ((openInputStream (bytes ":=")).currentChar = 58 → (readChar (openInputStream (bytes ":="))).currentChar ≠ 61 →
       getTokenGives (kplEnv 15) (openInputStream (bytes ":=")) SB_COLON (readChar (openInputStream (bytes ":=")))) ∧
     ((openInputStream (bytes ":=")).currentChar = 40 → (readChar (openInputStream (bytes ":="))).currentChar ≠ 42 →
       getTokenGives (kplEnv 15) (openInputStream (bytes ":=")) SB_LPAR (readChar (openInputStream (bytes ":=")))) ∧
     ((openInputStream (bytes ":=")).currentChar = 43 → getTokenGives (kplEnv 15) (openInputStream (bytes ":=")) SB_PLUS (readChar (openInputStream (bytes ":=")))) ∧
     ((openInputStream (bytes ":=")).currentChar = 45 → getTokenGives (kplEnv 15) (openInputStream (bytes ":=")) SB_MINUS (readChar (openInputStream (bytes ":=")))) ∧
     ((openInputStream (bytes ":=")).currentChar = 61 → getTokenGives (kplEnv 15) (openInputStream (bytes ":=")) SB_EQ (readChar (openInputStream (bytes ":=")))) ∧
     ((openInputStream (bytes ":=")).currentChar = 44 → getTokenGives (kplEnv 15) (openInputStream (bytes ":=")) SB_COMMA (readChar (openInputStream (bytes ":=")))) ∧
     ((openInputStream (bytes ":=")).currentChar = 46 → getTokenGives (kplEnv 15) (openInputStream (bytes ":=")) SB_PERIOD (readChar (openInputStream (bytes ":=")))) ∧
     ((openInputStream (bytes ":=")).currentChar = 59 → getTokenGives (kplEnv 15) (openInputStream (bytes ":=")) SB_SEMICOLON (readChar (openInputStream (bytes ":=")))) ∧
     ((openInputStream (bytes ":=")).currentChar = 41 → getTokenGives (kplEnv 15) (openInputStream (bytes ":=")) SB_RPAR (readChar (openInputStream (bytes ":=")))) ∧
     ((openInputStream (bytes ":=")).currentChar = 37 → getTokenGives (kplEnv 15) (openInputStream (bytes ":=")) SB_MOD (readChar (openInputStream (bytes ":="))))) :=
  ⟨kplEnv_punctTable 15,
    getToken_maximal_munch (kplEnv 15) (kplEnv_punctTable 15) (openInputStream (bytes ":="))⟩

/-- C1: scanning `x := 3 + 4 * 2` prints, in order, the identifier `x`,
`SB_ASSIGN`, the numbers 3, 4 and 2 with `SB_PLUS` and `SB_TIMES` between them,
the scan ends on `TK_EOF`, and no error is reported; this for every
`MAX_IDENT_LEN` from 3 on and any fuel from 16 on. -/
theorem scan_assignment_example (n fuel : Nat) (hn : 3 ≤ n) :
    (scan (kplEnv n) (fuel + 16) (bytes "x := 3 + 4 * 2")).map
        (fun r => (r.1.map (fun t => (t.tokenType, t.string, t.value)),
          r.2.1.tokenType, r.2.2.errors)) =
      some ([(TK_IDENT, chars "x", 0), (SB_ASSIGN, [], 0), (TK_NUMBER, [], 3), (SB_PLUS, [], 0),
        (TK_NUMBER, [], 4), (SB_TIMES, [], 0), (TK_NUMBER, [], 2)], TK_EOF, []) := by
  have h1 : ((0 : Int) < (n : Int) - 1) := by omega
  have h2 : ¬ ((n : Int) - 1 ≤ 1) := by omega
  simp [scan, scanLoop, getToken, openInputStream, readChar, bytes, kplEnv, kplCharCodes, EOF,
    readIdentifierOrKeyword, identLoop, readNumber, numberLoop, skipBlank, makeToken, error, h1,
    h2, kplCheckKeyword, keywords, chars, wrapInt]

/-- C1 with `MAX_IDENT_LEN = 15` and fuel 16. -/
theorem scan_assignment_example_witness :
    3 ≤ 15 ∧
    (scan (kplEnv 15) (0 + 16) (bytes "x := 3 + 4 * 2")).map
        (fun r => (r.1.map (fun t => (t.tokenType, t.string, t.value)),
          r.2.1.tokenType, r.2.2.errors)) =
      some ([(TK_IDENT, chars "x", 0), (SB_ASSIGN, [], 0), (TK_NUMBER, [], 3), (SB_PLUS, [], 0),
        (TK_NUMBER, [], 4), (SB_TIMES, [], 0), (TK_NUMBER, [], 2)], TK_EOF, []) :=
  ⟨by decide, scan_assignment_example 15 0 (by decide)⟩

/-- C2 fails on `:=` and on `:`: the token is stamped with the position reached
after its characters were consumed.  At the start of a file, where the `:` is
at line 1, column 1, `:=` gives `SB_ASSIGN` at column 3, `:x` gives `SB_COLON`
at column 2, and `:` before a newline gives `SB_COLON` at line 2, column 0. -/
theorem getToken_colon_position (n fuel : Nat) :
    ((openInputStream (bytes ":=")).lineNo, (openInputStream (bytes ":=")).colNo) = (1, 1) ∧
    (getToken (kplEnv n) (fuel + 1) (openInputStream (bytes ":="))).map
        (fun r => (r.1.tokenType, r.1.lineNo, r.1.colNo)) = some (SB_ASSIGN, 1, 3) ∧
    ((openInputStream (bytes ":x")).lineNo, (openInputStream (bytes ":x")).colNo) = (1, 1) ∧
    (getToken (kplEnv n) (fuel + 1) (openInputStream (bytes ":x"))).map
        (fun r => (r.1.tokenType, r.1.lineNo, r.1.colNo)) = some (SB_COLON, 1, 2) ∧
    ((openInputStream (bytes ":\n")).lineNo, (openInputStream (bytes ":\n")).colNo) = (1, 1) ∧
    (getToken (kplEnv n) (fuel + 1) (openInputStream (bytes ":\n"))).map
        (fun r => (r.1.tokenType, r.1.lineNo, r.1.colNo)) = some (SB_COLON, 2, 0) := by
  simp [getToken, openInputStream, readChar, bytes, kplEnv, kplCharCodes, EOF, makeToken]

/-- C8 fails when the closing `*)` is directly preceded by another `*`: on
`(***)x` and on `(* a **) x` the comment is not closed, everything up to the
end of the input is skipped, `ERR_ENDOFCOMMENT` is reported and the token is
`TK_EOF`, whereas `getToken` started on `x` gives the identifier `x`.  A
comment whose closing `*)` is not preceded by `*` is closed: `(* a *) x` gives
the identifier. -/
theorem getToken_comment_double_star :
    (getToken (kplEnv 15) 12 (openInputStream (bytes "(***)x"))).map
        (fun r => (r.1.tokenType, r.1.string, r.2.errors.map (fun e => e.1))) =
      some (TK_EOF, [], [ERR_ENDOFCOMMENT]) ∧
    (getToken (kplEnv 15) 12 (openInputStream (bytes "(* a **) x"))).map
        (fun r => (r.1.tokenType, r.1.string, r.2.errors.map (fun e => e.1))) =
      some (TK_EOF, [], [ERR_ENDOFCOMMENT]) ∧
    (getToken (kplEnv 15) 12 (openInputStream (bytes "x"))).map
        (fun r => (r.1.tokenType, r.1.string, r.2.errors.map (fun e => e.1))) =
      some (TK_IDENT, chars "x", []) ∧
    (getToken (kplEnv 15) 12 (openInputStream (bytes "(* a *) x"))).map
        (fun r => (r.1.tokenType, r.1.string, r.2.errors.map (fun e => e.1))) =
      some (TK_IDENT, chars "x", []) := by
  decide

/-- C9 at `(* unterminated`. -/
theorem scan_unterminated_comment_witness :
    hasCommentEnd (bytes " unterminated") = false ∧
    ∃ tok s1 ln cn,
      scan (kplEnv 15) 20 (40 :: 42 :: bytes " unterminated") = some ([], tok, s1) ∧
      tok.tokenType = TK_EOF ∧ s1.errors = [(ERR_ENDOFCOMMENT, ln, cn)] ∧
      ∀ k, getToken (kplEnv 15) (k + 1) s1 = some (makeToken TK_EOF s1.lineNo s1.colNo, s1) :=
  ⟨by decide, scan_unterminated_comment (kplEnv 15) (bytes " unterminated") 20 rfl rfl
    kplCharCodes_times kplCharCodes_rpar (by decide) (by decide)⟩

/-! ## Independence of the position -/

/-- `readChar` keeps two states on the same text. -/
theorem readChar_sameText (s t : State) (h : sameText s t) :
    sameText (readChar s) (readChar t) := by
  obtain ⟨h1, h2, h3⟩ := h
  refine ⟨?_, ?_, ?_⟩
  · rw [readChar_currentChar, readChar_currentChar, h2]
  · rw [readChar_input, readChar_input, h2]
  · rw [readChar_errors, readChar_errors, h3]

/-- Reporting an error of the same kind keeps two states on the same text. -/
theorem error_sameText (err : ErrorCode) (l1 c1 l2 c2 : Int) (s t : State) (h : sameText s t) :
    sameText (error err l1 c1 s) (error err l2 c2 t) := by
  obtain ⟨h1, h2, h3⟩ := h
  refine ⟨h1, h2, ?_⟩
  show List.map _ (s.errors ++ _) = List.map _ (t.errors ++ _)
  rw [List.map_append, List.map_append, h3]
  rfl

/-- `skipBlank` does not depend on the position. -/
theorem skipBlank_sameText (env : Env) (fuel : Nat) : ∀ (s t : State), sameText s t →
    (skipBlank env fuel s = none ∧ skipBlank env fuel t = none) ∨
    ∃ s1 t1, skipBlank env fuel s = some s1 ∧ skipBlank env fuel t = some t1 ∧
      sameText s1 t1 := by
  induction fuel with
  | zero => intro s t _; exact Or.inl ⟨rfl, rfl⟩
  | succ f ih =>
    intro s t h
    rw [skipBlank, skipBlank, ← h.1]
    by_cases hc : env.charCodes s.currentChar = CHAR_SPACE
    · rw [if_pos hc, if_pos hc]
      exact ih _ _ (readChar_sameText s t h)
    · rw [if_neg hc, if_neg hc]
      exact Or.inr ⟨s, t, rfl, rfl, h⟩

/-- `skipLine` does not depend on the position. -/
theorem skipLine_sameText (fuel : Nat) : ∀ (s t : State), sameText s t →
    (skipLine fuel s = none ∧ skipLine fuel t = none) ∨
    ∃ s1 t1, skipLine fuel s = some s1 ∧ skipLine fuel t = some t1 ∧ sameText s1 t1 := by
  induction fuel with
  | zero => intro s t _; exact Or.inl ⟨rfl, rfl⟩
  | succ f ih =>
    intro s t h
    rw [skipLine, skipLine, ← h.1]
    by_cases hc : s.currentChar ≠ 10 ∧ s.currentChar ≠ EOF
    · rw [if_pos hc, if_pos hc]
      exact ih _ _ (readChar_sameText s t h)
    · rw [if_neg hc, if_neg hc]
      exact Or.inr ⟨s, t, rfl, rfl, h⟩

/-- `skipComment` does not depend on the position. -/
theorem skipComment_sameText (env : Env) (fuel : Nat) : ∀ (s t : State), sameText s t →
    (skipComment env fuel s = none ∧ skipComment env fuel t = none) ∨
    ∃ s1 t1, skipComment env fuel s = some s1 ∧ skipComment env fuel t = some t1 ∧
      sameText s1 t1 := by
  induction fuel with
  | zero => intro s t _; exact Or.inl ⟨rfl, rfl⟩
  | succ f ih =>
    intro s t h
    have h1 := readChar_sameText s t h
    have h2 := readChar_sameText _ _ h1
    rw [skipComment, skipComment]
    simp only [← h1.1, ← h2.1]
    by_cases hE : (readChar s).currentChar = EOF
    · simp only [if_pos hE]
      exact Or.inr ⟨_, _, rfl, rfl, error_sameText _ _ _ _ _ _ _ h1⟩
    · simp only [if_neg hE]
      by_cases hT : env.charCodes (readChar s).currentChar = CHAR_TIMES
      · simp only [if_pos hT]
        by_cases hR : env.charCodes (readChar (readChar s)).currentChar = CHAR_RPAR
        · simp only [if_pos hR]
          exact Or.inr ⟨_, _, rfl, rfl, readChar_sameText _ _ h2⟩
        · simp only [if_neg hR]
          exact ih _ _ h2
      · simp only [if_neg hT]
        exact ih _ _ h1

/-- `identLoop` does not depend on the position. -/
theorem identLoop_sameText (env : Env) (fuel : Nat) : ∀ (buf : List Int) (s t : State),
    sameText s t →
    (identLoop env fuel buf s = none ∧ identLoop env fuel buf t = none) ∨
    ∃ b s1 t1, identLoop env fuel buf s = some (b, s1) ∧ identLoop env fuel buf t = some (b, t1) ∧
      sameText s1 t1 := by
  induction fuel with
  | zero => intro buf s t _; exact Or.inl ⟨rfl, rfl⟩
  | succ f ih =>
    intro buf s t h
    rw [identLoop, identLoop, ← h.1]
    by_cases hc : env.charCodes s.currentChar = CHAR_LETTER ∨
        env.charCodes s.currentChar = CHAR_DIGIT
    · rw [if_pos hc, if_pos hc]
      exact ih _ _ _ (readChar_sameText s t h)
    · rw [if_neg hc, if_neg hc]
      exact Or.inr ⟨buf, s, t, rfl, rfl, h⟩

/-- `numberLoop` does not depend on the position. -/
theorem numberLoop_sameText (env : Env) (fuel : Nat) : ∀ (v : Int) (s t : State),
    sameText s t →
    (numberLoop env fuel v s = none ∧ numberLoop env fuel v t = none) ∨
    ∃ w s1 t1, numberLoop env fuel v s = some (w, s1) ∧ numberLoop env fuel v t = some (w, t1) ∧
      sameText s1 t1 := by
  induction fuel with
  | zero => intro v s t _; exact Or.inl ⟨rfl, rfl⟩
  | succ f ih =>
    intro v s t h
    rw [numberLoop, numberLoop, ← h.1]
    by_cases hc : env.charCodes s.currentChar = CHAR_DIGIT
    · rw [if_pos hc, if_pos hc]
      exact ih _ _ _ (readChar_sameText s t h)
    · rw [if_neg hc, if_neg hc]
      exact Or.inr ⟨v, s, t, rfl, rfl, h⟩

/-- `textLoop` does not depend on the position. -/
theorem textLoop_sameText (env : Env) (fuel : Nat) : ∀ (buf : List Int) (s t : State),
    sameText s t →
    (textLoop env fuel buf s = none ∧ textLoop env fuel buf t = none) ∨
    ∃ b s1 t1, textLoop env fuel buf s = some (b, s1) ∧ textLoop env fuel buf t = some (b, t1) ∧
      sameText s1 t1 := by
  induction fuel with
  | zero => intro buf s t _; exact Or.inl ⟨rfl, rfl⟩
  | succ f ih =>
    intro buf s t h
    rw [textLoop, textLoop, ← h.1]
    by_cases hc : s.currentChar ≠ 34 ∧ s.currentChar ≠ EOF
    · rw [if_pos hc, if_pos hc]
      exact ih _ _ _ (readChar_sameText s t h)
    · rw [if_neg hc, if_neg hc]
      exact Or.inr ⟨buf, s, t, rfl, rfl, h⟩

/-- Kind, payload and the text left by `readIdentifierOrKeyword` do not depend on the position. -/
theorem readIdentifierOrKeyword_sameText (env : Env) (fuel : Nat) (s t : State)
    (h : sameText s t) :
    (readIdentifierOrKeyword env fuel s = none ∧ readIdentifierOrKeyword env fuel t = none) ∨
    ∃ a s1 b t1, readIdentifierOrKeyword env fuel s = some (a, s1) ∧
      readIdentifierOrKeyword env fuel t = some (b, t1) ∧ sameToken a b ∧ sameText s1 t1 := by
  unfold readIdentifierOrKeyword
  rcases identLoop_sameText env fuel [] s t h with ⟨h1, h2⟩ | ⟨buf, s1, t1, h1, h2, h3⟩
  · rw [h1, h2]; exact Or.inl ⟨rfl, rfl⟩
  · rw [h1, h2]
    refine Or.inr ⟨_, _, _, _, rfl, rfl, ?_, ?_⟩
    · dsimp only [makeToken]
      by_cases hk : env.checkKeyword buf ≠ TK_NONE
      · rw [if_pos hk, if_pos hk]; exact ⟨rfl, rfl, rfl⟩
      · rw [if_neg hk, if_neg hk]; exact ⟨rfl, rfl, rfl⟩
    · dsimp only [makeToken]
      by_cases hl : (buf.length : Int) ≥ (env.MAX_IDENT_LEN : Int) - 1
      · rw [if_pos hl, if_pos hl]; exact error_sameText _ _ _ _ _ _ _ h3
      · rw [if_neg hl, if_neg hl]; exact h3

/-- Kind, payload and the text left by `readNumber` do not depend on the position. -/
theorem readNumber_sameText (env : Env) (fuel : Nat) (s t : State) (h : sameText s t) :
    (readNumber env fuel s = none ∧ readNumber env fuel t = none) ∨
    ∃ a s1 b t1, readNumber env fuel s = some (a, s1) ∧
      readNumber env fuel t = some (b, t1) ∧ sameToken a b ∧ sameText s1 t1 := by
  unfold readNumber
  rcases numberLoop_sameText env fuel 0 s t h with ⟨h1, h2⟩ | ⟨v, s1, t1, h1, h2, h3⟩
  · rw [h1, h2]; exact Or.inl ⟨rfl, rfl⟩
  · rw [h1, h2]
    exact Or.inr ⟨_, _, _, _, rfl, rfl, ⟨rfl, rfl, rfl⟩, h3⟩

/-- Kind, payload and the text left by `readCharConst` do not depend on the position. -/
theorem readCharConst_sameText (env : Env) (s t : State) (h : sameText s t) :
    sameToken (readCharConst env s).1 (readCharConst env t).1 ∧
      sameText (readCharConst env s).2 (readCharConst env t).2 := by
  have h1 := readChar_sameText s t h
  have h2 := readChar_sameText _ _ h1
  unfold readCharConst
  simp only [← h1.1, ← h2.1]
  by_cases hE : (readChar s).currentChar = EOF
  · simp only [if_pos hE]
    exact ⟨⟨rfl, rfl, rfl⟩, error_sameText _ _ _ _ _ _ _ h1⟩
  · simp only [if_neg hE]
    by_cases hQ : env.charCodes (readChar (readChar s)).currentChar ≠ CHAR_SINGLEQUOTE
    · simp only [if_pos hQ]
      exact ⟨⟨rfl, rfl, rfl⟩, error_sameText _ _ _ _ _ _ _ h2⟩
    · simp only [if_neg hQ]
      exact ⟨⟨rfl, rfl, rfl⟩, readChar_sameText _ _ h2⟩

/-- Kind, payload and the text left by `readTextLiteral` do not depend on the position. -/
theorem readTextLiteral_sameText (env : Env) (fuel : Nat) (s t : State) (h : sameText s t) :
    (readTextLiteral env fuel s = none ∧ readTextLiteral env fuel t = none) ∨
    ∃ a s1 b t1, readTextLiteral env fuel s = some (a, s1) ∧
      readTextLiteral env fuel t = some (b, t1) ∧ sameToken a b ∧ sameText s1 t1 := by
  unfold readTextLiteral
  rcases textLoop_sameText env fuel [] _ _ (readChar_sameText s t h) with
    ⟨h1, h2⟩ | ⟨buf, s1, t1, h1, h2, h3⟩
  · rw [h1, h2]; exact Or.inl ⟨rfl, rfl⟩
  · rw [h1, h2]
    dsimp only
    rw [← h3.1]
    by_cases hE : s1.currentChar = EOF
    · rw [if_pos hE, if_pos hE]
      exact Or.inr ⟨_, _, _, _, rfl, rfl, ⟨rfl, rfl, rfl⟩, error_sameText _ _ _ _ _ _ _ h3⟩
    · rw [if_neg hE, if_neg hE]
      exact Or.inr ⟨_, _, _, _, rfl, rfl, ⟨rfl, rfl, rfl⟩, readChar_sameText _ _ h3⟩

/-- Kind and payload of the token, the text left and the kinds of the errors reported by `getToken` do not depend on the line and column it is called at. -/
theorem getToken_sameText (env : Env) (fuel : Nat) : ∀ (s t : State), sameText s t →
    (getToken env fuel s = none ∧ getToken env fuel t = none) ∨
    ∃ a s1 b t1, getToken env fuel s = some (a, s1) ∧ getToken env fuel t = some (b, t1) ∧
      sameToken a b ∧ sameText s1 t1 := by
  induction fuel with
  | zero => intro s t _; exact Or.inl ⟨rfl, rfl⟩
  | succ f ih =>
    intro s t h
    have h1 := readChar_sameText s t h
    have h2 := readChar_sameText _ _ h1
    have tok : ∀ (k : TokenType) (l1 c1 l2 c2 : Int),
        sameToken (makeToken k l1 c1) (makeToken k l2 c2) := fun _ _ _ _ _ => ⟨rfl, rfl, rfl⟩
    rw [getToken, getToken, ← h.1]
    by_cases hE : s.currentChar = EOF
    · rw [if_pos hE, if_pos hE]
      exact Or.inr ⟨_, _, _, _, rfl, rfl, tok _ _ _ _ _, h⟩
    · rw [if_neg hE, if_neg hE]
      cases hc : env.charCodes s.currentChar with
      | CHAR_SPACE =>
        dsimp only
        rcases skipBlank_sameText env f s t h with ⟨e1, e2⟩ | ⟨s1, t1, e1, e2, e3⟩
        · rw [e1, e2]; exact Or.inl ⟨rfl, rfl⟩
        · rw [e1, e2]; exact ih s1 t1 e3
      | CHAR_LETTER => exact readIdentifierOrKeyword_sameText env f s t h
      | CHAR_DIGIT => exact readNumber_sameText env f s t h
      | CHAR_PLUS => exact Or.inr ⟨_, _, _, _, rfl, rfl, tok _ _ _ _ _, h1⟩
      | CHAR_MINUS => exact Or.inr ⟨_, _, _, _, rfl, rfl, tok _ _ _ _ _, h1⟩
      | CHAR_TIMES =>
        dsimp only
        rw [← h1.1]
        by_cases hx : env.charCodes (readChar s).currentChar = CHAR_TIMES
        · rw [if_pos hx, if_pos hx]; exact Or.inr ⟨_, _, _, _, rfl, rfl, tok _ _ _ _ _, h2⟩
        · rw [if_neg hx, if_neg hx]; exact Or.inr ⟨_, _, _, _, rfl, rfl, tok _ _ _ _ _, h1⟩
      | CHAR_SLASH =>
        dsimp only
        rw [← h1.1]
        by_cases hx : env.charCodes (readChar s).currentChar = CHAR_SLASH
        · rw [if_pos hx, if_pos hx]
          rcases skipLine_sameText f _ _ h1 with ⟨e1, e2⟩ | ⟨s1, t1, e1, e2, e3⟩
          · rw [e1, e2]; exact Or.inl ⟨rfl, rfl⟩
          · rw [e1, e2]; exact ih s1 t1 e3
        · rw [if_neg hx, if_neg hx]; exact Or.inr ⟨_, _, _, _, rfl, rfl, tok _ _ _ _ _, h1⟩
      | CHAR_LT =>
        dsimp only
        rw [← h1.1]
        by_cases hx : (readChar s).currentChar = 61
        · rw [if_pos hx, if_pos hx]; exact Or.inr ⟨_, _, _, _, rfl, rfl, tok _ _ _ _ _, h2⟩
        · rw [if_neg hx, if_neg hx]; exact Or.inr ⟨_, _, _, _, rfl, rfl, tok _ _ _ _ _, h1⟩
      | CHAR_GT =>
        dsimp only
        rw [← h1.1]
        by_cases hx : (readChar s).currentChar = 61
        · rw [if_pos hx, if_pos hx]; exact Or.inr ⟨_, _, _, _, rfl, rfl, tok _ _ _ _ _, h2⟩
        · rw [if_neg hx, if_neg hx]; exact Or.inr ⟨_, _, _, _, rfl, rfl, tok _ _ _ _ _, h1⟩
      | CHAR_EXCLAIMATION =>
        dsimp only
        rw [← h1.1]
        by_cases hx : (readChar s).currentChar = 61
        · rw [if_pos hx, if_pos hx]; exact Or.inr ⟨_, _, _, _, rfl, rfl, tok _ _ _ _ _, h2⟩
        · rw [if_neg hx, if_neg hx]
          exact Or.inr ⟨_, _, _, _, rfl, rfl, tok _ _ _ _ _, error_sameText _ _ _ _ _ _ _ h1⟩
      | CHAR_EQ => exact Or.inr ⟨_, _, _, _, rfl, rfl, tok _ _ _ _ _, h1⟩
      | CHAR_COMMA => exact Or.inr ⟨_, _, _, _, rfl, rfl, tok _ _ _ _ _, h1⟩
      | CHAR_PERIOD => exact Or.inr ⟨_, _, _, _, rfl, rfl, tok _ _ _ _ _, h1⟩
      | CHAR_COLON =>
        dsimp only
        rw [← h1.1]
        by_cases hx : (readChar s).currentChar = 61
        · rw [if_pos hx, if_pos hx]; exact Or.inr ⟨_, _, _, _, rfl, rfl, tok _ _ _ _ _, h2⟩
        · rw [if_neg hx, if_neg hx]; exact Or.inr ⟨_, _, _, _, rfl, rfl, tok _ _ _ _ _, h1⟩
      | CHAR_SEMICOLON => exact Or.inr ⟨_, _, _, _, rfl, rfl, tok _ _ _ _ _, h1⟩
      | CHAR_SINGLEQUOTE =>
        have hq := readCharConst_sameText env s t h
        exact Or.inr ⟨_, _, _, _, rfl, rfl, hq.1, hq.2⟩
      | CHAR_DOUBLEQUOTE => exact readTextLiteral_sameText env f s t h
      | CHAR_LPAR =>
        dsimp only
        rw [← h1.1]
        by_cases hx : env.charCodes (readChar s).currentChar = CHAR_TIMES
        · rw [if_pos hx, if_pos hx]
          rcases skipComment_sameText env f _ _ h1 with ⟨e1, e2⟩ | ⟨s1, t1, e1, e2, e3⟩
          · rw [e1, e2]; exact Or.inl ⟨rfl, rfl⟩
          · rw [e1, e2]; exact ih s1 t1 e3
        · rw [if_neg hx, if_neg hx]; exact Or.inr ⟨_, _, _, _, rfl, rfl, tok _ _ _ _ _, h1⟩
      | CHAR_RPAR => exact Or.inr ⟨_, _, _, _, rfl, rfl, tok _ _ _ _ _, h1⟩
      | CHAR_MOD => exact Or.inr ⟨_, _, _, _, rfl, rfl, tok _ _ _ _ _, h1⟩
      | CHAR_UNKNOWN =>
        exact Or.inr ⟨_, _, _, _, rfl, rfl, tok _ _ _ _ _,
          readChar_sameText _ _ (error_sameText _ _ _ _ _ _ _ h)⟩

/-- A line comment followed by more input, for a table whose value read at
`EOF` is not `CHAR_SPACE`.  Let `s` be on `//` + `c` + newline + `rest`, `c`
without newline, and let `t` be any state on `rest` (at any line and column)
whose error log has the kinds of that of `s`.  Whenever `getToken` from `t`
returns a token, `getToken` from `s` returns a token of the same kind and
payload, leaves the same text to scan and has reported errors of the same
kinds.  If instead the input ends after `//` + `c`, before any newline,
`getToken` returns `TK_EOF` and reports no error. -/
theorem getToken_line_comment (env : Env) (c rest : List Nat) (s : State)
    (hslash : env.charCodes 47 = CHAR_SLASH) (hnl : env.charCodes 10 = CHAR_SPACE)
    (heof : env.charCodes EOF ≠ CHAR_SPACE) (hc : 10 ∉ c) (hcur : s.currentChar = 47) :
    (s.input = 47 :: c ++ 10 :: rest →
      ∀ t : State, t.currentChar = nextChar rest → t.input = rest.tail →
        t.errors.map (fun e => e.1) = s.errors.map (fun e => e.1) →
        ∀ (fuel : Nat) (b : Token) (t1 : State), getToken env fuel t = some (b, t1) →
          ∃ a s1, getToken env (fuel + c.length + 5) s = some (a, s1) ∧
            sameToken a b ∧ sameText s1 t1) ∧
    (s.input = 47 :: c →
      ∀ fuel : Nat, c.length + 4 ≤ fuel →
        ∃ s1, getToken env fuel s = some (makeToken TK_EOF s1.lineNo s1.colNo, s1) ∧
          s1.currentChar = EOF ∧ s1.errors = s.errors) := by
  have hpast := getToken_past_line_comment env c rest s hslash hnl heof hc hcur
  refine ⟨?_, hpast.2⟩
  intro hin t htc hti hte fuel b t1 hb
  obtain ⟨p1, p2, p3, p4⟩ := hpast.1 hin
  have hsim : sameText (readChar^[c.length + 3] s) t :=
    ⟨by rw [p1, htc], by rw [p2, hti], by rw [p3, hte]⟩
  rcases getToken_sameText env fuel _ t hsim with ⟨_, e2⟩ | ⟨a, s1, b2, t2, e1, e2, e3, e4⟩
  · rw [e2] at hb; exact absurd hb (by simp)
  · rw [e2] at hb
    have hbt : b2 = b ∧ t2 = t1 := by simpa using hb
    rw [hbt.1] at e3
    rw [hbt.2] at e4
    exact ⟨a, s1, p4 fuel (a, s1) e1, e3, e4⟩

/-! ## End of input and invalid symbols -/

/-- C17: end-of-input is a fixed point of `getToken`.  With `EOF` as the current
character, a call returns a `TK_EOF` token stamped with the current line and
column and leaves the state, error log included, exactly as it was; hence any
number `k` of calls return `k` such tokens, all with the same position, and the
state is still the same. -/
theorem getToken_eof_fixed_point (env : Env) (s : State) (fuel : Nat)
    (heof : s.currentChar = EOF) :
    getToken env (fuel + 1) s =
        some ({ tokenType := TK_EOF, lineNo := s.lineNo, colNo := s.colNo, string := [],
                value := 0 }, s) ∧
    ∀ k : Nat, getTokenTimes env (fuel + 1) k s =
      some (List.replicate k { tokenType := TK_EOF, lineNo := s.lineNo, colNo := s.colNo,
                               string := [], value := 0 }, s) := by
  have h1 : getToken env (fuel + 1) s =
      some ({ tokenType := TK_EOF, lineNo := s.lineNo, colNo := s.colNo, string := [],
              value := 0 }, s) := getToken_at_EOF env s fuel heof
  refine ⟨h1, ?_⟩
  intro k
  induction k with
  | zero => rfl
  | succ k ih =>
    rw [getTokenTimes, h1]
    simp only [ih, List.replicate_succ]

/-- C17 at the end of the input `x`, after the identifier was read. -/
theorem getToken_eof_fixed_point_witness :
    getToken (kplEnv 15) (0 + 1) (readChar (openInputStream (bytes "x"))) =
        some ({ tokenType := TK_EOF, lineNo := (readChar (openInputStream (bytes "x"))).lineNo,
                colNo := (readChar (openInputStream (bytes "x"))).colNo, string := [],
                value := 0 }, readChar (openInputStream (bytes "x"))) ∧
    ∀ k : Nat, getTokenTimes (kplEnv 15) (0 + 1) k (readChar (openInputStream (bytes "x"))) =
      some (List.replicate k { tokenType := TK_EOF,
                               lineNo := (readChar (openInputStream (bytes "x"))).lineNo,
                               colNo := (readChar (openInputStream (bytes "x"))).colNo,
                               string := [], value := 0 },
        readChar (openInputStream (bytes "x"))) :=
  getToken_eof_fixed_point (kplEnv 15) (readChar (openInputStream (bytes "x"))) 0 (by decide)

/-- C13: invalid-symbol recovery.  On a current character of `s` that is not
`EOF` and that the table puts in none of the categories `getToken` recognizes,
the call reports exactly one `ERR_INVALIDSYMBOL` at the current line and
column, advances exactly one character and returns a `TK_NONE` token at that
same position; on `!` (state `t`) followed by anything but `=`, end-of-input
included, it reports exactly one `ERR_INVALIDSYMBOL` at the position of the
`!`, returns a `TK_NONE` token at that position and stops on the following
character, which is not consumed. -/
theorem getToken_invalid_symbol (env : Env) (s t : State) (fuel : Nat)
    (hne : s.currentChar ≠ EOF) (hunknown : env.charCodes s.currentChar = CHAR_UNKNOWN)
    (hexcl : env.charCodes 33 = CHAR_EXCLAIMATION) (ht : t.currentChar = 33)
    (hnext : nextChar t.input ≠ 61) :
    (∃ s1, getToken env (fuel + 1) s =
          some ({ tokenType := TK_NONE, lineNo := s.lineNo, colNo := s.colNo, string := [],
                  value := 0 }, s1) ∧
        s1.errors = s.errors ++ [(ERR_INVALIDSYMBOL, s.lineNo, s.colNo)] ∧
        s1.currentChar = nextChar s.input ∧ s1.input = s.input.tail) ∧
    (∃ t1, getToken env (fuel + 1) t =
          some ({ tokenType := TK_NONE, lineNo := t.lineNo, colNo := t.colNo, string := [],
                  value := 0 }, t1) ∧
        t1.errors = t.errors ++ [(ERR_INVALIDSYMBOL, t.lineNo, t.colNo)] ∧
        t1.currentChar = nextChar t.input ∧ t1.input = t.input.tail) := by
  refine ⟨?_, ?_⟩
  · refine ⟨readChar (error ERR_INVALIDSYMBOL s.lineNo s.colNo s), ?_, ?_, ?_, ?_⟩
    · rw [getToken, if_neg hne, hunknown]; rfl
    · rw [readChar_errors]; rfl
    · rw [readChar_currentChar]; rfl
    · rw [readChar_input]; rfl
  · have hd1 : (readChar t).currentChar ≠ 61 := by rw [readChar_currentChar]; exact hnext
    have hne2 : t.currentChar ≠ EOF := by rw [ht]; decide
    refine ⟨error ERR_INVALIDSYMBOL t.lineNo t.colNo (readChar t), ?_, ?_, ?_, ?_⟩
    · rw [getToken, if_neg hne2, ht, hexcl]
      simp only [if_neg hd1]
      rfl
    · show (readChar t).errors ++ _ = _
      rw [readChar_errors]
    · show (readChar t).currentChar = _
      rw [readChar_currentChar]
    · show (readChar t).input = _
      rw [readChar_input]

/-- C13 at `#x` and at `!x`, each at the start of a file. -/
theorem getToken_invalid_symbol_witness :
    (∃ s1, getToken (kplEnv 15) (0 + 1) (openInputStream (bytes "#x")) =
          some ({ tokenType := TK_NONE, lineNo := (openInputStream (bytes "#x")).lineNo,
                  colNo := (openInputStream (bytes "#x")).colNo, string := [],
                  value := 0 }, s1) ∧
        s1.errors = (openInputStream (bytes "#x")).errors ++
          [(ERR_INVALIDSYMBOL, (openInputStream (bytes "#x")).lineNo,
            (openInputStream (bytes "#x")).colNo)] ∧
        s1.currentChar = nextChar (openInputStream (bytes "#x")).input ∧
        s1.input = (openInputStream (bytes "#x")).input.tail) ∧
    (∃ t1, getToken (kplEnv 15) (0 + 1) (openInputStream (bytes "!x")) =
          some ({ tokenType := TK_NONE, lineNo := (openInputStream (bytes "!x")).lineNo,
                  colNo := (openInputStream (bytes "!x")).colNo, string := [],
                  value := 0 }, t1) ∧
        t1.errors = (openInputStream (bytes "!x")).errors ++
          [(ERR_INVALIDSYMBOL, (openInputStream (bytes "!x")).lineNo,
            (openInputStream (bytes "!x")).colNo)] ∧
        t1.currentChar = nextChar (openInputStream (bytes "!x")).input ∧
        t1.input = (openInputStream (bytes "!x")).input.tail) :=
  getToken_invalid_symbol (kplEnv 15) (openInputStream (bytes "#x"))
    (openInputStream (bytes "!x")) 0 (by decide) (by decide) (by decide) (by decide)
    (by decide)

/-! ## Character constants and text literals -/

/-- `skipBlank` reports no error. -/
theorem skipBlank_errors (env : Env) (fuel : Nat) : ∀ (s s1 : State),
    skipBlank env fuel s = some s1 → s1.errors = s.errors := by
  induction fuel with
  | zero => intro s s1 h; simp [skipBlank] at h
  | succ f ih =>
    intro s s1 h
    rw [skipBlank] at h
    by_cases hc : env.charCodes s.currentChar = CHAR_SPACE
    · rw [if_pos hc] at h; rw [ih _ _ h, readChar_errors]
    · rw [if_neg hc] at h; cases h; rfl

/-- The line-comment loop reports no error. -/
theorem skipLine_errors (fuel : Nat) : ∀ (s s1 : State),
    skipLine fuel s = some s1 → s1.errors = s.errors := by
  induction fuel with
  | zero => intro s s1 h; simp [skipLine] at h
  | succ f ih =>
    intro s s1 h
    rw [skipLine] at h
    by_cases hc : s.currentChar ≠ 10 ∧ s.currentChar ≠ EOF
    · rw [if_pos hc] at h; rw [ih _ _ h, readChar_errors]
    · rw [if_neg hc] at h; cases h; rfl

/-- The identifier loop reports no error. -/
theorem identLoop_errors (env : Env) (fuel : Nat) : ∀ (buf b : List Int) (s s1 : State),
    identLoop env fuel buf s = some (b, s1) → s1.errors = s.errors := by
  induction fuel with
  | zero => intro buf b s s1 h; simp [identLoop] at h
  | succ f ih =>
    intro buf b s s1 h
    rw [identLoop] at h
    by_cases hc : env.charCodes s.currentChar = CHAR_LETTER ∨
        env.charCodes s.currentChar = CHAR_DIGIT
    · rw [if_pos hc] at h; rw [ih _ _ _ _ h, readChar_errors]
    · rw [if_neg hc] at h; cases h; rfl

/-- The number loop reports no error. -/
theorem numberLoop_errors (env : Env) (fuel : Nat) : ∀ (v w : Int) (s s1 : State),
    numberLoop env fuel v s = some (w, s1) → s1.errors = s.errors := by
  induction fuel with
  | zero => intro v w s s1 h; simp [numberLoop] at h
  | succ f ih =>
    intro v w s s1 h
    rw [numberLoop] at h
    by_cases hc : env.charCodes s.currentChar = CHAR_DIGIT
    · rw [if_pos hc] at h; rw [ih _ _ _ _ h, readChar_errors]
    · rw [if_neg hc] at h; cases h; rfl

/-- The text loop reports no error. -/
theorem textLoop_errors (env : Env) (fuel : Nat) : ∀ (buf b : List Int) (s s1 : State),
    textLoop env fuel buf s = some (b, s1) → s1.errors = s.errors := by
  induction fuel with
  | zero => intro buf b s s1 h; simp [textLoop] at h
  | succ f ih =>
    intro buf b s s1 h
    rw [textLoop] at h
    by_cases hc : s.currentChar ≠ 34 ∧ s.currentChar ≠ EOF
    · rw [if_pos hc] at h; rw [ih _ _ _ _ h, readChar_errors]
    · rw [if_neg hc] at h; cases h; rfl

/-- `skipComment` either reports nothing or stops at the end of the input with
one `ERR_ENDOFCOMMENT`. -/
theorem skipComment_errors (env : Env) (fuel : Nat) : ∀ (s s1 : State),
    skipComment env fuel s = some s1 →
    s1.errors = s.errors ∨
      (s1.currentChar = EOF ∧ ∃ ln cn, s1.errors = s.errors ++ [(ERR_ENDOFCOMMENT, ln, cn)]) := by
  induction fuel with
  | zero => intro s s1 h; simp [skipComment] at h
  | succ f ih =>
    intro s s1 h
    rw [skipComment] at h
    dsimp only at h
    by_cases hE : (readChar s).currentChar = EOF
    · rw [if_pos hE] at h
      cases h
      exact Or.inr ⟨hE, _, _, by show (readChar s).errors ++ _ = _; rw [readChar_errors]⟩
    · rw [if_neg hE] at h
      by_cases hT : env.charCodes (readChar s).currentChar = CHAR_TIMES
      · rw [if_pos hT] at h
        by_cases hR : env.charCodes (readChar (readChar s)).currentChar = CHAR_RPAR
        · rw [if_pos hR] at h
          cases h
          exact Or.inl (by rw [readChar_errors, readChar_errors, readChar_errors])
        · rw [if_neg hR] at h
          have := ih _ _ h
          rw [readChar_errors, readChar_errors] at this
          exact this
      · rw [if_neg hT] at h
        have := ih _ _ h
        rw [readChar_errors] at this
        exact this

/-- The outcome of `readIdentifierOrKeyword`: never `TK_NONE`, at most the
identifier-too-long error. -/
theorem readIdentifierOrKeyword_outcome (env : Env) (fuel : Nat) (s s1 : State) (tok : Token)
    (h : readIdentifierOrKeyword env fuel s = some (tok, s1)) :
    callOutcome env s.errors tok s1.errors := by
  unfold readIdentifierOrKeyword at h
  cases hl : identLoop env fuel [] s with
  | none => rw [hl] at h; simp at h
  | some p =>
    obtain ⟨buf, s2⟩ := p
    rw [hl] at h
    have he := identLoop_errors env fuel [] buf s s2 hl
    dsimp only [makeToken] at h
    have hinj := Option.some.inj h
    have htok := (Prod.mk.inj hinj).1
    have hst := (Prod.mk.inj hinj).2
    have hkind : tok.tokenType ≠ TK_NONE ∧
        (tok.tokenType = TK_IDENT ∨ tok.tokenType = env.checkKeyword tok.string) := by
      by_cases hk : env.checkKeyword buf ≠ TK_NONE
      · rw [if_pos hk] at htok
        rw [← htok]
        exact ⟨hk, Or.inr rfl⟩
      · rw [if_neg hk] at htok
        rw [← htok]
        exact ⟨fun hh => TokenType.noConfusion hh, Or.inl rfl⟩
    by_cases hlen : (buf.length : Int) ≥ (env.MAX_IDENT_LEN : Int) - 1
    · rw [if_pos hlen] at hst
      rw [← hst]
      refine Or.inr (Or.inr (Or.inl ⟨s.lineNo, s.colNo, ?_, hkind.1, hkind.2⟩))
      show s2.errors ++ _ = _
      rw [he]
    · rw [if_neg hlen] at hst
      rw [← hst, he]
      exact Or.inl ⟨rfl, hkind.1⟩

/-- The outcome of `readNumber`: a `TK_NUMBER` token and no error. -/
theorem readNumber_outcome (env : Env) (fuel : Nat) (s s1 : State) (tok : Token)
    (h : readNumber env fuel s = some (tok, s1)) :
    callOutcome env s.errors tok s1.errors := by
  unfold readNumber at h
  cases hl : numberLoop env fuel 0 s with
  | none => rw [hl] at h; simp at h
  | some p =>
    obtain ⟨v, s2⟩ := p
    rw [hl] at h
    have he := numberLoop_errors env fuel 0 v s s2 hl
    have hinj := Option.some.inj h
    have htok := (Prod.mk.inj hinj).1
    have hst := (Prod.mk.inj hinj).2
    rw [← hst, ← htok, he]
    exact Or.inl ⟨rfl, fun hh => TokenType.noConfusion hh⟩

/-- The outcome of `readCharConst`: `TK_CHAR` and no error, or `TK_NONE` and one
invalid-character-constant error. -/
theorem readCharConst_outcome (env : Env) (s : State) :
    callOutcome env s.errors (readCharConst env s).1 (readCharConst env s).2.errors := by
  unfold readCharConst
  dsimp only [makeToken]
  by_cases hE : (readChar s).currentChar = EOF
  · rw [if_pos hE]
    refine Or.inr (Or.inr (Or.inr (Or.inl ⟨s.lineNo, s.colNo, ?_, rfl⟩)))
    show (readChar s).errors ++ _ = _
    rw [readChar_errors]
  · rw [if_neg hE]
    by_cases hQ : env.charCodes (readChar (readChar s)).currentChar ≠ CHAR_SINGLEQUOTE
    · rw [if_pos hQ]
      refine Or.inr (Or.inr (Or.inr (Or.inl ⟨s.lineNo, s.colNo, ?_, rfl⟩)))
      show (readChar (readChar s)).errors ++ _ = _
      rw [readChar_errors, readChar_errors]
    · rw [if_neg hQ]
      refine Or.inl ⟨?_, fun hh => TokenType.noConfusion hh⟩
      show (readChar (readChar (readChar s))).errors = _
      rw [readChar_errors, readChar_errors, readChar_errors]

/-- The outcome of `readTextLiteral`: `TK_CHAR` and no error, or `TK_NONE` and
one invalid-character-constant error. -/
theorem readTextLiteral_outcome (env : Env) (fuel : Nat) (s s1 : State) (tok : Token)
    (h : readTextLiteral env fuel s = some (tok, s1)) :
    callOutcome env s.errors tok s1.errors := by
  unfold readTextLiteral at h
  cases hl : textLoop env fuel [] (readChar s) with
  | none => rw [hl] at h; simp at h
  | some p =>
    obtain ⟨buf, s2⟩ := p
    rw [hl] at h
    have he := textLoop_errors env fuel [] buf _ s2 hl
    rw [readChar_errors] at he
    dsimp only [makeToken] at h
    by_cases hE : s2.currentChar = EOF
    · rw [if_pos hE] at h
      have hinj := Option.some.inj h
      rw [← (Prod.mk.inj hinj).1, ← (Prod.mk.inj hinj).2]
      refine Or.inr (Or.inr (Or.inr (Or.inl ⟨s.lineNo, s.colNo, ?_, rfl⟩)))
      show s2.errors ++ _ = _
      rw [he]
    · rw [if_neg hE] at h
      have hinj := Option.some.inj h
      rw [← (Prod.mk.inj hinj).1, ← (Prod.mk.inj hinj).2]
      refine Or.inl ⟨?_, fun hh => TokenType.noConfusion hh⟩
      rw [readChar_errors, he]

/-- A call that reports nothing and returns a plain token made by `makeToken`. -/
theorem callOutcome_plain (env : Env) (s s1 : State) (kind : TokenType) (ln cn : Int)
    (hk : kind ≠ TK_NONE) (he : s1.errors = s.errors) :
    callOutcome env s.errors (makeToken kind ln cn) s1.errors :=
  Or.inl ⟨he, hk⟩

/-- The outcome of `getToken`: at most one error per call, and the kind of the
token that goes with each kind of error. -/
theorem getToken_outcome (env : Env) (fuel : Nat) : ∀ (s s1 : State) (tok : Token),
    getToken env fuel s = some (tok, s1) → callOutcome env s.errors tok s1.errors := by
  induction fuel with
  | zero => intro s s1 tok h; simp [getToken] at h
  | succ f ih =>
    intro s s1 tok h
    have r1 : (readChar s).errors = s.errors := readChar_errors s
    have r2 : (readChar (readChar s)).errors = s.errors := by rw [readChar_errors, r1]
    have plain : ∀ (kind : TokenType) (ln cn : Int) (u : State), kind ≠ TK_NONE →
        u.errors = s.errors → some (makeToken kind ln cn, u) = some (tok, s1) →
        callOutcome env s.errors tok s1.errors := by
      intro kind ln cn u hk hu hq
      have hinj := Option.some.inj hq
      rw [← (Prod.mk.inj hinj).1, ← (Prod.mk.inj hinj).2]
      exact callOutcome_plain env s u kind ln cn hk hu
    rw [getToken] at h
    by_cases hE : s.currentChar = EOF
    · rw [if_pos hE] at h
      exact plain _ _ _ _ (by decide) rfl h
    · rw [if_neg hE] at h
      revert h
      cases hc : env.charCodes s.currentChar with
      | CHAR_SPACE =>
        intro h
        dsimp only at h
        cases hb : skipBlank env f s with
        | none => rw [hb] at h; simp at h
        | some u =>
          rw [hb] at h
          have := ih u s1 tok h
          rw [skipBlank_errors env f s u hb] at this
          exact this
      | CHAR_LETTER => exact readIdentifierOrKeyword_outcome env f s s1 tok
      | CHAR_DIGIT => exact readNumber_outcome env f s s1 tok
      | CHAR_PLUS => exact plain _ _ _ _ (by decide) r1
      | CHAR_MINUS => exact plain _ _ _ _ (by decide) r1
      | CHAR_TIMES =>
        intro h
        dsimp only at h
        by_cases hx : env.charCodes (readChar s).currentChar = CHAR_TIMES
        · rw [if_pos hx] at h; exact plain _ _ _ _ (by decide) r2 h
        · rw [if_neg hx] at h; exact plain _ _ _ _ (by decide) r1 h
      | CHAR_SLASH =>
        intro h
        dsimp only at h
        by_cases hx : env.charCodes (readChar s).currentChar = CHAR_SLASH
        · rw [if_pos hx] at h
          cases hb : skipLine f (readChar s) with
          | none => rw [hb] at h; simp at h
          | some u =>
            rw [hb] at h
            have := ih u s1 tok h
            rw [skipLine_errors f _ u hb, r1] at this
            exact this
        · rw [if_neg hx] at h; exact plain _ _ _ _ (by decide) r1 h
      | CHAR_LT =>
        intro h
        dsimp only at h
        by_cases hx : (readChar s).currentChar = 61
        · rw [if_pos hx] at h; exact plain _ _ _ _ (by decide) r2 h
        · rw [if_neg hx] at h; exact plain _ _ _ _ (by decide) r1 h
      | CHAR_GT =>
        intro h
        dsimp only at h
        by_cases hx : (readChar s).currentChar = 61
        · rw [if_pos hx] at h; exact plain _ _ _ _ (by decide) r2 h
        · rw [if_neg hx] at h; exact plain _ _ _ _ (by decide) r1 h
      | CHAR_EXCLAIMATION =>
        intro h
        dsimp only at h
        by_cases hx : (readChar s).currentChar = 61
        · rw [if_pos hx] at h; exact plain _ _ _ _ (by decide) r2 h
        · rw [if_neg hx] at h
          have hinj := Option.some.inj h
          rw [← (Prod.mk.inj hinj).1, ← (Prod.mk.inj hinj).2]
          refine Or.inr (Or.inr (Or.inr (Or.inr ⟨s.lineNo, s.colNo, ?_, rfl⟩)))
          show (readChar s).errors ++ _ = _
          rw [r1]
      | CHAR_EQ => exact plain _ _ _ _ (by decide) r1
      | CHAR_COMMA => exact plain _ _ _ _ (by decide) r1
      | CHAR_PERIOD => exact plain _ _ _ _ (by decide) r1
      | CHAR_COLON =>
        intro h
        dsimp only at h
        by_cases hx : (readChar s).currentChar = 61
        · rw [if_pos hx] at h; exact plain _ _ _ _ (by decide) r2 h
        · rw [if_neg hx] at h; exact plain _ _ _ _ (by decide) r1 h
      | CHAR_SEMICOLON => exact plain _ _ _ _ (by decide) r1
      | CHAR_SINGLEQUOTE =>
        intro h
        have hinj := Option.some.inj h
        have hq := readCharConst_outcome env s
        rw [hinj] at hq
        exact hq
      | CHAR_DOUBLEQUOTE => exact readTextLiteral_outcome env f s s1 tok
      | CHAR_LPAR =>
        intro h
        dsimp only at h
        by_cases hx : env.charCodes (readChar s).currentChar = CHAR_TIMES
        · rw [if_pos hx] at h
          cases hb : skipComment env f (readChar s) with
          | none => rw [hb] at h; simp at h
          | some u =>
            rw [hb] at h
            rcases skipComment_errors env f _ u hb with he | ⟨hu, ln, cn, he⟩
            · have := ih u s1 tok h
              rw [he, r1] at this
              exact this
            · cases f with
              | zero => simp [getToken] at h
              | succ g =>
                have h : getToken env (g + 1) u = some (tok, s1) := h
                rw [getToken_at_EOF env u g hu] at h
                have hinj := Option.some.inj h
                rw [← (Prod.mk.inj hinj).1, ← (Prod.mk.inj hinj).2, he, r1]
                exact Or.inr (Or.inl ⟨ln, cn, rfl, rfl⟩)
        · rw [if_neg hx] at h; exact plain _ _ _ _ (by decide) r1 h
      | CHAR_RPAR => exact plain _ _ _ _ (by decide) r1
      | CHAR_MOD => exact plain _ _ _ _ (by decide) r1
      | CHAR_UNKNOWN =>
        intro h
        have hinj := Option.some.inj h
        rw [← (Prod.mk.inj hinj).1, ← (Prod.mk.inj hinj).2]
        refine Or.inr (Or.inr (Or.inr (Or.inr ⟨s.lineNo, s.colNo, ?_, rfl⟩)))
        rw [readChar_errors]
        rfl

/-- A log extended by one entry is not the log itself. -/
theorem append_singleton_ne {α : Type} (l : List α) (a : α) : l ++ [a] ≠ l := by
  intro h
  have := congrArg List.length h
  simp at this

/-- Two one-entry extensions of a log that agree have the same kind of error. -/
theorem append_singleton_code (l : List (ErrorCode × Int × Int)) (c1 c2 : ErrorCode)
    (l1 n1 l2 n2 : Int) (h : l ++ [(c1, l1, n1)] = l ++ [(c2, l2, n2)]) : c1 = c2 := by
  have h1 := List.append_cancel_left h
  simp only [List.cons.injEq, Prod.mk.injEq, and_true] at h1
  exact h1.1

/-- C14, amended: a call of `getToken` that returns reports at most one error,
and the token returned with it depends on the kind of error.  With
`ERR_INVALIDSYMBOL` or `ERR_INVALIDCHARCONSTANT` the token is `TK_NONE`.  With
`ERR_IDENTTOOLONG` the token is not `TK_NONE`: it is the `TK_IDENT` token, or
the token of the kind `checkKeyword` gives for its spelling.  With
`ERR_ENDOFCOMMENT` the token is `TK_EOF`. -/
theorem getToken_error_token (env : Env) (fuel : Nat) (s s1 : State) (tok : Token)
    (h : getToken env fuel s = some (tok, s1)) :
    ((∃ ln cn, s1.errors = s.errors ++ [(ERR_INVALIDSYMBOL, ln, cn)]) →
      tok.tokenType = TK_NONE) ∧
    ((∃ ln cn, s1.errors = s.errors ++ [(ERR_INVALIDCHARCONSTANT, ln, cn)]) →
      tok.tokenType = TK_NONE) ∧
    ((∃ ln cn, s1.errors = s.errors ++ [(ERR_IDENTTOOLONG, ln, cn)]) →
      tok.tokenType ≠ TK_NONE ∧
        (tok.tokenType = TK_IDENT ∨ tok.tokenType = env.checkKeyword tok.string)) ∧
    ((∃ ln cn, s1.errors = s.errors ++ [(ERR_ENDOFCOMMENT, ln, cn)]) →
      tok.tokenType = TK_EOF) := by
  have ho := getToken_outcome env fuel s s1 tok h
  have key : ∀ (code : ErrorCode), (∃ ln cn, s1.errors = s.errors ++ [(code, ln, cn)]) →
      (code = ERR_ENDOFCOMMENT ∧ tok.tokenType = TK_EOF) ∨
      (code = ERR_IDENTTOOLONG ∧ tok.tokenType ≠ TK_NONE ∧
        (tok.tokenType = TK_IDENT ∨ tok.tokenType = env.checkKeyword tok.string)) ∨
      (code = ERR_INVALIDCHARCONSTANT ∧ tok.tokenType = TK_NONE) ∨
      (code = ERR_INVALIDSYMBOL ∧ tok.tokenType = TK_NONE) := by
    rintro code ⟨ln, cn, he⟩
    rcases ho with ⟨h0, _⟩ | ⟨l, c, h1, hk⟩ | ⟨l, c, h1, hk⟩ | ⟨l, c, h1, hk⟩ | ⟨l, c, h1, hk⟩
    · rw [h0] at he
      exact absurd he.symm (append_singleton_ne _ _)
    · rw [h1] at he
      exact Or.inl ⟨(append_singleton_code _ _ _ _ _ _ _ he).symm, hk⟩
    · rw [h1] at he
      exact Or.inr (Or.inl ⟨(append_singleton_code _ _ _ _ _ _ _ he).symm, hk⟩)
    · rw [h1] at he
      exact Or.inr (Or.inr (Or.inl ⟨(append_singleton_code _ _ _ _ _ _ _ he).symm, hk⟩))
    · rw [h1] at he
      exact Or.inr (Or.inr (Or.inr ⟨(append_singleton_code _ _ _ _ _ _ _ he).symm, hk⟩))
  refine ⟨?_, ?_, ?_, ?_⟩
  · intro he
    rcases key _ he with ⟨hc, _⟩ | ⟨hc, _⟩ | ⟨hc, _⟩ | ⟨_, hk⟩
    · cases hc
    · cases hc
    · cases hc
    · exact hk
  · intro he
    rcases key _ he with ⟨hc, _⟩ | ⟨hc, _⟩ | ⟨_, hk⟩ | ⟨hc, _⟩
    · cases hc
    · cases hc
    · exact hk
    · cases hc
  · intro he
    rcases key _ he with ⟨hc, _⟩ | ⟨_, hk⟩ | ⟨hc, _⟩ | ⟨hc, _⟩
    · cases hc
    · exact hk
    · cases hc
    · cases hc
  · intro he
    rcases key _ he with ⟨_, hk⟩ | ⟨hc, _⟩ | ⟨hc, _⟩ | ⟨hc, _⟩
    · exact hk
    · cases hc
    · cases hc
    · cases hc

/-- C19: no silent invalid token.  A call of `getToken` that returns has added
at most one error to the log, and when its token is `TK_NONE` it has added
exactly one, an `ERR_INVALIDSYMBOL` or an `ERR_INVALIDCHARCONSTANT`. -/
theorem getToken_none_has_error (env : Env) (fuel : Nat) (s s1 : State) (tok : Token)
    (h : getToken env fuel s = some (tok, s1)) :
    (s1.errors = s.errors ∨ ∃ e, s1.errors = s.errors ++ [e]) ∧
    (tok.tokenType = TK_NONE →
      ∃ ln cn, s1.errors = s.errors ++ [(ERR_INVALIDSYMBOL, ln, cn)] ∨
        s1.errors = s.errors ++ [(ERR_INVALIDCHARCONSTANT, ln, cn)]) := by
  have ho := getToken_outcome env fuel s s1 tok h
  rcases ho with ⟨h0, hk⟩ | ⟨l, c, h1, hk⟩ | ⟨l, c, h1, hk, _⟩ | ⟨l, c, h1, hk⟩ | ⟨l, c, h1, hk⟩
  · exact ⟨Or.inl h0, fun hn => absurd hn hk⟩
  · refine ⟨Or.inr ⟨_, h1⟩, fun hn => ?_⟩
    rw [hk] at hn
    cases hn
  · exact ⟨Or.inr ⟨_, h1⟩, fun hn => absurd hn hk⟩
  · exact ⟨Or.inr ⟨_, h1⟩, fun _ => ⟨l, c, Or.inr h1⟩⟩
  · exact ⟨Or.inr ⟨_, h1⟩, fun _ => ⟨l, c, Or.inl h1⟩⟩

/-- C14 as stated fails for two of the four errors: on a sixteen-letter
identifier the call reports `ERR_IDENTTOOLONG` and returns a `TK_IDENT` token
(with the first fourteen letters), and on `(* x` it reports `ERR_ENDOFCOMMENT`
and returns `TK_EOF`; neither token is `TK_NONE`. -/
theorem getToken_error_without_none :
    (getToken (kplEnv 15) 25 (openInputStream (bytes "abcdefghijklmnop"))).map
        (fun r => (r.1.tokenType, r.1.string, r.2.errors.map (fun e => e.1))) =
      some (TK_IDENT, chars "abcdefghijklmn", [ERR_IDENTTOOLONG]) ∧
    (getToken (kplEnv 15) 25 (openInputStream (bytes "(* x"))).map
        (fun r => (r.1.tokenType, r.1.string, r.2.errors.map (fun e => e.1))) =
      some (TK_EOF, [], [ERR_ENDOFCOMMENT]) := by
  decide

/-- C14, amended, at the call on `!x` at the start of a file. -/
theorem getToken_error_token_witness :
    getToken (kplEnv 15) 2 (openInputStream (bytes "!x")) =
      some ({ tokenType := TK_NONE, lineNo := 1, colNo := 1, string := [], value := 0 },
        { currentChar := 120, input := [], lineNo := 1, colNo := 2,
          errors := [(ERR_INVALIDSYMBOL, 1, 1)] }) ∧
    (((∃ ln cn, [(ERR_INVALIDSYMBOL, (1 : Int), (1 : Int))] =
          (openInputStream (bytes "!x")).errors ++ [(ERR_INVALIDSYMBOL, ln, cn)]) →
      TK_NONE = TK_NONE) ∧
    ((∃ ln cn, [(ERR_INVALIDSYMBOL, (1 : Int), (1 : Int))] =
          (openInputStream (bytes "!x")).errors ++ [(ERR_INVALIDCHARCONSTANT, ln, cn)]) →
      TK_NONE = TK_NONE) ∧
    ((∃ ln cn, [(ERR_INVALIDSYMBOL, (1 : Int), (1 : Int))] =
          (openInputStream (bytes "!x")).errors ++ [(ERR_IDENTTOOLONG, ln, cn)]) →
      TK_NONE ≠ TK_NONE ∧
        (TK_NONE = TK_IDENT ∨ TK_NONE = (kplEnv 15).checkKeyword [])) ∧
    ((∃ ln cn, [(ERR_INVALIDSYMBOL, (1 : Int), (1 : Int))] =
          (openInputStream (bytes "!x")).errors ++ [(ERR_ENDOFCOMMENT, ln, cn)]) →
      TK_NONE = TK_EOF)) :=
  ⟨by decide,
    getToken_error_token (kplEnv 15) 2 (openInputStream (bytes "!x"))
      { currentChar := 120, input := [], lineNo := 1, colNo := 2,
        errors := [(ERR_INVALIDSYMBOL, 1, 1)] }
      { tokenType := TK_NONE, lineNo := 1, colNo := 1, string := [], value := 0 }
      (by decide)⟩

/-- C19 at the call on `'ab'` at the start of a file. -/
theorem getToken_none_has_error_witness :
    getToken (kplEnv 15) 2 (openInputStream (bytes "'ab'")) =
      some ({ tokenType := TK_NONE, lineNo := 1, colNo := 1, string := [97], value := 0 },
        { currentChar := 98, input := [39], lineNo := 1, colNo := 3,
          errors := [(ERR_INVALIDCHARCONSTANT, 1, 1)] }) ∧
    (([(ERR_INVALIDCHARCONSTANT, (1 : Int), (1 : Int))] =
          (openInputStream (bytes "'ab'")).errors ∨
        ∃ e, [(ERR_INVALIDCHARCONSTANT, (1 : Int), (1 : Int))] =
          (openInputStream (bytes "'ab'")).errors ++ [e]) ∧
      (TK_NONE = TK_NONE →
        ∃ ln cn, [(ERR_INVALIDCHARCONSTANT, (1 : Int), (1 : Int))] =
            (openInputStream (bytes "'ab'")).errors ++ [(ERR_INVALIDSYMBOL, ln, cn)] ∨
          [(ERR_INVALIDCHARCONSTANT, (1 : Int), (1 : Int))] =
            (openInputStream (bytes "'ab'")).errors ++ [(ERR_INVALIDCHARCONSTANT, ln, cn)])) :=
  ⟨by decide,
    getToken_none_has_error (kplEnv 15) 2 (openInputStream (bytes "'ab'"))
      { currentChar := 98, input := [39], lineNo := 1, colNo := 3,
        errors := [(ERR_INVALIDCHARCONSTANT, 1, 1)] }
      { tokenType := TK_NONE, lineNo := 1, colNo := 1, string := [97], value := 0 }
      (by decide)⟩

/-! ## The spelling buffer -/

/-- One step of the bounded copy keeps the spelling within `MAX_IDENT_LEN - 1`
characters. -/
theorem capped_length (env : Env) (buf : List Int) (c : Int)
    (hb : buf.length ≤ env.MAX_IDENT_LEN - 1) :
    (if (buf.length : Int) < (env.MAX_IDENT_LEN : Int) - 1 then buf ++ [c] else buf).length ≤
      env.MAX_IDENT_LEN - 1 := by
  by_cases h : (buf.length : Int) < (env.MAX_IDENT_LEN : Int) - 1
  · rw [if_pos h]
    simp only [List.length_append, List.length_singleton]
    omega
  · rw [if_neg h]; exact hb

/-- The identifier loop keeps the spelling within `MAX_IDENT_LEN - 1`
characters. -/
theorem identLoop_length (env : Env) (fuel : Nat) : ∀ (buf b : List Int) (s s1 : State),
    buf.length ≤ env.MAX_IDENT_LEN - 1 → identLoop env fuel buf s = some (b, s1) →
    b.length ≤ env.MAX_IDENT_LEN - 1 := by
  induction fuel with
  | zero => intro buf b s s1 _ h; simp [identLoop] at h
  | succ f ih =>
    intro buf b s s1 hb h
    rw [identLoop] at h
    by_cases hc : env.charCodes s.currentChar = CHAR_LETTER ∨
        env.charCodes s.currentChar = CHAR_DIGIT
    · rw [if_pos hc] at h
      exact ih _ _ _ _ (capped_length env buf s.currentChar hb) h
    · rw [if_neg hc] at h
      cases h
      exact hb

/-- The text loop keeps the spelling within `MAX_IDENT_LEN - 1` characters. -/
theorem textLoop_length (env : Env) (fuel : Nat) : ∀ (buf b : List Int) (s s1 : State),
    buf.length ≤ env.MAX_IDENT_LEN - 1 → textLoop env fuel buf s = some (b, s1) →
    b.length ≤ env.MAX_IDENT_LEN - 1 := by
  induction fuel with
  | zero => intro buf b s s1 _ h; simp [textLoop] at h
  | succ f ih =>
    intro buf b s s1 hb h
    rw [textLoop] at h
    by_cases hc : s.currentChar ≠ 34 ∧ s.currentChar ≠ EOF
    · rw [if_pos hc] at h
      exact ih _ _ _ _ (capped_length env buf s.currentChar hb) h
    · rw [if_neg hc] at h
      cases h
      exact hb

/-- The spelling of the token of `readCharConst` has at most one character. -/
theorem readCharConst_length (env : Env) (s : State) :
    (readCharConst env s).1.string.length ≤ 1 := by
  unfold readCharConst
  dsimp only [makeToken]
  by_cases hE : (readChar s).currentChar = EOF
  · rw [if_pos hE]; exact Nat.zero_le _
  · rw [if_neg hE]
    by_cases hQ : env.charCodes (readChar (readChar s)).currentChar ≠ CHAR_SINGLEQUOTE
    · rw [if_pos hQ]; exact le_refl _
    · rw [if_neg hQ]; exact le_refl _

/-- The spelling of a token returned by `getToken` has at most
`MAX_IDENT_LEN - 1` characters, when `MAX_IDENT_LEN` is at least 2. -/
theorem getToken_length (env : Env) (hmax : 2 ≤ env.MAX_IDENT_LEN) (fuel : Nat) :
    ∀ (s s1 : State) (tok : Token), getToken env fuel s = some (tok, s1) →
    tok.string.length ≤ env.MAX_IDENT_LEN - 1 := by
  induction fuel with
  | zero => intro s s1 tok h; simp [getToken] at h
  | succ f ih =>
    intro s s1 tok h
    have plain : ∀ (kind : TokenType) (ln cn : Int) (u : State),
        some (makeToken kind ln cn, u) = some (tok, s1) →
        tok.string.length ≤ env.MAX_IDENT_LEN - 1 := by
      intro kind ln cn u hq
      have hinj := Option.some.inj hq
      rw [← (Prod.mk.inj hinj).1]
      exact Nat.zero_le _
    rw [getToken] at h
    by_cases hE : s.currentChar = EOF
    · rw [if_pos hE] at h
      exact plain _ _ _ _ h
    · rw [if_neg hE] at h
      revert h
      cases hc : env.charCodes s.currentChar with
      | CHAR_SPACE =>
        intro h
        dsimp only at h
        cases hb : skipBlank env f s with
        | none => rw [hb] at h; simp at h
        | some u => rw [hb] at h; exact ih u s1 tok h
      | CHAR_LETTER =>
        intro h
        unfold readIdentifierOrKeyword at h
        cases hl : identLoop env f [] s with
        | none => rw [hl] at h; simp at h
        | some p =>
          obtain ⟨buf, s2⟩ := p
          rw [hl] at h
          have hlen := identLoop_length env f [] buf s s2 (Nat.zero_le _) hl
          dsimp only [makeToken] at h
          have htok := (Prod.mk.inj (Option.some.inj h)).1
          by_cases hk : env.checkKeyword buf ≠ TK_NONE
          · rw [if_pos hk] at htok; rw [← htok]; exact hlen
          · rw [if_neg hk] at htok; rw [← htok]; exact hlen
      | CHAR_DIGIT =>
        intro h
        unfold readNumber at h
        cases hl : numberLoop env f 0 s with
        | none => rw [hl] at h; simp at h
        | some p =>
          obtain ⟨v, s2⟩ := p
          rw [hl] at h
          rw [← (Prod.mk.inj (Option.some.inj h)).1]
          exact Nat.zero_le _
      | CHAR_PLUS => exact plain _ _ _ _
      | CHAR_MINUS => exact plain _ _ _ _
      | CHAR_TIMES =>
        intro h
        dsimp only at h
        by_cases hx : env.charCodes (readChar s).currentChar = CHAR_TIMES
        · rw [if_pos hx] at h; exact plain _ _ _ _ h
        · rw [if_neg hx] at h; exact plain _ _ _ _ h
      | CHAR_SLASH =>
        intro h
        dsimp only at h
        by_cases hx : env.charCodes (readChar s).currentChar = CHAR_SLASH
        · rw [if_pos hx] at h
          cases hb : skipLine f (readChar s) with
          | none => rw [hb] at h; simp at h
          | some u => rw [hb] at h; exact ih u s1 tok h
        · rw [if_neg hx] at h; exact plain _ _ _ _ h
      | CHAR_LT =>
        intro h
        dsimp only at h
        by_cases hx : (readChar s).currentChar = 61
        · rw [if_pos hx] at h; exact plain _ _ _ _ h
        · rw [if_neg hx] at h; exact plain _ _ _ _ h
      | CHAR_GT =>
        intro h
        dsimp only at h
        by_cases hx : (readChar s).currentChar = 61
        · rw [if_pos hx] at h; exact plain _ _ _ _ h
        · rw [if_neg hx] at h; exact plain _ _ _ _ h
      | CHAR_EXCLAIMATION =>
        intro h
        dsimp only at h
        by_cases hx : (readChar s).currentChar = 61
        · rw [if_pos hx] at h; exact plain _ _ _ _ h
        · rw [if_neg hx] at h; exact plain _ _ _ _ h
      | CHAR_EQ => exact plain _ _ _ _
      | CHAR_COMMA => exact plain _ _ _ _
      | CHAR_PERIOD => exact plain _ _ _ _
      | CHAR_COLON =>
        intro h
        dsimp only at h
        by_cases hx : (readChar s).currentChar = 61
        · rw [if_pos hx] at h; exact plain _ _ _ _ h
        · rw [if_neg hx] at h; exact plain _ _ _ _ h
      | CHAR_SEMICOLON => exact plain _ _ _ _
      | CHAR_SINGLEQUOTE =>
        intro h
        have hq := readCharConst_length env s
        rw [Option.some.inj h] at hq
        exact le_trans hq (by omega)
      | CHAR_DOUBLEQUOTE =>
        intro h
        unfold readTextLiteral at h
        cases hl : textLoop env f [] (readChar s) with
        | none => rw [hl] at h; simp at h
        | some p =>
          obtain ⟨buf, s2⟩ := p
          rw [hl] at h
          have hlen := textLoop_length env f [] buf _ s2 (Nat.zero_le _) hl
          dsimp only [makeToken] at h
          by_cases hx : s2.currentChar = EOF
          · rw [if_pos hx] at h
            rw [← (Prod.mk.inj (Option.some.inj h)).1]; exact hlen
          · rw [if_neg hx] at h
            rw [← (Prod.mk.inj (Option.some.inj h)).1]; exact hlen
      | CHAR_LPAR =>
        intro h
        dsimp only at h
        by_cases hx : env.charCodes (readChar s).currentChar = CHAR_TIMES
        · rw [if_pos hx] at h
          cases hb : skipComment env f (readChar s) with
          | none => rw [hb] at h; simp at h
          | some u => rw [hb] at h; exact ih u s1 tok h
        · rw [if_neg hx] at h; exact plain _ _ _ _ h
      | CHAR_RPAR => exact plain _ _ _ _
      | CHAR_MOD => exact plain _ _ _ _
      | CHAR_UNKNOWN => exact plain _ _ _ _

/-- C18: the spelling-buffer bound, for `MAX_IDENT_LEN` at least 2.  In the loops
of `readIdentifierOrKeyword` and `readTextLiteral` a character is stored only
at an index below `MAX_IDENT_LEN - 1`, so from a spelling of at most
`MAX_IDENT_LEN - 1` characters the loops end with a spelling of at most
`MAX_IDENT_LEN - 1` characters, which is the index of the terminating NUL;
`readCharConst` stores at index 0 and puts the NUL at index 1; and the
spelling of every token returned by `getToken` has at most
`MAX_IDENT_LEN - 1` characters. -/
theorem spelling_length_bound (env : Env) (hmax : 2 ≤ env.MAX_IDENT_LEN) :
    (∀ (buf : List Int) (c : Int), buf.length ≤ env.MAX_IDENT_LEN - 1 →
      ((if (buf.length : Int) < (env.MAX_IDENT_LEN : Int) - 1 then buf ++ [c] else buf) ≠ buf →
        buf.length < env.MAX_IDENT_LEN - 1) ∧
      (if (buf.length : Int) < (env.MAX_IDENT_LEN : Int) - 1 then buf ++ [c] else buf).length ≤
        env.MAX_IDENT_LEN - 1) ∧
    (∀ (fuel : Nat) (buf b : List Int) (s s1 : State), buf.length ≤ env.MAX_IDENT_LEN - 1 →
      identLoop env fuel buf s = some (b, s1) → b.length ≤ env.MAX_IDENT_LEN - 1) ∧
    (∀ (fuel : Nat) (buf b : List Int) (s s1 : State), buf.length ≤ env.MAX_IDENT_LEN - 1 →
      textLoop env fuel buf s = some (b, s1) → b.length ≤ env.MAX_IDENT_LEN - 1) ∧
    (∀ s : State, (readCharConst env s).1.string.length ≤ 1 ∧ 1 ≤ env.MAX_IDENT_LEN - 1) ∧
    (∀ (fuel : Nat) (s s1 : State) (tok : Token), getToken env fuel s = some (tok, s1) →
      tok.string.length ≤ env.MAX_IDENT_LEN - 1) := by
  refine ⟨?_, ?_, ?_, ?_, ?_⟩
  · intro buf c hb
    refine ⟨?_, capped_length env buf c hb⟩
    intro hne
    by_cases h : (buf.length : Int) < (env.MAX_IDENT_LEN : Int) - 1
    · omega
    · rw [if_neg h] at hne
      exact absurd rfl hne
  · intro fuel buf b s s1 hb h
    exact identLoop_length env fuel buf b s s1 hb h
  · intro fuel buf b s s1 hb h
    exact textLoop_length env fuel buf b s s1 hb h
  · intro s
    exact ⟨readCharConst_length env s, by omega⟩
  · intro fuel s s1 tok h
    exact getToken_length env hmax fuel s s1 tok h

/-- C18 with `MAX_IDENT_LEN = 15`; on a sixteen-letter identifier and on a
sixteen-letter text literal the spelling has fourteen characters. -/
theorem spelling_length_bound_witness :
    (getToken (kplEnv 15) 25 (openInputStream (bytes "abcdefghijklmnop"))).map
        (fun r => r.1.string.length) = some 14 ∧
    (getToken (kplEnv 15) 25 (openInputStream (34 :: bytes "abcdefghijklmnop" ++ [34]))).map
        (fun r => r.1.string.length) = some 14 ∧
    ((∀ (buf : List Int) (c : Int), buf.length ≤ (kplEnv 15).MAX_IDENT_LEN - 1 →
      ((if (buf.length : Int) < ((kplEnv 15).MAX_IDENT_LEN : Int) - 1 then buf ++ [c]
          else buf) ≠ buf →
        buf.length < (kplEnv 15).MAX_IDENT_LEN - 1) ∧
      (if (buf.length : Int) < ((kplEnv 15).MAX_IDENT_LEN : Int) - 1 then buf ++ [c]
        else buf).length ≤ (kplEnv 15).MAX_IDENT_LEN - 1) ∧
    (∀ (fuel : Nat) (buf b : List Int) (s s1 : State),
      buf.length ≤ (kplEnv 15).MAX_IDENT_LEN - 1 →
      identLoop (kplEnv 15) fuel buf s = some (b, s1) →
      b.length ≤ (kplEnv 15).MAX_IDENT_LEN - 1) ∧
    (∀ (fuel : Nat) (buf b : List Int) (s s1 : State),
      buf.length ≤ (kplEnv 15).MAX_IDENT_LEN - 1 →
      textLoop (kplEnv 15) fuel buf s = some (b, s1) →
      b.length ≤ (kplEnv 15).MAX_IDENT_LEN - 1) ∧
    (∀ s : State, (readCharConst (kplEnv 15) s).1.string.length ≤ 1 ∧
      1 ≤ (kplEnv 15).MAX_IDENT_LEN - 1) ∧
    (∀ (fuel : Nat) (s s1 : State) (tok : Token),
      getToken (kplEnv 15) fuel s = some (tok, s1) →
      tok.string.length ≤ (kplEnv 15).MAX_IDENT_LEN - 1)) :=
  ⟨by decide, by decide, spelling_length_bound (kplEnv 15) (by decide)⟩

/-! ## Whitespace and termination -/

/-- `skipBlank` over a run of whitespace that reaches the end of the input, when
the table entry read at `EOF` is not `CHAR_SPACE`: it stops at the end. -/
theorem skipBlank_to_end (env : Env) (heof : env.charCodes EOF ≠ CHAR_SPACE) :
    ∀ (ws : List Nat) (s : State) (fuel : Nat),
      env.charCodes s.currentChar = CHAR_SPACE → s.input = ws →
      (∀ c ∈ ws, env.charCodes (c : Int) = CHAR_SPACE) → ws.length + 2 ≤ fuel →
      ∃ s1, skipBlank env fuel s = some s1 ∧ s1.currentChar = EOF ∧ s1.errors = s.errors := by
  intro ws
  induction ws with
  | nil =>
    intro s fuel hc hin _ hf
    obtain ⟨g, rfl⟩ : ∃ g, fuel = g + 2 := ⟨fuel - 2, by omega⟩
    have h1 : (readChar s).currentChar = EOF := by rw [readChar_currentChar, hin]; rfl
    refine ⟨readChar s, ?_, h1, readChar_errors s⟩
    rw [skipBlank, if_pos hc, skipBlank, h1, if_neg heof]
  | cons w ws ih =>
    intro s fuel hc hin hall hf
    obtain ⟨g, rfl⟩ : ∃ g, fuel = g + 1 := ⟨fuel - 1, by omega⟩
    have h1 : (readChar s).currentChar = (w : Int) := by rw [readChar_currentChar, hin]; rfl
    have hi : (readChar s).input = ws := by rw [readChar_input, hin]; rfl
    obtain ⟨s1, e1, e2, e3⟩ := ih (readChar s) g
      (by rw [h1]; exact hall w (List.mem_cons_self _ _)) hi
      (fun c hc => hall c (List.mem_cons_of_mem _ hc))
      (by simp only [List.length_cons] at hf; omega)
    exact ⟨s1, by rw [skipBlank, if_pos hc, e1], e2, by rw [e3, readChar_errors]⟩

/-- Whitespace-only input for a table whose value read at `EOF` is not
`CHAR_SPACE`: the first call of `getToken` returns `TK_EOF` and reports no
error, so the scan prints no token and ends on `TK_EOF` with an empty error
log. -/
theorem scan_whitespace_only (env : Env) (ws : List Nat) (fuel : Nat)
    (heof : env.charCodes EOF ≠ CHAR_SPACE)
    (hws : ∀ c ∈ ws, env.charCodes (c : Int) = CHAR_SPACE) (hfuel : ws.length + 3 ≤ fuel) :
    ∃ tok s1, getToken env fuel (openInputStream ws) = some (tok, s1) ∧
      tok.tokenType = TK_EOF ∧ s1.errors = [] ∧
      scan env (fuel + 1) ws = some ([], tok, s1) := by
  obtain ⟨g, rfl⟩ : ∃ g, fuel = g + 2 := ⟨fuel - 2, by omega⟩
  have hget : ∃ s1, getToken env (g + 2) (openInputStream ws) =
      some (makeToken TK_EOF s1.lineNo s1.colNo, s1) ∧ s1.errors = [] := by
    cases ws with
    | nil =>
      exact ⟨openInputStream [], getToken_at_EOF env _ (g + 1) rfl, rfl⟩
    | cons w ws =>
      have hc : (openInputStream (w :: ws)).currentChar = (w : Int) := by
        unfold openInputStream; rw [readChar_currentChar]; rfl
      have hi : (openInputStream (w :: ws)).input = ws := by
        unfold openInputStream; rw [readChar_input]; rfl
      have he : (openInputStream (w :: ws)).errors = [] := by
        unfold openInputStream; rw [readChar_errors]
      have hsp : env.charCodes (openInputStream (w :: ws)).currentChar = CHAR_SPACE := by
        rw [hc]; exact hws w (List.mem_cons_self _ _)
      have hne : (openInputStream (w :: ws)).currentChar ≠ EOF := by
        rw [hc]; exact nat_ne_EOF w
      obtain ⟨s1, e1, e2, e3⟩ := skipBlank_to_end env heof ws (openInputStream (w :: ws))
        (g + 1) hsp hi (fun c hc => hws c (List.mem_cons_of_mem _ hc))
        (by simp only [List.length_cons] at hfuel; omega)
      refine ⟨s1, ?_, by rw [e3, he]⟩
      rw [getToken, if_neg hne, hsp]
      simp only [e1]
      exact getToken_at_EOF env s1 g e2
  obtain ⟨s1, h1, h2⟩ := hget
  refine ⟨makeToken TK_EOF s1.lineNo s1.colNo, s1, h1, rfl, h2, ?_⟩
  unfold scan
  rw [scanLoop, h1]
  simp [makeToken]

/-- `readChar` does not add characters. -/
theorem remaining_readChar_le (s : State) : remaining (readChar s) ≤ remaining s := by
  unfold remaining
  rw [readChar_currentChar, readChar_input]
  cases hin : s.input with
  | nil => simp [nextChar]
  | cons c cs =>
    have : nextChar (c :: cs) ≠ EOF := nat_ne_EOF c
    simp only [List.tail_cons, List.length_cons, if_neg this]
    omega

/-- `readChar` on a character other than `EOF` consumes it. -/
theorem remaining_readChar_lt (s : State) (h : s.currentChar ≠ EOF) :
    remaining (readChar s) < remaining s := by
  unfold remaining
  rw [readChar_currentChar, readChar_input, if_neg h]
  cases hin : s.input with
  | nil => simp [nextChar]
  | cons c cs =>
    have : nextChar (c :: cs) ≠ EOF := nat_ne_EOF c
    simp only [List.tail_cons, List.length_cons, if_neg this]
    omega

/-- The unread bytes are among the remaining characters. -/
theorem input_length_le_remaining (s : State) : s.input.length ≤ remaining s := by
  unfold remaining; omega

/-- Reporting an error consumes nothing. -/
theorem remaining_error (err : ErrorCode) (ln cn : Int) (s : State) :
    remaining (error err ln cn s) = remaining s := rfl

/-- `skipBlank` returns, when the table entry read at `EOF` is not `CHAR_SPACE`;
it consumes at least the current character when that is whitespace. -/
theorem skipBlank_total (env : Env) (hS : env.charCodes EOF ≠ CHAR_SPACE) (fuel : Nat) :
    ∀ s : State, remaining s + 1 ≤ fuel →
    ∃ s1, skipBlank env fuel s = some s1 ∧ remaining s1 ≤ remaining s ∧
      (env.charCodes s.currentChar = CHAR_SPACE → remaining s1 < remaining s) := by
  induction fuel with
  | zero => intro s hf; omega
  | succ f ih =>
    intro s hf
    rw [skipBlank]
    by_cases hc : env.charCodes s.currentChar = CHAR_SPACE
    · have hne : s.currentChar ≠ EOF := fun h => hS (by rw [← h]; exact hc)
      have hlt := remaining_readChar_lt s hne
      obtain ⟨s1, e1, e2, _⟩ := ih (readChar s) (by omega)
      rw [if_pos hc]
      exact ⟨s1, e1, by omega, fun _ => by omega⟩
    · rw [if_neg hc]
      exact ⟨s, rfl, le_refl _, fun h => absurd h hc⟩

/-- The identifier loop returns, when the table entry read at `EOF` is neither
`CHAR_LETTER` nor `CHAR_DIGIT`. -/
theorem identLoop_total (env : Env) (hL : env.charCodes EOF ≠ CHAR_LETTER)
    (hD : env.charCodes EOF ≠ CHAR_DIGIT) (fuel : Nat) :
    ∀ (buf : List Int) (s : State), remaining s + 1 ≤ fuel →
    ∃ b s1, identLoop env fuel buf s = some (b, s1) ∧ remaining s1 ≤ remaining s ∧
      (env.charCodes s.currentChar = CHAR_LETTER → remaining s1 < remaining s) := by
  induction fuel with
  | zero => intro buf s hf; omega
  | succ f ih =>
    intro buf s hf
    rw [identLoop]
    by_cases hc : env.charCodes s.currentChar = CHAR_LETTER ∨
        env.charCodes s.currentChar = CHAR_DIGIT
    · have hne : s.currentChar ≠ EOF := by
        intro h
        rw [h] at hc
        rcases hc with hc | hc
        · exact hL hc
        · exact hD hc
      have hlt := remaining_readChar_lt s hne
      obtain ⟨b, s1, e1, e2, _⟩ := ih
        (if (buf.length : Int) < (env.MAX_IDENT_LEN : Int) - 1 then buf ++ [s.currentChar]
          else buf) (readChar s) (by omega)
      rw [if_pos hc]
      exact ⟨b, s1, e1, by omega, fun _ => by omega⟩
    · rw [if_neg hc]
      exact ⟨buf, s, rfl, le_refl _, fun h => absurd (Or.inl h) hc⟩

/-- The number loop returns, when the table entry read at `EOF` is not
`CHAR_DIGIT`. -/
theorem numberLoop_total (env : Env) (hD : env.charCodes EOF ≠ CHAR_DIGIT) (fuel : Nat) :
    ∀ (v : Int) (s : State), remaining s + 1 ≤ fuel →
    ∃ w s1, numberLoop env fuel v s = some (w, s1) ∧ remaining s1 ≤ remaining s ∧
      (env.charCodes s.currentChar = CHAR_DIGIT → remaining s1 < remaining s) := by
  induction fuel with
  | zero => intro v s hf; omega
  | succ f ih =>
    intro v s hf
    rw [numberLoop]
    by_cases hc : env.charCodes s.currentChar = CHAR_DIGIT
    · have hne : s.currentChar ≠ EOF := fun h => hD (by rw [← h]; exact hc)
      have hlt := remaining_readChar_lt s hne
      obtain ⟨w, s1, e1, e2, _⟩ := ih (wrapInt (v * 10 + (s.currentChar - 48))) (readChar s)
        (by omega)
      rw [if_pos hc]
      exact ⟨w, s1, e1, by omega, fun _ => by omega⟩
    · rw [if_neg hc]
      exact ⟨v, s, rfl, le_refl _, fun h => absurd h hc⟩

/-- The text loop returns. -/
theorem textLoop_total (env : Env) (fuel : Nat) :
    ∀ (buf : List Int) (s : State), remaining s + 1 ≤ fuel →
    ∃ b s1, textLoop env fuel buf s = some (b, s1) ∧ remaining s1 ≤ remaining s := by
  induction fuel with
  | zero => intro buf s hf; omega
  | succ f ih =>
    intro buf s hf
    rw [textLoop]
    by_cases hc : s.currentChar ≠ 34 ∧ s.currentChar ≠ EOF
    · have hlt := remaining_readChar_lt s hc.2
      obtain ⟨b, s1, e1, e2⟩ := ih
        (if (buf.length : Int) < (env.MAX_IDENT_LEN : Int) - 1 then buf ++ [s.currentChar]
          else buf) (readChar s) (by omega)
      rw [if_pos hc]
      exact ⟨b, s1, e1, by omega⟩
    · rw [if_neg hc]
      exact ⟨buf, s, rfl, le_refl _⟩

/-- The line-comment loop returns. -/
theorem skipLine_total (fuel : Nat) :
    ∀ s : State, remaining s + 1 ≤ fuel →
    ∃ s1, skipLine fuel s = some s1 ∧ remaining s1 ≤ remaining s := by
  induction fuel with
  | zero => intro s hf; omega
  | succ f ih =>
    intro s hf
    rw [skipLine]
    by_cases hc : s.currentChar ≠ 10 ∧ s.currentChar ≠ EOF
    · have hlt := remaining_readChar_lt s hc.2
      obtain ⟨s1, e1, e2⟩ := ih (readChar s) (by omega)
      rw [if_pos hc]
      exact ⟨s1, e1, by omega⟩
    · rw [if_neg hc]
      exact ⟨s, rfl, le_refl _⟩

/-- `skipComment` returns, and what remains afterwards is within the bytes that
were unread when it started. -/
theorem skipComment_total (env : Env) (fuel : Nat) :
    ∀ s : State, s.input.length + 1 ≤ fuel →
    ∃ s1, skipComment env fuel s = some s1 ∧ remaining s1 ≤ s.input.length := by
  induction fuel with
  | zero => intro s hf; omega
  | succ f ih =>
    intro s hf
    have hi1 : (readChar s).input.length = s.input.length - 1 := by
      rw [readChar_input, List.length_tail]
    have hi2 : (readChar (readChar s)).input.length = s.input.length - 1 - 1 := by
      rw [readChar_input, List.length_tail, hi1]
    rw [skipComment]
    dsimp only
    by_cases hE : (readChar s).currentChar = EOF
    · rw [if_pos hE]
      refine ⟨_, rfl, ?_⟩
      rw [remaining_error]
      unfold remaining
      rw [if_pos hE, hi1]
      omega
    · rw [if_neg hE]
      have hpos : 0 < s.input.length := by
        cases hin : s.input with
        | nil => rw [readChar_currentChar, hin] at hE; exact absurd rfl hE
        | cons c cs => simp
      by_cases hT : env.charCodes (readChar s).currentChar = CHAR_TIMES
      · rw [if_pos hT]
        by_cases hR : env.charCodes (readChar (readChar s)).currentChar = CHAR_RPAR
        · rw [if_pos hR]
          refine ⟨_, rfl, ?_⟩
          have h1 := remaining_readChar_le (readChar (readChar s))
          have h2 := remaining_readChar_lt (readChar s) hE
          have h3 : remaining (readChar s) = s.input.length := by
            unfold remaining
            rw [if_neg hE, hi1]
            omega
          omega
        · rw [if_neg hR]
          obtain ⟨s1, e1, e2⟩ := ih (readChar (readChar s)) (by omega)
          exact ⟨s1, e1, by omega⟩
      · rw [if_neg hT]
        obtain ⟨s1, e1, e2⟩ := ih (readChar s) (by omega)
        exact ⟨s1, e1, by omega⟩

/-- `getToken` returns, with fuel above the number of remaining characters, and
consumes at least one character unless it is called at the end of the input;
the table entry read at `EOF` is taken to be none of `CHAR_SPACE`,
`CHAR_LETTER`, `CHAR_DIGIT`. -/
theorem getToken_total (env : Env) (hS : env.charCodes EOF ≠ CHAR_SPACE)
    (hL : env.charCodes EOF ≠ CHAR_LETTER) (hD : env.charCodes EOF ≠ CHAR_DIGIT)
    (fuel : Nat) :
    ∀ s : State, remaining s + 2 ≤ fuel →
    ∃ tok s1, getToken env fuel s = some (tok, s1) ∧ remaining s1 ≤ remaining s ∧
      (s.currentChar ≠ EOF → remaining s1 < remaining s) := by
  induction fuel with
  | zero => intro s hf; omega
  | succ f ih =>
    intro s hf
    rw [getToken]
    by_cases hE : s.currentChar = EOF
    · rw [if_pos hE]
      exact ⟨_, s, rfl, le_refl _, fun h => absurd hE h⟩
    · rw [if_neg hE]
      have l1 := remaining_readChar_lt s hE
      have l2 := remaining_readChar_le (readChar s)
      have one : ∀ (kind : TokenType) (ln cn : Int),
          ∃ tok s1, some (makeToken kind ln cn, readChar s) = some (tok, s1) ∧
            remaining s1 ≤ remaining s ∧ (s.currentChar ≠ EOF → remaining s1 < remaining s) :=
        fun kind ln cn => ⟨_, _, rfl, by omega, fun _ => l1⟩
      have two : ∀ (kind : TokenType) (ln cn : Int),
          ∃ tok s1, some (makeToken kind ln cn, readChar (readChar s)) = some (tok, s1) ∧
            remaining s1 ≤ remaining s ∧ (s.currentChar ≠ EOF → remaining s1 < remaining s) :=
        fun kind ln cn => ⟨_, _, rfl, by omega, fun _ => by omega⟩
      cases hc : env.charCodes s.currentChar with
      | CHAR_SPACE =>
        dsimp only
        obtain ⟨u, e1, _, e3⟩ := skipBlank_total env hS f s (by omega)
        have hlt := e3 hc
        obtain ⟨tok, s1, g1, g2, _⟩ := ih u (by omega)
        rw [e1]
        exact ⟨tok, s1, g1, by omega, fun _ => by omega⟩
      | CHAR_LETTER =>
        obtain ⟨b, u, e1, _, e3⟩ := identLoop_total env hL hD f [] s (by omega)
        have hlt := e3 hc
        unfold readIdentifierOrKeyword
        rw [e1]
        dsimp only
        refine ⟨_, _, rfl, ?_, fun _ => ?_⟩
        · by_cases hl : (b.length : Int) ≥ (env.MAX_IDENT_LEN : Int) - 1
          · rw [if_pos hl, remaining_error]; omega
          · rw [if_neg hl]; omega
        · by_cases hl : (b.length : Int) ≥ (env.MAX_IDENT_LEN : Int) - 1
          · rw [if_pos hl, remaining_error]; exact hlt
          · rw [if_neg hl]; exact hlt
      | CHAR_DIGIT =>
        obtain ⟨w, u, e1, _, e3⟩ := numberLoop_total env hD f 0 s (by omega)
        have hlt := e3 hc
        unfold readNumber
        rw [e1]
        exact ⟨_, _, rfl, by omega, fun _ => hlt⟩
      | CHAR_PLUS => exact one _ _ _
      | CHAR_MINUS => exact one _ _ _
      | CHAR_TIMES =>
        dsimp only
        by_cases hx : env.charCodes (readChar s).currentChar = CHAR_TIMES
        · rw [if_pos hx]; exact two _ _ _
        · rw [if_neg hx]; exact one _ _ _
      | CHAR_SLASH =>
        dsimp only
        by_cases hx : env.charCodes (readChar s).currentChar = CHAR_SLASH
        · rw [if_pos hx]
          obtain ⟨u, e1, e2⟩ := skipLine_total f (readChar s) (by omega)
          obtain ⟨tok, s1, g1, g2, _⟩ := ih u (by omega)
          rw [e1]
          exact ⟨tok, s1, g1, by omega, fun _ => by omega⟩
        · rw [if_neg hx]; exact one _ _ _
      | CHAR_LT =>
        dsimp only
        by_cases hx : (readChar s).currentChar = 61
        · rw [if_pos hx]; exact two _ _ _
        · rw [if_neg hx]; exact one _ _ _
      | CHAR_GT =>
        dsimp only
        by_cases hx : (readChar s).currentChar = 61
        · rw [if_pos hx]; exact two _ _ _
        · rw [if_neg hx]; exact one _ _ _
      | CHAR_EXCLAIMATION =>
        dsimp only
        by_cases hx : (readChar s).currentChar = 61
        · rw [if_pos hx]; exact two _ _ _
        · rw [if_neg hx]
          exact ⟨_, _, rfl, by rw [remaining_error]; omega,
            fun _ => by rw [remaining_error]; exact l1⟩
      | CHAR_EQ => exact one _ _ _
      | CHAR_COMMA => exact one _ _ _
      | CHAR_PERIOD => exact one _ _ _
      | CHAR_COLON =>
        dsimp only
        by_cases hx : (readChar s).currentChar = 61
        · rw [if_pos hx]; exact two _ _ _
        · rw [if_neg hx]; exact one _ _ _
      | CHAR_SEMICOLON => exact one _ _ _
      | CHAR_SINGLEQUOTE =>
        have l3 := remaining_readChar_le (readChar (readChar s))
        have hq : remaining (readCharConst env s).2 < remaining s := by
          unfold readCharConst
          dsimp only
          by_cases h1 : (readChar s).currentChar = EOF
          · rw [if_pos h1]
            show remaining (error _ _ _ (readChar s)) < remaining s
            rw [remaining_error]; exact l1
          · rw [if_neg h1]
            by_cases h2 : env.charCodes (readChar (readChar s)).currentChar ≠ CHAR_SINGLEQUOTE
            · rw [if_pos h2]
              show remaining (error _ _ _ (readChar (readChar s))) < remaining s
              rw [remaining_error]; omega
            · rw [if_neg h2]
              show remaining (readChar (readChar (readChar s))) < remaining s
              omega
        exact ⟨(readCharConst env s).1, (readCharConst env s).2, rfl, le_of_lt hq, fun _ => hq⟩
      | CHAR_DOUBLEQUOTE =>
        obtain ⟨b, u, e1, e2⟩ := textLoop_total env f [] (readChar s) (by omega)
        have l3 := remaining_readChar_le u
        unfold readTextLiteral
        rw [e1]
        dsimp only
        by_cases hx : u.currentChar = EOF
        · rw [if_pos hx]
          exact ⟨_, _, rfl, by rw [remaining_error]; omega,
            fun _ => by rw [remaining_error]; omega⟩
        · rw [if_neg hx]
          exact ⟨_, _, rfl, by omega, fun _ => by omega⟩
      | CHAR_LPAR =>
        dsimp only
        by_cases hx : env.charCodes (readChar s).currentChar = CHAR_TIMES
        · rw [if_pos hx]
          have hin := input_length_le_remaining (readChar s)
          obtain ⟨u, e1, e2⟩ := skipComment_total env f (readChar s) (by omega)
          obtain ⟨tok, s1, g1, g2, _⟩ := ih u (by omega)
          rw [e1]
          exact ⟨tok, s1, g1, by omega, fun _ => by omega⟩
        · rw [if_neg hx]; exact one _ _ _
      | CHAR_RPAR => exact one _ _ _
      | CHAR_MOD => exact one _ _ _
      | CHAR_UNKNOWN =>
        have l3 := remaining_readChar_lt (error ERR_INVALIDSYMBOL s.lineNo s.colNo s) hE
        rw [remaining_error] at l3
        exact ⟨_, _, rfl, by omega, fun _ => l3⟩

/-- The token loop of `scan` returns: it ends on `TK_EOF` after printing at most
as many tokens as characters remained. -/
theorem scanLoop_total (env : Env) (hS : env.charCodes EOF ≠ CHAR_SPACE)
    (hL : env.charCodes EOF ≠ CHAR_LETTER) (hD : env.charCodes EOF ≠ CHAR_DIGIT)
    (fuel : Nat) :
    ∀ s : State, remaining s + 3 ≤ fuel →
    ∃ printed last s1, scanLoop env fuel s = some (printed, last, s1) ∧
      last.tokenType = TK_EOF ∧ printed.length ≤ remaining s := by
  induction fuel with
  | zero => intro s hf; omega
  | succ f ih =>
    intro s hf
    obtain ⟨tok, u, e1, e2, e3⟩ := getToken_total env hS hL hD f s (by omega)
    rw [scanLoop, e1]
    dsimp only
    by_cases hk : tok.tokenType ≠ TK_EOF
    · rw [if_pos hk]
      have hne : s.currentChar ≠ EOF := by
        intro hE
        cases f with
        | zero => omega
        | succ g =>
          rw [getToken_at_EOF env s g hE] at e1
          have := (Prod.mk.inj (Option.some.inj e1)).1
          rw [← this] at hk
          exact hk rfl
      have hlt := e3 hne
      obtain ⟨printed, last, s1, g1, g2, g3⟩ := ih u (by omega)
      rw [g1]
      exact ⟨tok :: printed, last, s1, rfl, g2, by simp only [List.length_cons]; omega⟩
    · rw [if_neg hk]
      exact ⟨[], tok, u, rfl, by simpa using hk, Nat.zero_le _⟩

/-- A freshly opened input has as many remaining characters as bytes. -/
theorem remaining_openInputStream (text : List Nat) :
    remaining (openInputStream text) = text.length := by
  unfold openInputStream remaining
  rw [readChar_currentChar, readChar_input]
  cases text with
  | nil => simp [nextChar]
  | cons c cs =>
    have : nextChar (c :: cs) ≠ EOF := nat_ne_EOF c
    simp only [List.tail_cons, List.length_cons, if_neg this]

/-- Termination for a table whose value read at `EOF` is none of `CHAR_SPACE`,
`CHAR_LETTER`, `CHAR_DIGIT`.  With `n` the number of characters that remain
(`remaining s`): a call with fuel `n + 2` or more returns a token, leaves no
more characters than there were and, when the current character is not `EOF`,
strictly fewer; the self-calls are made on states with strictly fewer
characters; and the token loop of `scan` returns, ending on `TK_EOF` after
printing at most `n` tokens. -/
theorem getToken_terminates (env : Env) (hS : env.charCodes EOF ≠ CHAR_SPACE)
    (hL : env.charCodes EOF ≠ CHAR_LETTER) (hD : env.charCodes EOF ≠ CHAR_DIGIT) :
    (∀ (s : State) (fuel : Nat), remaining s + 2 ≤ fuel →
      ∃ tok s1, getToken env fuel s = some (tok, s1) ∧ remaining s1 ≤ remaining s ∧
        (s.currentChar ≠ EOF → remaining s1 < remaining s)) ∧
    (∀ (s : State) (fuel : Nat), remaining s + 1 ≤ fuel → s.currentChar ≠ EOF →
      (env.charCodes s.currentChar = CHAR_SPACE →
        ∃ s1, skipBlank env fuel s = some s1 ∧ remaining s1 < remaining s) ∧
      (∃ s1, skipLine fuel (readChar s) = some s1 ∧ remaining s1 < remaining s) ∧
      (∃ s1, skipComment env fuel (readChar s) = some s1 ∧ remaining s1 < remaining s)) ∧
    (∀ (s : State) (fuel : Nat), remaining s + 3 ≤ fuel →
      ∃ printed last s1, scanLoop env fuel s = some (printed, last, s1) ∧
        last.tokenType = TK_EOF ∧ printed.length ≤ remaining s) ∧
    (∀ (text : List Nat) (fuel : Nat), text.length + 3 ≤ fuel →
      ∃ printed last s1, scan env fuel text = some (printed, last, s1) ∧
        last.tokenType = TK_EOF ∧ printed.length ≤ text.length) := by
  refine ⟨?_, ?_, ?_, ?_⟩
  · intro s fuel hf
    exact getToken_total env hS hL hD fuel s hf
  · intro s fuel hf hne
    have l1 := remaining_readChar_lt s hne
    refine ⟨?_, ?_, ?_⟩
    · intro hc
      obtain ⟨s1, e1, _, e3⟩ := skipBlank_total env hS fuel s hf
      exact ⟨s1, e1, e3 hc⟩
    · obtain ⟨s1, e1, e2⟩ := skipLine_total fuel (readChar s) (by omega)
      exact ⟨s1, e1, by omega⟩
    · have hin := input_length_le_remaining (readChar s)
      obtain ⟨s1, e1, e2⟩ := skipComment_total env fuel (readChar s) (by omega)
      exact ⟨s1, e1, by omega⟩
  · intro s fuel hf
    exact scanLoop_total env hS hL hD fuel s hf
  · intro text fuel hf
    have hr := remaining_openInputStream text
    obtain ⟨printed, last, s1, e1, e2, e3⟩ := scanLoop_total env hS hL hD fuel
      (openInputStream text) (by omega)
    exact ⟨printed, last, s1, e1, e2, by omega⟩

/-! ## The table at the end of the input -/

/-- Replacing the value read at `EOF` changes no entry of the table proper. -/
theorem withEof_charCodes (env : Env) (code : CharCode) (c : Int) (h : c ≠ EOF) :
    (withEof env code).charCodes c = env.charCodes c := by
  show (if c = EOF then code else env.charCodes c) = env.charCodes c
  rw [if_neg h]

/-- At the end of the input `skipBlank` does not return when the table entry
read at `EOF` is `CHAR_SPACE`. -/
theorem skipBlank_at_EOF_none (env : Env) (h : env.charCodes EOF = CHAR_SPACE) (fuel : Nat) :
    ∀ s : State, s.currentChar = EOF → s.input = [] → skipBlank env fuel s = none := by
  induction fuel with
  | zero => intro s _ _; rfl
  | succ f ih =>
    intro s hc hi
    rw [skipBlank, hc, if_pos h]
    exact ih (readChar s) (by rw [readChar_currentChar, hi]; rfl) (by rw [readChar_input, hi]; rfl)

/-- At the end of the input the number loop does not return when the table
entry read at `EOF` is `CHAR_DIGIT`. -/
theorem numberLoop_at_EOF_none (env : Env) (h : env.charCodes EOF = CHAR_DIGIT) (fuel : Nat) :
    ∀ (v : Int) (s : State), s.currentChar = EOF → s.input = [] →
      numberLoop env fuel v s = none := by
  induction fuel with
  | zero => intro v s _ _; rfl
  | succ f ih =>
    intro v s hc hi
    rw [numberLoop, hc, if_pos h]
    exact ih _ (readChar s) (by rw [readChar_currentChar, hi]; rfl)
      (by rw [readChar_input, hi]; rfl)

/-- At the end of the input the identifier loop does not return when the table
entry read at `EOF` is `CHAR_LETTER`. -/
theorem identLoop_at_EOF_none (env : Env) (h : env.charCodes EOF = CHAR_LETTER) (fuel : Nat) :
    ∀ (buf : List Int) (s : State), s.currentChar = EOF → s.input = [] →
      identLoop env fuel buf s = none := by
  induction fuel with
  | zero => intro buf s _ _; rfl
  | succ f ih =>
    intro buf s hc hi
    rw [identLoop, hc, if_pos (Or.inl h)]
    exact ih _ (readChar s) (by rw [readChar_currentChar, hi]; rfl)
      (by rw [readChar_input, hi]; rfl)

/-- C20 fails: the table is read with `currentChar` equal to `EOF`.  The
environments compared agree on every character other than `EOF`, and the
result of `getToken` changes with the value read at `EOF`.  On the one-byte
inputs blank, `2` and `x` the loops of `skipBlank`, `readNumber` and
`readIdentifierOrKeyword` test the table at `EOF` after the last character:
with `CHAR_SPACE`, `CHAR_DIGIT` or `CHAR_LETTER` there, the call returns for no
fuel, while with `CHAR_UNKNOWN` there it returns `TK_EOF`, the number 2 and
the identifier.  The lookahead tests read it too: on `*` the token is
`SB_TIMES` or `SB_POW`, on `/` and on `(` it is the operator or `TK_EOF`, on
`'a` it is `TK_NONE` or `TK_CHAR`, and `(* a *` is an unterminated comment or a
closed one, according to the value read at `EOF`. -/
theorem charCodes_read_at_EOF :
    (∀ (code : CharCode) (c : Int), c ≠ EOF →
      (withEof (kplEnv 15) code).charCodes c = (kplEnv 15).charCodes c) ∧
    (getToken (kplEnv 15) 3 (openInputStream (bytes " "))).map (fun r => r.1.tokenType) =
      some TK_EOF ∧
    (∀ fuel, getToken (withEof (kplEnv 15) CHAR_SPACE) fuel (openInputStream (bytes " ")) =
      none) ∧
    (getToken (kplEnv 15) 3 (openInputStream (bytes "2"))).map
        (fun r => (r.1.tokenType, r.1.value)) = some (TK_NUMBER, 2) ∧
    (∀ fuel, getToken (withEof (kplEnv 15) CHAR_DIGIT) fuel (openInputStream (bytes "2")) =
      none) ∧
    (getToken (kplEnv 15) 3 (openInputStream (bytes "x"))).map
        (fun r => (r.1.tokenType, r.1.string)) = some (TK_IDENT, chars "x") ∧
    (∀ fuel, getToken (withEof (kplEnv 15) CHAR_LETTER) fuel (openInputStream (bytes "x")) =
      none) ∧
    (getToken (kplEnv 15) 3 (openInputStream (bytes "*"))).map (fun r => r.1.tokenType) =
      some SB_TIMES ∧
    (getToken (withEof (kplEnv 15) CHAR_TIMES) 3 (openInputStream (bytes "*"))).map
        (fun r => r.1.tokenType) = some SB_POW ∧
    (getToken (kplEnv 15) 3 (openInputStream (bytes "/"))).map (fun r => r.1.tokenType) =
      some SB_SLASH ∧
    (getToken (withEof (kplEnv 15) CHAR_SLASH) 3 (openInputStream (bytes "/"))).map
        (fun r => r.1.tokenType) = some TK_EOF ∧
    (getToken (kplEnv 15) 3 (openInputStream (bytes "("))).map
        (fun r => (r.1.tokenType, r.2.errors.map (fun e => e.1))) = some (SB_LPAR, []) ∧
    (getToken (withEof (kplEnv 15) CHAR_TIMES) 3 (openInputStream (bytes "("))).map
        (fun r => (r.1.tokenType, r.2.errors.map (fun e => e.1))) =
      some (TK_EOF, [ERR_ENDOFCOMMENT]) ∧
    (getToken (kplEnv 15) 3 (openInputStream (bytes "'a"))).map (fun r => r.1.tokenType) =
      some TK_NONE ∧
    (getToken (withEof (kplEnv 15) CHAR_SINGLEQUOTE) 3 (openInputStream (bytes "'a"))).map
        (fun r => r.1.tokenType) = some TK_CHAR ∧
    (getToken (kplEnv 15) 9 (openInputStream (bytes "(* a *"))).map
        (fun r => r.2.errors.map (fun e => e.1)) = some [ERR_ENDOFCOMMENT] ∧
    (getToken (withEof (kplEnv 15) CHAR_RPAR) 9 (openInputStream (bytes "(* a *"))).map
        (fun r => r.2.errors.map (fun e => e.1)) = some [] := by
  refine ⟨fun code c h => withEof_charCodes (kplEnv 15) code c h, by decide, ?_, by decide, ?_,
    by decide, ?_, by decide, by decide, by decide, by decide, by decide, by decide, by decide,
    by decide, by decide, by decide⟩
  · intro fuel
    cases fuel with
    | zero => rfl
    | succ f =>
      have hs : (withEof (kplEnv 15) CHAR_SPACE).charCodes 32 = CHAR_SPACE := by decide
      have hn : skipBlank (withEof (kplEnv 15) CHAR_SPACE) f (openInputStream (bytes " ")) =
          none := by
        cases f with
        | zero => rfl
        | succ g =>
          rw [skipBlank, if_pos (by decide)]
          exact skipBlank_at_EOF_none _ (by decide) g _ (by decide) (by decide)
      rw [getToken, if_neg (by decide)]
      have hc : (openInputStream (bytes " ")).currentChar = 32 := by decide
      rw [hc, hs]
      simp only [hn]
  · intro fuel
    cases fuel with
    | zero => rfl
    | succ f =>
      have hs : (withEof (kplEnv 15) CHAR_DIGIT).charCodes 50 = CHAR_DIGIT := by decide
      have hn : numberLoop (withEof (kplEnv 15) CHAR_DIGIT) f 0 (openInputStream (bytes "2")) =
          none := by
        cases f with
        | zero => rfl
        | succ g =>
          rw [numberLoop, if_pos (by decide)]
          exact numberLoop_at_EOF_none _ (by decide) g _ _ (by decide) (by decide)
      rw [getToken, if_neg (by decide)]
      have hc : (openInputStream (bytes "2")).currentChar = 50 := by decide
      rw [hc, hs]
      simp only [readNumber, hn]
  · intro fuel
    cases fuel with
    | zero => rfl
    | succ f =>
      have hs : (withEof (kplEnv 15) CHAR_LETTER).charCodes 120 = CHAR_LETTER := by decide
      have hn : identLoop (withEof (kplEnv 15) CHAR_LETTER) f [] (openInputStream (bytes "x")) =
          none := by
        cases f with
        | zero => rfl
        | succ g =>
          rw [identLoop, if_pos (by decide)]
          exact identLoop_at_EOF_none _ (by decide) g _ _ (by decide) (by decide)
      rw [getToken, if_neg (by decide)]
      have hc : (openInputStream (bytes "x")).currentChar = 120 := by decide
      rw [hc, hs]
      simp only [readIdentifierOrKeyword, hn]

/-! ## Whitespace at the end of the input -/

/-- When the value read at `EOF` is `CHAR_SPACE`, `readChar` keeps a state on
whitespace up to the end of the input. -/
theorem blankToEnd_readChar (env : Env) (heof : env.charCodes EOF = CHAR_SPACE) (s : State)
    (h : blankToEnd env s) : blankToEnd env (readChar s) := by
  obtain ⟨_, h2⟩ := h
  refine ⟨?_, ?_⟩
  · rw [readChar_currentChar]
    cases hin : s.input with
    | nil => exact heof
    | cons c cs => exact h2 c (by rw [hin]; exact List.mem_cons_self _ _)
  · intro c hc
    rw [readChar_input] at hc
    exact h2 c (List.mem_of_mem_tail hc)

/-- When the value read at `EOF` is `CHAR_SPACE`, `skipBlank` started on
whitespace that goes up to the end of the input returns for no fuel: past the
last byte the loop goes on reading `EOF`. -/
theorem skipBlank_never (env : Env) (heof : env.charCodes EOF = CHAR_SPACE) (fuel : Nat) :
    ∀ s : State, blankToEnd env s → skipBlank env fuel s = none := by
  induction fuel with
  | zero => intro s _; rfl
  | succ f ih =>
    intro s h
    rw [skipBlank, if_pos h.1]
    exact ih (readChar s) (blankToEnd_readChar env heof s h)

/-- When the value read at `EOF` is `CHAR_SPACE`, `getToken` called on
whitespace that goes up to the end of the input returns for no fuel. -/
theorem getToken_never (env : Env) (heof : env.charCodes EOF = CHAR_SPACE) (s : State)
    (h : blankToEnd env s) (hne : s.currentChar ≠ EOF) (fuel : Nat) :
    getToken env fuel s = none := by
  cases fuel with
  | zero => rfl
  | succ f =>
    rw [getToken, if_neg hne, h.1]
    simp only [skipBlank_never env heof f s h]

/-- Two returning runs of `getToken` from one state, whatever their fuel, return
the same. -/
theorem getToken_unique (env : Env) (f g : Nat) (s : State) (r1 r2 : Token × State)
    (h1 : getToken env f s = some r1) (h2 : getToken env g s = some r2) : r1 = r2 := by
  have e1 := getToken_mono env f (max f g) s r1 (le_max_left _ _) h1
  have e2 := getToken_mono env g (max f g) s r2 (le_max_right _ _) h2
  rw [e1] at e2
  exact Option.some.inj e2

/-- Two returning runs of the line-comment loop from one state return the same. -/
theorem skipLine_unique (f g : Nat) (s r1 r2 : State)
    (h1 : skipLine f s = some r1) (h2 : skipLine g s = some r2) : r1 = r2 := by
  have e1 := skipLine_mono f (max f g) s r1 (le_max_left _ _) h1
  have e2 := skipLine_mono g (max f g) s r2 (le_max_right _ _) h2
  rw [e1] at e2
  exact Option.some.inj e2

/-- The token loop of `scan` returns for no fuel from a state from which
`getToken` returns for no fuel. -/
theorem scanLoop_never_of_getToken (env : Env) (s : State)
    (h : ∀ f, getToken env f s = none) (fuel : Nat) : scanLoop env fuel s = none := by
  cases fuel with
  | zero => rfl
  | succ f => rw [scanLoop, h f]

/-- The token loop of `scan` returns for no fuel from a state where `getToken`
returns a token other than `TK_EOF` and leads to a state from which the loop
returns for no fuel. -/
theorem scanLoop_never_step (env : Env) (s s1 : State) (tok : Token) (k : Nat)
    (h : getToken env k s = some (tok, s1)) (hk : tok.tokenType ≠ TK_EOF)
    (hrest : ∀ f, scanLoop env f s1 = none) (fuel : Nat) : scanLoop env fuel s = none := by
  cases fuel with
  | zero => rfl
  | succ f =>
    rw [scanLoop]
    cases hg : getToken env f s with
    | none => rfl
    | some r =>
      have hr := getToken_unique env f k s r (tok, s1) hg h
      rw [hr]
      simp only [hk, ne_eq, not_false_eq_true, if_true, hrest f]

/-- The token loop of `scan` returns for no fuel when some number `n` of calls
of `getToken` return tokens other than `TK_EOF` and leave the scanner on
whitespace that goes up to the end of the input, the value read at `EOF` being
`CHAR_SPACE`. -/
theorem scanLoop_never_after (env : Env) (heof : env.charCodes EOF = CHAR_SPACE) (k : Nat) :
    ∀ (n : Nat) (s s1 : State) (toks : List Token),
      getTokenTimes env k n s = some (toks, s1) → (∀ t ∈ toks, t.tokenType ≠ TK_EOF) →
      blankToEnd env s1 → s1.currentChar ≠ EOF → ∀ fuel, scanLoop env fuel s = none := by
  intro n
  induction n with
  | zero =>
    intro s s1 toks h _ hb hne fuel
    rw [getTokenTimes] at h
    have hs : s = s1 := (Prod.mk.inj (Option.some.inj h)).2
    rw [hs]
    exact scanLoop_never_of_getToken env s1 (getToken_never env heof s1 hb hne) fuel
  | succ n ih =>
    intro s s1 toks h hall hb hne fuel
    rw [getTokenTimes] at h
    cases hg : getToken env k s with
    | none => rw [hg] at h; simp at h
    | some r =>
      obtain ⟨tok, u⟩ := r
      rw [hg] at h
      dsimp only at h
      cases hr : getTokenTimes env k n u with
      | none => rw [hr] at h; simp at h
      | some q =>
        obtain ⟨rest, v⟩ := q
        rw [hr] at h
        dsimp only at h
        have hinj := Prod.mk.inj (Option.some.inj h)
        have htoks : tok :: rest = toks := hinj.1
        have hv : v = s1 := hinj.2
        rw [hv] at hr
        have hallr : ∀ t ∈ rest, t.tokenType ≠ TK_EOF := fun t ht =>
          hall t (by rw [← htoks]; exact List.mem_cons_of_mem _ ht)
        have htok : tok.tokenType ≠ TK_EOF :=
          hall tok (by rw [← htoks]; exact List.mem_cons_self _ _)
        exact scanLoop_never_step env s u tok k hg htok (ih u s1 rest hr hallr hb hne) fuel

/-- C15, on the code: a whitespace-only input that is not empty.  When the value
read from the table at `EOF` is `CHAR_SPACE`, `skipBlank`, which tests
`charCodes[currentChar]` without testing for `EOF`, goes on past the last
byte: on `w :: ws`, all whitespace, the first call of `getToken` returns for
no fuel, and neither does `scan`; no `TK_EOF` is produced.  On the empty input
the first call returns `TK_EOF` and reports nothing. -/
theorem whitespace_only_never_returns (env : Env) (w : Nat) (ws : List Nat)
    (heof : env.charCodes EOF = CHAR_SPACE)
    (hws : ∀ c ∈ w :: ws, env.charCodes (c : Int) = CHAR_SPACE) :
    (∀ fuel, getToken env fuel (openInputStream (w :: ws)) = none) ∧
    (∀ fuel, scan env fuel (w :: ws) = none) ∧
    (∀ fuel, getToken env (fuel + 1) (openInputStream []) =
      some ({ tokenType := TK_EOF, lineNo := 1, colNo := 1, string := [], value := 0 },
        openInputStream [])) := by
  have hc : (openInputStream (w :: ws)).currentChar = (w : Int) := by
    unfold openInputStream; rw [readChar_currentChar]; rfl
  have hi : (openInputStream (w :: ws)).input = ws := by
    unfold openInputStream; rw [readChar_input]; rfl
  have hb : blankToEnd env (openInputStream (w :: ws)) :=
    ⟨by rw [hc]; exact hws w (List.mem_cons_self _ _),
      fun c hcm => hws c (by rw [hi] at hcm; exact List.mem_cons_of_mem _ hcm)⟩
  have hne : (openInputStream (w :: ws)).currentChar ≠ EOF := by
    rw [hc]; exact nat_ne_EOF w
  have hg := getToken_never env heof (openInputStream (w :: ws)) hb hne
  refine ⟨hg, ?_, ?_⟩
  · intro fuel
    exact scanLoop_never_of_getToken env _ hg fuel
  · intro fuel
    exact getToken_at_EOF env (openInputStream []) fuel rfl

/-- C15, on the code, at blank, tab, newline, blank with the table of the spec
and `CHAR_SPACE` read at `EOF`. -/
theorem whitespace_only_never_returns_witness :
    (∀ fuel, getToken (withEof (kplEnv 15) CHAR_SPACE) fuel
      (openInputStream (32 :: [9, 10, 32])) = none) ∧
    (∀ fuel, scan (withEof (kplEnv 15) CHAR_SPACE) fuel (32 :: [9, 10, 32]) = none) ∧
    (∀ fuel, getToken (withEof (kplEnv 15) CHAR_SPACE) (fuel + 1) (openInputStream []) =
      some ({ tokenType := TK_EOF, lineNo := 1, colNo := 1, string := [], value := 0 },
        openInputStream [])) :=
  whitespace_only_never_returns (withEof (kplEnv 15) CHAR_SPACE) 32 [9, 10, 32] (by decide)
    (by decide)

/-- C16, on the code: `getToken` is not total.  With the table of the spec and
`CHAR_SPACE` read at `EOF`, the scan of `x := 3 + 4 * 2` followed by a newline
returns for no fuel: the seven tokens are returned, then the call on the final
newline never comes back, `skipBlank` going on past the end of the input; the
call of `getToken` on a file that holds one newline returns for no fuel
either.  Without the final newline the table is not read at `EOF` by
`skipBlank` and the scan returns its seven tokens and `TK_EOF`. -/
theorem scan_never_returns :
    (∀ fuel, scan (withEof (kplEnv 15) CHAR_SPACE) fuel (bytes "x := 3 + 4 * 2\n") = none) ∧
    (∀ fuel, getToken (withEof (kplEnv 15) CHAR_SPACE) fuel (openInputStream (bytes "\n")) =
      none) ∧
    (scan (withEof (kplEnv 15) CHAR_SPACE) 17 (bytes "x := 3 + 4 * 2")).map
        (fun r => (r.1.map (fun t => t.tokenType), r.2.1.tokenType, r.2.2.errors)) =
      some ([TK_IDENT, SB_ASSIGN, TK_NUMBER, SB_PLUS, TK_NUMBER, SB_TIMES, TK_NUMBER],
        TK_EOF, []) := by
  have heof : (withEof (kplEnv 15) CHAR_SPACE).charCodes EOF = CHAR_SPACE := by decide
  refine ⟨?_, ?_, by decide⟩
  · intro fuel
    cases hr : getTokenTimes (withEof (kplEnv 15) CHAR_SPACE) 5 7
        (openInputStream (bytes "x := 3 + 4 * 2\n")) with
    | none => exact absurd hr (by decide)
    | some q =>
      obtain ⟨toks, s1⟩ := q
      have hfacts : (getTokenTimes (withEof (kplEnv 15) CHAR_SPACE) 5 7
          (openInputStream (bytes "x := 3 + 4 * 2\n"))).map
            (fun r => (r.1.map (fun t => t.tokenType), r.2.currentChar, r.2.input)) =
          some ([TK_IDENT, SB_ASSIGN, TK_NUMBER, SB_PLUS, TK_NUMBER, SB_TIMES, TK_NUMBER],
            10, []) := by decide
      rw [hr] at hfacts
      have hinj := Prod.mk.inj (Option.some.inj hfacts)
      have hkinds : toks.map (fun t => t.tokenType) =
          [TK_IDENT, SB_ASSIGN, TK_NUMBER, SB_PLUS, TK_NUMBER, SB_TIMES, TK_NUMBER] := hinj.1
      have hcur : s1.currentChar = 10 := (Prod.mk.inj hinj.2).1
      have hin : s1.input = [] := (Prod.mk.inj hinj.2).2
      have hall : ∀ t ∈ toks, t.tokenType ≠ TK_EOF := by
        intro t ht hE
        have hm : TK_EOF ∈ toks.map (fun t => t.tokenType) := by
          rw [← hE]; exact List.mem_map_of_mem _ ht
        rw [hkinds] at hm
        exact absurd hm (by decide)
      have hb : blankToEnd (withEof (kplEnv 15) CHAR_SPACE) s1 :=
        ⟨by rw [hcur]; decide, by rw [hin]; intro c hc; cases hc⟩
      exact scanLoop_never_after _ heof 5 7 _ s1 toks hr hall hb (by rw [hcur]; decide) fuel
  · intro fuel
    exact getToken_never _ heof _ ⟨by decide, by decide⟩ (by decide) fuel

/-- C10, on the code: a line comment that ends the file with its newline.  Let
`s` be on `//` + `c` + newline with nothing after it, `c` without newline, in
a table where newline is whitespace and the value read at `EOF` is
`CHAR_SPACE`.  The remaining input `rest` is empty, and `getToken` started on
it returns `TK_EOF`; but `getToken` from `s` returns for no fuel: after the
comment the self-call is on the newline, and `skipBlank`, which tests
`charCodes[currentChar]` without testing for `EOF`, goes on past the end of
the input. -/
theorem line_comment_at_end_never_returns (env : Env) (c : List Nat) (s t : State)
    (hslash : env.charCodes 47 = CHAR_SLASH) (hnl : env.charCodes 10 = CHAR_SPACE)
    (heof : env.charCodes EOF = CHAR_SPACE) (hc : 10 ∉ c) (hcur : s.currentChar = 47)
    (hin : s.input = 47 :: c ++ [10])
    (ht : t.currentChar = nextChar []) :
    (∀ fuel, getToken env fuel s = none) ∧
    (∀ fuel, getToken env (fuel + 1) t =
      some ({ tokenType := TK_EOF, lineNo := t.lineNo, colNo := t.colNo, string := [],
              value := 0 }, t)) := by
  refine ⟨?_, fun fuel => getToken_at_EOF env t fuel ht⟩
  intro fuel
  cases fuel with
  | zero => rfl
  | succ f =>
    have hne : s.currentChar ≠ EOF := by rw [hcur]; decide
    have hc1 : (readChar s).currentChar = 47 := by rw [readChar_currentChar, hin]; rfl
    have hi1 : (readChar s).input = c ++ 10 :: [] := by rw [readChar_input, hin]; rfl
    have hrun := skipLine_run [] c (readChar s) (c.length + 2) (by rw [hc1]; decide)
      (by rw [hc1]; decide) hi1 hc (le_refl _)
    have hnl1 := iterate_readChar_run c (10 :: []) (readChar s) hi1
    have hb : blankToEnd env (readChar^[c.length + 1] (readChar s)) :=
      ⟨by rw [hnl1.1]; exact hnl, by rw [hnl1.2]; intro x hx; cases hx⟩
    have hne2 : (readChar^[c.length + 1] (readChar s)).currentChar ≠ EOF := by
      rw [hnl1.1]; exact nat_ne_EOF 10
    rw [getToken, if_neg hne, hcur, hslash]
    simp only [hc1, hslash, if_true]
    cases hs : skipLine f (readChar s) with
    | none => rfl
    | some u =>
      have hu := skipLine_unique f (c.length + 2) (readChar s) u _ hs hrun
      rw [hu]
      exact getToken_never env heof _ hb hne2 f

/-- C10, on the code, at `// c` and a newline that ends the file, with the
table of the spec and `CHAR_SPACE` read at `EOF`; `t` is a scanner opened on
the empty rest. -/
theorem line_comment_at_end_never_returns_witness :
    (∀ fuel, getToken (withEof (kplEnv 15) CHAR_SPACE) fuel
      (openInputStream (bytes "// c\n")) = none) ∧
    (∀ fuel, getToken (withEof (kplEnv 15) CHAR_SPACE) (fuel + 1) (openInputStream []) =
      some ({ tokenType := TK_EOF, lineNo := (openInputStream []).lineNo,
              colNo := (openInputStream []).colNo, string := [], value := 0 },
        openInputStream [])) :=
  line_comment_at_end_never_returns (withEof (kplEnv 15) CHAR_SPACE) (bytes " c")
    (openInputStream (bytes "// c\n")) (openInputStream []) (by decide) (by decide) (by decide)
    (by decide) (by decide) (by decide) (by decide)

end Scanner
